import Mathlib

/-!
# Quadlet generator (`cmd/quadlet/main.go`): a shallow embedding

Go strings are immutable byte sequences; they are modelled as `List UInt8`.
`len(s)` is the number of bytes, `s[i:j]` is a byte slice, and `for _, c := range s`
decodes UTF-8 one rune at a time (an invalid byte yields U+FFFD and advances by one).
The Go standard-library functions used by `main.go` (`strings`, `unicode`, `unicode/utf8`,
`path`, `path/filepath` on a Unix target) are embedded below under their Go names.
-/

namespace Quadlet

/-- A Go `string`: a sequence of bytes. -/
abbrev GoString := List UInt8

/-- A Go `rune` (a Unicode code point, `int32`); only values up to `0x10FFFF` occur. -/
abbrev Rune := Nat

deriving instance DecidableEq for Except

/-- The bytes of a string literal (its UTF-8 encoding, as in Go source text). -/
def str (s : String) : GoString := s.toUTF8.data.toList

/-! ## `strings` -/

namespace strings

/-- Go `strings.HasPrefix(s, prefix)`: `len(s) >= len(prefix) && s[:len(prefix)] == prefix`. -/
def HasPrefix (s pre : GoString) : Bool :=
  decide (s.length ≥ pre.length) && s.take pre.length == pre

/-- Go `strings.HasSuffix(s, suffix)`. -/
def HasSuffix (s suf : GoString) : Bool :=
  decide (s.length ≥ suf.length) && s.drop (s.length - suf.length) == suf

/-- Search loop of `strings.Index`: the first offset at or after `i` where `substr` starts. -/
def indexFrom (substr : GoString) : GoString → Nat → Int
  | [], i => if substr = [] then (i : Int) else -1
  | c :: cs, i =>
    if HasPrefix (c :: cs) substr then (i : Int) else indexFrom substr cs (i + 1)

/-- Go `strings.Index(s, substr)`: byte index of the first instance of `substr`, or `-1`. -/
def Index (s substr : GoString) : Int := indexFrom substr s 0

/-- Go `strings.Contains(s, substr)`: `Index(s, substr) >= 0`. -/
def Contains (s substr : GoString) : Bool := decide (Index s substr ≥ 0)

/-- Go `strings.ContainsAny(s, chars)` for a set `chars` of ASCII characters: some byte of `s`
is one of `chars` (an ASCII byte of `s` is always decoded as itself). -/
def ContainsAny (s chars : GoString) : Bool := s.any (fun b => chars.contains b)

end strings

/-! ## `unicode/utf8` and `unicode` -/

namespace utf8

/-- The rune U+FFFD that stands for an invalid encoding. -/
def RuneError : Rune := 0xFFFD

/-- Go `utf8.DecodeRuneInString`: the first rune of `s` and its width in bytes. An empty
string gives `(RuneError, 0)`, an invalid encoding `(RuneError, 1)`. The `first` and
`acceptRanges` tables are inlined as the byte ranges they stand for. -/
def DecodeRuneInString (s : GoString) : Rune × Nat :=
  match s with
  | [] => (RuneError, 0)
  | s0 :: t =>
    let b0 := s0.toNat
    if b0 < 0x80 then (b0, 1)
    else if b0 < 0xC2 ∨ 0xF4 < b0 then (RuneError, 1)
    else
      -- size of the sequence and accepted range of the second byte
      let sz : Nat := if b0 < 0xE0 then 2 else if b0 < 0xF0 then 3 else 4
      let lo : Nat := if b0 = 0xE0 then 0xA0 else if b0 = 0xF0 then 0x90 else 0x80
      let hi : Nat := if b0 = 0xED then 0x9F else if b0 = 0xF4 then 0x8F else 0xBF
      if s.length < sz then (RuneError, 1)
      else
        match t with
        | [] => (RuneError, 1)
        | s1 :: t1 =>
          let b1 := s1.toNat
          if b1 < lo ∨ hi < b1 then (RuneError, 1)
          else if sz ≤ 2 then (((b0 &&& 0x1F) <<< 6) ||| (b1 &&& 0x3F), 2)
          else
            match t1 with
            | [] => (RuneError, 1)
            | s2 :: t2 =>
              let b2 := s2.toNat
              if b2 < 0x80 ∨ 0xBF < b2 then (RuneError, 1)
              else if sz ≤ 3 then
                (((b0 &&& 0x0F) <<< 12) ||| ((b1 &&& 0x3F) <<< 6) ||| (b2 &&& 0x3F), 3)
              else
                match t2 with
                | [] => (RuneError, 1)
                | s3 :: _ =>
                  let b3 := s3.toNat
                  if b3 < 0x80 ∨ 0xBF < b3 then (RuneError, 1)
                  else
                    (((b0 &&& 0x07) <<< 18) ||| ((b1 &&& 0x3F) <<< 12) |||
                      ((b2 &&& 0x3F) <<< 6) ||| (b3 &&& 0x3F), 4)

/-- The runes visited by `for _, c := range s`, with at most `fuel` iterations. -/
def rangeAux : Nat → GoString → List Rune
  | 0, _ => []
  | _ + 1, [] => []
  | fuel + 1, c :: cs =>
    let d := DecodeRuneInString (c :: cs)
    d.1 :: rangeAux fuel ((c :: cs).drop d.2)

/-- The runes visited by `for _, c := range s`. Every iteration consumes at least one byte,
so `len(s)` iterations are enough. -/
def range (s : GoString) : List Rune := rangeAux s.length s

end utf8

namespace unicode

/-- A `unicode.RangeTable` whose ranges all have stride 1: a list of `(Lo, Hi)` pairs. -/
abbrev RangeTable := List (Nat × Nat)

/-- Go `unicode.Hex_Digit`: the code points with the Unicode property `Hex_Digit`, that is
`0-9`, `A-F`, `a-f` and their fullwidth forms `U+FF10-FF19`, `U+FF21-FF26`, `U+FF41-FF46`. -/
def Hex_Digit : RangeTable :=
  [(0x0030, 0x0039), (0x0041, 0x0046), (0x0061, 0x0066),
   (0xff10, 0xff19), (0xff21, 0xff26), (0xff41, 0xff46)]

/-- Go `unicode.Is(rangeTab, r)`: `r` lies in one of the ranges of the table. -/
def Is (rangeTab : RangeTable) (r : Rune) : Bool :=
  rangeTab.any (fun p => decide (p.1 ≤ r) && decide (r ≤ p.2))

end unicode

/-! ## Image-name classification (`main.go`, lines 240-283) -/

/-- The `for _, c := range imageName` loop of `isImageID`: `false` at the first rune that is
not a `Hex_Digit`, `true` when the loop ends. -/
def isImageID.loop : List Rune → Bool
  | [] => true
  | c :: cs => if !unicode.Is unicode.Hex_Digit c then false else isImageID.loop cs

/-- Embedding of `isImageID` (`main.go`, lines 240-259). -/
def isImageID (imageName : GoString) : Bool :=
  if strings.HasPrefix imageName (str "sha256:") then true
  else if imageName.length != 64 then false
  else isImageID.loop (utf8.range imageName)

/-- Embedding of `isUnambiguousName` (`main.go`, lines 261-283). -/
def isUnambiguousName (imageName : GoString) : Bool :=
  if isImageID imageName then true
  else
    let firstSlash := strings.Index imageName (str "/")
    if firstSlash == -1 then false
    else
      let domain := imageName.take firstSlash.toNat
      if strings.ContainsAny domain (str ".:") || domain == str "localhost" then true
      else false


/-! ## Vocabulary used to state the properties of the image-name classification -/

/-- The byte of an ASCII character. -/
abbrev byte (c : Char) : UInt8 := c.toUInt8

/-- The part of `s` before its first `/` (all of `s` when it has none). -/
def firstComponent (s : GoString) : GoString := s.takeWhile (fun b => b != byte '/')

/-- The byte is one of the characters `0-9`, `a-f`, `A-F`. -/
def isHexByte (b : UInt8) : Bool :=
  (decide (0x30 ≤ b.toNat) && decide (b.toNat ≤ 0x39)) ||
  (decide (0x41 ≤ b.toNat) && decide (b.toNat ≤ 0x46)) ||
  (decide (0x61 ≤ b.toNat) && decide (b.toNat ≤ 0x66))

/-- A 64-character hexadecimal string: exactly 64 characters, each one of `0-9`, `a-f`,
`A-F` (such a string has 64 bytes, one per character). -/
def isHex64 (s : GoString) : Bool := decide (s.length = 64) && s.all isHexByte

/-- A 64-byte string of 22 characters: 21 times the fullwidth digit zero (U+FF10, encoded
as `EF BC 90`) followed by the ASCII digit `0`. -/
def fullwidthName : GoString := (List.replicate 21 [0xEF, 0xBC, 0x90]).flatten ++ str "0"

/-! ## `path` and `path/filepath` (Unix target: the separator is `/`, there is no volume name) -/

namespace path

/-- The backtracking step of `Clean` at a `..` element, on the reversed output buffer:
`for out.w > dotdot && out.index(out.w) != '/' { out.w-- }`, where `last` is the byte at
index `out.w` (the byte dropped last). -/
def Clean.backtrack (dotdot : Nat) : UInt8 → List UInt8 → List UInt8
  | _, [] => []
  | last, x :: r =>
    if (x :: r).length > dotdot ∧ last ≠ byte '/' then Clean.backtrack dotdot x r else x :: r

/-- The main loop of `Clean`: `rest` is `path[r:]`, `out` the bytes written so far
(`buf[:out.w]`), `dotdot` the index where `..` must stop. Every iteration consumes at least
one byte of `rest`. -/
def Clean.loop (rooted : Bool) : Nat → GoString → GoString → Nat → GoString
  | 0, _, out, _ => out
  | _ + 1, [], out, _ => out
  | fuel + 1, c :: t, out, dotdot =>
    if c = byte '/' then
      -- empty path element
      Clean.loop rooted fuel t out dotdot
    else if c = byte '.' ∧ (t = [] ∨ t.head? = some (byte '/')) then
      -- . element
      Clean.loop rooted fuel t out dotdot
    else if c = byte '.' ∧ t.head? = some (byte '.') ∧
        (t.tail = [] ∨ t.tail.head? = some (byte '/')) then
      -- .. element: remove to last /
      if out.length > dotdot then
        -- can backtrack
        let out1 :=
          match out.reverse with
          | [] => []
          | last :: r => (Clean.backtrack dotdot last r).reverse
        Clean.loop rooted fuel t.tail out1 dotdot
      else if !rooted then
        -- cannot backtrack, but not rooted, so append .. element
        let out1 := (if out.length > 0 then out ++ [byte '/'] else out) ++ [byte '.', byte '.']
        Clean.loop rooted fuel t.tail out1 out1.length
      else
        Clean.loop rooted fuel t.tail out dotdot
    else
      -- real path element: add slash if needed, copy element
      let out1 :=
        if (rooted && out.length != 1) || (!rooted && out.length != 0) then out ++ [byte '/']
        else out
      Clean.loop rooted fuel ((c :: t).dropWhile (fun b => b != byte '/'))
        (out1 ++ (c :: t).takeWhile (fun b => b != byte '/')) dotdot

/-- Go `path.Clean`: the shortest path name equivalent to `path` by purely lexical
processing. -/
def Clean (path : GoString) : GoString :=
  match path with
  | [] => str "."
  | c :: t =>
    let rooted := c == byte '/'
    let out :=
      if rooted then Clean.loop true path.length t [byte '/'] 1
      else Clean.loop false path.length path [] 0
    -- Turn empty string into "."
    if out.length = 0 then str "." else out

/-- Go `path.Join`: joins the elements with `/`, ignoring leading empty elements, and cleans
the result; all elements empty gives the empty string. -/
def Join (elem : List GoString) : GoString :=
  if (elem.map List.length).sum = 0 then []
  else
    Clean (elem.foldl
      (fun buf e =>
        if buf.length > 0 ∨ e ≠ [] then (if buf.length > 0 then buf ++ [byte '/'] else buf) ++ e
        else buf) [])

/-- Index of the last `/` of `s` plus one (`0` when there is none): the `i+1` of Go
`path.Split`. -/
def lastSlashEnd (s : GoString) : Nat :=
  s.length - (s.reverse.takeWhile (fun b => b != byte '/')).length

/-- Go `path.Split`: `path[:i+1], path[i+1:]` for the index `i` of the last `/`. -/
def Split (path : GoString) : GoString × GoString :=
  (path.take (lastSlashEnd path), path.drop (lastSlashEnd path))

/-- Go `path.Dir`: all but the last element of `path`, cleaned. -/
def Dir (path : GoString) : GoString := Clean (Split path).1

end path

namespace filepath

/-- The path separator of the target. -/
def Separator : UInt8 := byte '/'

/-- Go `filepath.Clean` on a Unix target: the algorithm of `path.Clean`. -/
def Clean (name : GoString) : GoString := path.Clean name

/-- Go `s[i:j]`. -/
def slice (s : GoString) (i j : Nat) : GoString := (s.take j).drop i

/-- The inner loop `for i < len(s) && s[i] != Separator { i++ }` of `Rel`. -/
def Rel.scan (s : GoString) (i : Nat) : Nat :=
  i + ((s.drop i).takeWhile (fun b => b != Separator)).length

/-- The indices `b0, bi, t0, ti` of `Rel`. -/
structure Rel.Pos where
  b0 : Nat
  bi : Nat
  t0 : Nat
  ti : Nat
deriving DecidableEq, Repr

/-- The loop of `Rel` that positions `base[b0:bi]` and `targ[t0:ti]` at the first differing
elements. Every iteration that does not leave the loop advances `bi`. -/
def Rel.loop (base targ : GoString) : Nat → Rel.Pos → Rel.Pos
  | 0, p => p
  | fuel + 1, p =>
    if p.bi < base.length ∧ p.ti < targ.length then
      let b0 := p.bi
      let bi := Rel.scan base p.bi
      let t0 := p.ti
      let ti := Rel.scan targ p.ti
      if slice targ t0 ti ≠ slice base b0 bi then ⟨b0, bi, t0, ti⟩
      else
        let bi := if bi < base.length then bi + 1 else bi
        let ti := if ti < targ.length then ti + 1 else ti
        Rel.loop base targ fuel ⟨bi, bi, ti, ti⟩
    else p

/-- The error of `Rel`: `Rel: can't make <targpath> relative to <basepath>`. -/
def Rel.error (basepath targpath : GoString) : GoString :=
  str "Rel: can't make " ++ targpath ++ str " relative to " ++ basepath

/-- Go `filepath.Rel(basepath, targpath)` on a Unix target: a relative path that is lexically
equivalent to `targpath` when joined to `basepath`, or an error. -/
def Rel (basepath targpath : GoString) : Except GoString GoString :=
  let base := Clean basepath
  let targ := Clean targpath
  if targ = base then .ok (str ".")
  else
    let base := if base = str "." then [] else base
    let baseSlashed := decide (base.length > 0) && base.head? == some Separator
    let targSlashed := decide (targ.length > 0) && targ.head? == some Separator
    if baseSlashed != targSlashed then .error (Rel.error basepath targpath)
    else
      let bl := base.length
      let tl := targ.length
      let p := Rel.loop base targ (bl + 1) ⟨0, 0, 0, 0⟩
      if slice base p.b0 p.bi = str ".." then .error (Rel.error basepath targpath)
      else if p.b0 ≠ bl then
        -- Base elements left. Must go up before going down.
        let seps := (slice base p.b0 bl).count Separator
        let up := str ".." ++ (List.replicate seps (Separator :: str "..")).flatten
        .ok (if p.t0 ≠ tl then up ++ [Separator] ++ targ.drop p.t0 else up)
      else .ok (targ.drop p.t0)

end filepath

/-! ## Unit files (`parser.UnitFile`)

`main.go` imports the packages `parser` and `quadlet` from `pkg/systemd`; neither is
embedded here. A unit file is represented by its two public fields and by the results of
the methods that `main.go` calls on it; the four converters of `quadlet` are parameters. -/

/-- A Go `error`, represented by its message (the text that `%s` prints). -/
abbrev Error := GoString

/-- A `parser.UnitFile` as `main.go` sees it. -/
structure UnitFile where
  /-- The field `Path`. -/
  Path : GoString
  /-- The field `Filename`. -/
  Filename : GoString
  /-- `Lookup(group, key)`: the value and `ok`, as an option. -/
  Lookup : GoString → GoString → Option GoString
  /-- `LookupAllStrv(group, key)`: all values of the key, in file order. -/
  LookupAllStrv : GoString → GoString → List GoString
  /-- The comment lines prepended by `PrependComment` to the group of the given name,
  first line first; the empty name stands for the first group of the unit. -/
  comments : GoString → List GoString
  /-- The text of the unit as a function of the prepended comment lines, or the error of
  rendering it. -/
  text : (GoString → List GoString) → Except Error GoString

/-- Modelled from the spec: the method `PrependComment(groupName, comments...)` of
`parser.UnitFile`, which lives in `pkg/systemd/parser` (the serializer supports
`prependComment(lines...)` to stamp a banner plus a blank separator before the first
group). The first argument is the name of a group, empty for the first group of the unit;
the arguments after it are the comment lines, which are put before that group, in
order. -/
def UnitFile.PrependComment (f : UnitFile) (groupName : GoString) (comments : List GoString) :
    UnitFile :=
  { f with comments := fun g => if g = groupName then comments ++ f.comments g
                                else f.comments g }

/-- Modelled from the spec: the method `ToString()` of `parser.UnitFile`, the textual
rendering of the unit with its prepended comment lines. -/
def UnitFile.ToString (f : UnitFile) : Except Error GoString := f.text f.comments

/-! ## The process and its surroundings

`main.go` keeps three package-level variables between calls (`noKmsg`, `kmsgFile`,
`debugEnabled`) and talks to the operating system. The operating system is a parameter: a
state type `σ` and, for every call the program makes, a function from the state to the
result of the call and the next state. Every call is also appended to a trace, so that what
the program did can be observed. The environment variables, the user and the source
directories are only read, and the generator does not change them: what is read is a
function of its arguments alone. -/

/-- The operating-system calls made by `main.go`. `none` is the `nil` error. -/
structure OS (σ : Type) where
  /-- `os.Getpid()`. -/
  Getpid : Nat
  /-- `os.Args[0]`. -/
  Args0 : GoString
  /-- `os.OpenFile("/dev/kmsg", os.O_WRONLY, 0644)`. -/
  OpenKmsg : σ → Option Error × σ
  /-- `kmsgFile.Write([]byte(s))`. -/
  WriteKmsg : GoString → σ → Option Error × σ
  /-- `kmsgFile.Close()`. -/
  CloseKmsg : σ → σ
  /-- `os.MkdirAll(path, os.ModePerm)`. -/
  MkdirAll : GoString → σ → Option Error × σ
  /-- `os.Remove(name)`. -/
  Remove : GoString → σ → Option Error × σ
  /-- `os.Symlink(oldname, newname)`. -/
  Symlink : GoString → GoString → σ → Option Error × σ
  /-- `os.Create(name)`. -/
  Create : GoString → σ → Option Error × σ
  /-- `f.Write(data)` on the file created at the path. -/
  Write : GoString → GoString → σ → Option Error × σ
  /-- `f.Sync()` on the file created at the path. -/
  Sync : GoString → σ → Option Error × σ
  /-- `f.Close()` on the file created at the path. -/
  Close : GoString → σ → σ
  /-- `os.Getenv(key)`: the value of the variable, empty when it is unset. -/
  Getenv : GoString → GoString
  /-- `os.UserConfigDir()`. -/
  UserConfigDir : Except Error GoString
  /-- `user.Current()`: the field `Uid` of the current user. -/
  CurrentUid : Except Error GoString
  /-- `os.ReadDir(name)`: the names of the directory entries, or the error together with
  `errors.Is(err, os.ErrNotExist)`. -/
  ReadDir : GoString → Except (Error × Bool) (List GoString)
  /-- `parser.ParseUnitFile(pathName)`. -/
  ParseUnitFile : GoString → Except Error UnitFile
  /-- The constant `rawversion.RawVersion` of the build. -/
  RawVersion : GoString

/-- One observable action of the process. -/
inductive Event where
  | openKmsg (err : Option Error)
  | writeKmsg (line : GoString) (err : Option Error)
  | closeKmsg
  | stderr (text : GoString)
  | stdout (text : GoString)
  | mkdirAll (path : GoString) (err : Option Error)
  | remove (path : GoString) (err : Option Error)
  | symlink (oldname newname : GoString) (err : Option Error)
  | create (path : GoString) (err : Option Error)
  | write (path data : GoString) (err : Option Error)
  | sync (path : GoString) (err : Option Error)
  | close (path : GoString)
  | readDir (path : GoString) (err : Option Error)
  | parseUnitFile (path : GoString) (err : Option Error)
deriving DecidableEq, Repr

/-- The state of a run: the package-level variables of `main.go`, the state of the
operating system, and the trace of the actions performed so far (oldest first). -/
structure World (σ : Type) where
  /-- The variable `noKmsg`. -/
  noKmsg : Bool
  /-- Whether `kmsgFile != nil`. -/
  kmsgFile : Bool
  /-- The variable `debugEnabled`. -/
  debugEnabled : Bool
  /-- The state of the operating system. -/
  sys : σ
  /-- The actions performed so far. -/
  trace : List Event
deriving DecidableEq, Repr

/-- Performs a system call: takes its result and next state, and records it in the trace. -/
def World.call {σ : Type} (w : World σ) (r : Option Error × σ) (ev : Option Error → Event) :
    Option Error × World σ :=
  (r.1, { w with sys := r.2, trace := w.trace ++ [ev r.1] })

/-- Appends an action that has no result to the trace. -/
def World.emit {σ : Type} (w : World σ) (ev : Event) : World σ :=
  { w with trace := w.trace ++ [ev] }

namespace fmt

/-- The verb `%d` of `fmt.Sprintf` for a non-negative integer: its decimal digits. -/
def d (n : Nat) : GoString := (Nat.toDigits 10 n).map Char.toUInt8

end fmt

/-! ## Logging (`main.go`, lines 51-97) -/

/-- Lines 67-73 of `logToKmsg`: the write to the open device. -/
def logToKmsg.write {σ : Type} (os : OS σ) (s : GoString) (w : World σ) : Bool × World σ :=
  let r := w.call (os.WriteKmsg s w.sys) (Event.writeKmsg s)
  if r.1.isSome then
    (false, { r.2 with sys := os.CloseKmsg r.2.sys, kmsgFile := false,
                       trace := r.2.trace ++ [Event.closeKmsg] })
  else (true, r.2)

/-- Embedding of `logToKmsg` (`main.go`, lines 53-74). -/
def logToKmsg {σ : Type} (os : OS σ) (s : GoString) (w : World σ) : Bool × World σ :=
  if w.noKmsg then (false, w)
  else if w.kmsgFile = false then
    let r := w.call (os.OpenKmsg w.sys) Event.openKmsg
    if r.1.isSome then (false, { r.2 with noKmsg := true })
    else logToKmsg.write os s { r.2 with kmsgFile := true }
  else logToKmsg.write os s w

/-- The line that `Logf` builds: `quadlet-generator[<pid>]: <message>`. -/
def Logf.line {σ : Type} (os : OS σ) (s : GoString) : GoString :=
  str "quadlet-generator[" ++ fmt.d os.Getpid ++ str "]: " ++ s

/-- Embedding of `Logf` (`main.go`, lines 76-85); `s` is the formatted message
`fmt.Sprintf(format, a...)`. -/
def Logf {σ : Type} (os : OS σ) (s : GoString) (w : World σ) : World σ :=
  let line := Logf.line os s
  let r := logToKmsg os line w
  if !r.1 then
    -- If we can't log, print to stderr
    r.2.emit (Event.stderr (line ++ str "\n"))
  else r.2

/-- Embedding of `Debugf` (`main.go`, lines 93-97). -/
def Debugf {σ : Type} (os : OS σ) (s : GoString) (w : World σ) : World σ :=
  if w.debugEnabled then Logf os s w else w

/-! ## The converters and constants of package `quadlet` -/

/-- The converters of package `quadlet`. -/
structure Converters where
  ConvertContainer : UnitFile → Bool → Except Error UnitFile
  ConvertVolume : UnitFile → GoString → Except Error UnitFile
  ConvertKube : UnitFile → Bool → Except Error UnitFile
  ConvertNetwork : UnitFile → GoString → Except Error UnitFile

namespace quadlet

/-- Modelled from the spec: the constant `quadlet.InstallGroup`, the name of the unit
section `Install` that holds `Alias`, `WantedBy` and `RequiredBy`. -/
def InstallGroup : GoString := str "Install"

/-- Modelled from the spec: the constant `quadlet.ContainerGroup`, the name of the group
`Container` of a `.container` file. -/
def ContainerGroup : GoString := str "Container"

/-- Modelled from the spec: the constant `quadlet.KeyImage`, the key `Image` of the
directive `Image=`. -/
def KeyImage : GoString := str "Image"

end quadlet

/-! ## Writing and enabling a generated unit (`main.go`, lines 161-238) -/

/-- Modelled from the spec: the method `Write` of `parser.UnitFile` (the serializer,
`unitFile.write(target) -> error`), which lives in `pkg/systemd/parser`. It renders the
unit and writes the text to the file; the error is that of rendering or of the write. -/
def UnitFile.Write {σ : Type} (os : OS σ) (f : UnitFile) (path : GoString) (w : World σ) :
    Option Error × World σ :=
  match f.ToString with
  | .error e => (some e, w)
  | .ok data => w.call (os.Write path data w.sys) (Event.write path data)

/-- Embedding of `generateServiceFile` (`main.go`, lines 161-186). The unit is passed by
pointer and changed by `PrependComment`, so the changed unit is returned as well. -/
def generateServiceFile {σ : Type} (os : OS σ) (service : UnitFile) (w : World σ) :
    Option Error × UnitFile × World σ :=
  let w := Debugf os (str "writing '" ++ service.Path ++ str "'") w
  let service := service.PrependComment (str "")
    [str "Automatically generated by " ++ os.Args0, str ""]
  let c := w.call (os.Create service.Path w.sys) (Event.create service.Path)
  if c.1.isSome then (c.1, service, c.2)
  else
    -- `defer f.Close()` runs at every return below
    let close (w : World σ) : World σ :=
      { w with sys := os.Close service.Path w.sys,
               trace := w.trace ++ [Event.close service.Path] }
    let wr := service.Write os service.Path c.2
    if wr.1.isSome then (wr.1, service, close wr.2)
    else
      let sy := wr.2.call (os.Sync service.Path wr.2.sys) (Event.sync service.Path)
      if sy.1.isSome then (sy.1, service, close sy.2)
      else (none, service, close sy.2)

/-- Lines 193-214 of `enableServiceFile`: the list `symlinks`, built by appending in three
loops over the values of `Alias`, `WantedBy` and `RequiredBy`. -/
def enableServiceFile.symlinks (service : UnitFile) : List GoString :=
  let symlinks : List GoString := []
  let aliases := service.LookupAllStrv quadlet.InstallGroup (str "Alias")
  let symlinks := aliases.foldl (fun symlinks a => symlinks ++ [filepath.Clean a]) symlinks
  let wantedBy := service.LookupAllStrv quadlet.InstallGroup (str "WantedBy")
  let symlinks := wantedBy.foldl
    (fun symlinks wantedByUnit =>
      -- Only allow filenames, not paths
      if !strings.Contains wantedByUnit (str "/") then
        symlinks ++ [wantedByUnit ++ str ".wants/" ++ service.Filename]
      else symlinks) symlinks
  let requiredBy := service.LookupAllStrv quadlet.InstallGroup (str "RequiredBy")
  requiredBy.foldl
    (fun symlinks requiredByUnit =>
      -- Only allow filenames, not paths
      if !strings.Contains requiredByUnit (str "/") then
        symlinks ++ [requiredByUnit ++ str ".requires/" ++ service.Filename]
      else symlinks) symlinks

/-- Lines 222-236 of `enableServiceFile`: creating the link `symlinkRel` once its target is
known. -/
def enableServiceFile.create {σ : Type} (os : OS σ) (outputPath symlinkRel target : GoString)
    (w : World σ) : World σ :=
  let symlinkPath := path.Join [outputPath, symlinkRel]
  let symlinkDir := path.Dir symlinkPath
  let m := w.call (os.MkdirAll symlinkDir w.sys) (Event.mkdirAll symlinkDir)
  match m.1 with
  | some err => Logf os (str "Can't create dir " ++ symlinkDir ++ str ": " ++ err) m.2
  | none =>
    let w := Debugf os (str "Creating symlink " ++ symlinkPath ++ str " -> " ++ target) m.2
    -- overwrite existing symlinks
    let r := w.call (os.Remove symlinkPath w.sys) (Event.remove symlinkPath)
    let s := r.2.call (os.Symlink target symlinkPath r.2.sys) (Event.symlink target symlinkPath)
    match s.1 with
    | some err => Logf os (str "Failed creating symlink " ++ symlinkPath ++ str ": " ++ err) s.2
    | none => s.2

/-- The body of the loop at lines 216-237 of `enableServiceFile`, for one planned link. -/
def enableServiceFile.link {σ : Type} (os : OS σ) (outputPath : GoString) (service : UnitFile)
    (symlinkRel : GoString) (w : World σ) : World σ :=
  match filepath.Rel (path.Dir symlinkRel) service.Filename with
  | .error err =>
    Logf os (str "Can't create symlink " ++ symlinkRel ++ str ": " ++ err) w
  | .ok target => enableServiceFile.create os outputPath symlinkRel target w

/-- The loop at lines 216-237 of `enableServiceFile` over a list of planned links. -/
def enableServiceFile.links {σ : Type} (os : OS σ) (outputPath : GoString) (service : UnitFile)
    (symlinks : List GoString) (w : World σ) : World σ :=
  symlinks.foldl (fun w symlinkRel => enableServiceFile.link os outputPath service symlinkRel w) w

/-- Embedding of `enableServiceFile` (`main.go`, lines 192-238). -/
def enableServiceFile {σ : Type} (os : OS σ) (outputPath : GoString) (service : UnitFile)
    (w : World σ) : World σ :=
  enableServiceFile.links os outputPath service (enableServiceFile.symlinks service) w

/-! ## The image-name warning and the loop of `main` (`main.go`, lines 295-303, 360-399) -/

/-- The text of the warning of `warnIfAmbiguousName`. -/
def warnIfAmbiguousName.message (filename imageName : GoString) : GoString :=
  str "Warning: " ++ filename ++ str " specifies the image \"" ++ imageName ++
    str "\" which not a fully qualified image name. This is not ideal for performance and security reasons. See the podman-pull manpage discussion of short-name-aliases.conf for details."

/-- Embedding of `warnIfAmbiguousName` (`main.go`, lines 295-303). -/
def warnIfAmbiguousName {σ : Type} (os : OS σ) (container : UnitFile) (w : World σ) : World σ :=
  match container.Lookup quadlet.ContainerGroup quadlet.KeyImage with
  | none => w
  | some imageName =>
    if !isUnambiguousName imageName then
      Logf os (warnIfAmbiguousName.message container.Filename imageName) w
    else w

/-- The state of the loop of `main`: the world and the local variable `exitCode`. -/
structure LoopState (σ : Type) where
  world : World σ
  exitCode : Nat
deriving DecidableEq, Repr

/-- The `switch` at lines 364-377 of `main`: the converter result for the unit `name`, or
`none` when the `default` branch ends the iteration with `continue`. -/
def main.convert {σ : Type} (os : OS σ) (cv : Converters) (isUserFlag : Bool)
    (name : GoString) (unit : UnitFile) (w : World σ) :
    Option (Except Error UnitFile) × World σ :=
  if strings.HasSuffix name (str ".container") then
    let w := warnIfAmbiguousName os unit w
    (some (cv.ConvertContainer unit isUserFlag), w)
  else if strings.HasSuffix name (str ".volume") then
    (some (cv.ConvertVolume unit name), w)
  else if strings.HasSuffix name (str ".kube") then
    (some (cv.ConvertKube unit isUserFlag), w)
  else if strings.HasSuffix name (str ".network") then
    (some (cv.ConvertNetwork unit name), w)
  else
    (none, Logf os (str "Unsupported file type '" ++ name ++ str "'") w)

/-- Lines 379-398 of `main`: what is done with the result of the converter. -/
def main.emit {σ : Type} (os : OS σ) (dryRunFlag : Bool) (outputPath name : GoString)
    (res : Except Error UnitFile) (st : LoopState σ) : LoopState σ :=
  match res with
  | .error err =>
    { st with world := Logf os (str "Error converting '" ++ name ++ str "', ignoring: " ++ err)
                st.world }
  | .ok service =>
    let service := { service with Path := path.Join [outputPath, service.Filename] }
    if dryRunFlag then
      match service.ToString with
      | .error _ =>
        { world := Debugf os (str "Error parsing " ++ service.Path ++ str "\n---\n") st.world,
          exitCode := 1 }
      | .ok data =>
        let text := str "---" ++ service.Path ++ str "---\n" ++ data ++ str "\n"
        { st with world := World.emit st.world (Event.stdout text) }
    else
      let g := generateServiceFile os service st.world
      let w :=
        match g.1 with
        | some err => Logf os (str "Error writing '" ++ service.Path ++ str "'o: " ++ err) g.2.2
        | none => g.2.2
      { st with world := enableServiceFile os outputPath g.2.1 w }

/-- The body of the loop at lines 360-399 of `main`, for one entry of `units`. -/
def main.body {σ : Type} (os : OS σ) (cv : Converters) (isUserFlag dryRunFlag : Bool)
    (outputPath name : GoString) (unit : UnitFile) (st : LoopState σ) : LoopState σ :=
  let c := main.convert os cv isUserFlag name unit st.world
  match c.1 with
  | none => { st with world := c.2 }
  | some res => main.emit os dryRunFlag outputPath name res { st with world := c.2 }

/-! ## Vocabulary used to state the properties of the generator -/

/-- Modelled from the spec: the file name of a generated unit, which the converters of
package `quadlet` derive from the base name of the source file by giving it the suffix
`.service`. It is a bare file name: it contains no `/`. -/
def isGeneratedName (name : GoString) : Bool :=
  decide (byte '/' ∉ name) && strings.HasSuffix name (str ".service")

/-- The calls of `os.Symlink` in a trace, oldest first, as pairs (link path, target). -/
def symlinkCalls : List Event → List (GoString × GoString)
  | [] => []
  | Event.symlink oldname newname _ :: t => (newname, oldname) :: symlinkCalls t
  | _ :: t => symlinkCalls t

/-- The paths passed to `os.Remove` in a trace, oldest first. -/
def removeCalls : List Event → List GoString
  | [] => []
  | Event.remove p _ :: t => p :: removeCalls t
  | _ :: t => removeCalls t

/-- The paths passed to `os.MkdirAll` in a trace, oldest first. -/
def mkdirAllCalls : List Event → List GoString
  | [] => []
  | Event.mkdirAll p _ :: t => p :: mkdirAllCalls t
  | _ :: t => mkdirAllCalls t

/-- The action belongs to logging: it opens, writes or closes the kernel log device, or
writes to standard error. -/
def Event.isLog : Event → Bool
  | Event.openKmsg _ => true
  | Event.writeKmsg _ _ => true
  | Event.closeKmsg => true
  | Event.stderr _ => true
  | _ => false

/-- The log lines delivered in a trace, oldest first: the lines written to the kernel log
without error and the texts written to standard error. -/
def delivered : List Event → List GoString
  | [] => []
  | Event.writeKmsg line none :: t => line :: delivered t
  | Event.stderr text :: t => text :: delivered t
  | _ :: t => delivered t

/-- A plain path element: non-empty, without `/`, and neither `.` nor `..`. -/
def isElem (x : GoString) : Prop :=
  x ≠ [] ∧ byte '/' ∉ x ∧ x ≠ str "." ∧ x ≠ str ".."

/-! ## A concrete operating system: a store of symbolic links -/

/-- The symbolic links of a file system, as pairs (path, target), newest first. -/
abbrev Links := List (GoString × GoString)

/-- An operating system that keeps track of symbolic links only. Every directory can be
created; `os.Remove` deletes the link at the path and fails when there is none;
`os.Symlink` fails with `file exists` when there is a link at the path already and creates
the link otherwise. The kernel log device and regular files accept every call. No
environment variable is set, the user is unknown and there is no source directory. -/
def linkStore (pid : Nat) (args0 : GoString) : OS Links where
  Getpid := pid
  Args0 := args0
  OpenKmsg := fun s => (none, s)
  WriteKmsg := fun _ s => (none, s)
  CloseKmsg := fun s => s
  MkdirAll := fun _ s => (none, s)
  Remove := fun p s =>
    if (s.lookup p).isSome then (none, s.filter (fun e => e.1 != p))
    else (some (str "remove " ++ p ++ str ": no such file or directory"), s)
  Symlink := fun oldname newname s =>
    if (s.lookup newname).isSome then
      (some (str "symlink " ++ oldname ++ str " " ++ newname ++ str ": file exists"), s)
    else (none, (newname, oldname) :: s)
  Create := fun _ s => (none, s)
  Write := fun _ _ s => (none, s)
  Sync := fun _ s => (none, s)
  Close := fun _ s => s
  Getenv := fun _ => []
  UserConfigDir := .error (str "neither $XDG_CONFIG_HOME nor $HOME are defined")
  CurrentUid := .error (str "user: Current requires cgo or $USER set in environment")
  ReadDir := fun name => .error (str "open " ++ name ++ str ": no such file or directory", true)
  ParseUnitFile := fun name =>
    .error (str "open " ++ name ++ str ": no such file or directory")
  RawVersion := str "4.5.0"

/-- The world at the start of a run on the given operating-system state: the package-level
variables have their initial values and nothing has been done yet. -/
def World.start {σ : Type} (s : σ) : World σ :=
  { noKmsg := false, kmsgFile := false, debugEnabled := false, sys := s, trace := [] }

/-- A unit with the given file name whose `Install` group has the given values of `Alias`,
`WantedBy` and `RequiredBy`, whose `Container` group has the given `Image`, and which
renders to the given text after the comment lines of its first group, each written as `#`,
a blank and the line. -/
def UnitFile.sample (filename : GoString) (aliases wantedBy requiredBy : List GoString)
    (image : Option GoString) (body : GoString) : UnitFile where
  Path := []
  Filename := filename
  Lookup := fun g k =>
    if g = quadlet.ContainerGroup ∧ k = quadlet.KeyImage then image else none
  LookupAllStrv := fun g k =>
    if g = quadlet.InstallGroup then
      if k = str "Alias" then aliases
      else if k = str "WantedBy" then wantedBy
      else if k = str "RequiredBy" then requiredBy
      else []
    else []
  comments := fun _ => []
  text := fun comments =>
    .ok (((comments (str "")).map (fun c => str "# " ++ c ++ str "\n")).flatten ++ body)

/-- A generated unit `web.service` with `Alias=foo.service` and
`WantedBy=multi-user.target`. -/
def sampleService : UnitFile :=
  UnitFile.sample (str "web.service") [str "foo.service"] [str "multi-user.target"] [] none
    (str "[Service]\n")

/-- A generated unit `web.service` with `Alias=.`. -/
def dotAliasService : UnitFile :=
  UnitFile.sample (str "web.service") [str "."] [] [] none (str "[Service]\n")

/-- A generated unit `web.service` with `Alias=..`. -/
def dotdotAliasService : UnitFile :=
  UnitFile.sample (str "web.service") [str ".."] [] [] none (str "[Service]\n")

/-- An operating system like `linkStore` in which three things fail: the kernel log device
cannot be opened, the directory `/run/gen/multi-user.target.wants` cannot be created, and
no link can be created at `/run/gen/foo.service`. -/
def faultyStore : OS Links :=
  { linkStore 42 (str "quadlet") with
    OpenKmsg := fun s => (some (str "open /dev/kmsg: permission denied"), s)
    MkdirAll := fun p s =>
      if p = str "/run/gen/multi-user.target.wants" then
        (some (str "mkdir " ++ p ++ str ": permission denied"), s)
      else (none, s)
    Symlink := fun oldname newname s =>
      if newname = str "/run/gen/foo.service" then
        (some (str "symlink " ++ oldname ++ str " " ++ newname ++ str ": permission denied"), s)
      else (linkStore 42 (str "quadlet")).Symlink oldname newname s }

/-- A generated unit `web.service` with `Alias=/abs foo.service`,
`WantedBy=multi-user.target` and `RequiredBy=default.target`. -/
def manyLinksService : UnitFile :=
  UnitFile.sample (str "web.service") [str "/abs", str "foo.service"] [str "multi-user.target"]
    [str "default.target"] none (str "[Service]\n")

/-- Converters that succeed on every unit: the generated unit is the source unit under the
file name `web.service`. -/
def sampleConverters : Converters where
  ConvertContainer := fun unit _ => .ok { unit with Filename := str "web.service" }
  ConvertVolume := fun unit _ => .ok { unit with Filename := str "web-volume.service" }
  ConvertKube := fun unit _ => .ok { unit with Filename := str "web.service" }
  ConvertNetwork := fun unit _ => .ok { unit with Filename := str "web-network.service" }

/-- A source unit `web.container` with `Image=fedora` (a short name) and
`WantedBy=multi-user.target`. -/
def shortNameContainer : UnitFile :=
  UnitFile.sample (str "web.container") [] [str "multi-user.target"] [] (some (str "fedora"))
    (str "[Container]\nImage=fedora\n")

/-! ## Vocabulary used to state that enabling a unit twice changes nothing -/

/-- A file system on which directory and link creation succeed, seen as a store of
symbolic links: `links s p` is the target of the link at the path `p` in the state `s`.
Creating a directory succeeds and changes no link; `os.Remove` deletes the link at its
path; `os.Symlink` creates the link when the path is free and fails, changing nothing, when
a link is present; logging to the kernel log changes no link. -/
structure SymlinkStore {σ : Type} (os : OS σ) (links : σ → GoString → Option GoString) :
    Prop where
  mkdirAll_ok : ∀ p s, (os.MkdirAll p s).1 = none
  mkdirAll_links : ∀ p s, links (os.MkdirAll p s).2 = links s
  remove_links : ∀ p s q, links (os.Remove p s).2 q = if q = p then none else links s q
  symlink_free : ∀ t p s, links s p = none →
    (os.Symlink t p s).1 = none ∧
    ∀ q, links (os.Symlink t p s).2 q = if q = p then some t else links s q
  symlink_present : ∀ t p s, links s p ≠ none →
    (os.Symlink t p s).1 ≠ none ∧ links (os.Symlink t p s).2 = links s
  openKmsg_links : ∀ s, links (os.OpenKmsg s).2 = links s
  writeKmsg_links : ∀ l s, links (os.WriteKmsg l s).2 = links s
  closeKmsg_links : ∀ s, links (os.CloseKmsg s) = links s

/-- The failures of directory and link creation in a trace: the calls of `os.MkdirAll` and
`os.Symlink` that returned an error. -/
def linkFailures : List Event → List Event
  | [] => []
  | Event.mkdirAll p (some e) :: t => Event.mkdirAll p (some e) :: linkFailures t
  | Event.symlink o n (some e) :: t => Event.symlink o n (some e) :: linkFailures t
  | _ :: t => linkFailures t

/-- The link that `enableServiceFile` creates for the planned relative path `l`: its path
`path.Join(outputPath, l)` and its target, when the target can be computed. -/
def plannedLink (outputPath filename l : GoString) : Option (GoString × GoString) :=
  match filepath.Rel (path.Dir l) filename with
  | .ok target => some (path.Join [outputPath, l], target)
  | .error _ => none

/-- The links of a store after the links `ls` (path, target) were put into it in order. -/
def putLinks (ls : List (GoString × GoString)) (f : GoString → Option GoString) :
    GoString → Option GoString :=
  ls.foldl (fun f e => fun q => if q = e.1 then some e.2 else f q) f

/-! ## More of `strings`, `path` and `path/filepath` -/

namespace strings

/-- The loop of `strings.Split` for a non-empty separator: cut at the first instance of
`sep` and go on with the rest. -/
def Split.loop (sep : GoString) : Nat → GoString → List GoString
  | 0, s => [s]
  | fuel + 1, s =>
    let m := Index s sep
    if m < 0 then [s]
    else s.take m.toNat :: Split.loop sep fuel (s.drop (m.toNat + sep.length))

/-- Go `strings.Split(s, sep)` for a non-empty separator `sep`: the substrings of `s`
between the instances of `sep`. There are at most `len(s)` instances. -/
def Split (s sep : GoString) : List GoString := Split.loop sep s.length s

/-- Go `strings.Join(elems, sep)`. -/
def Join (elems : List GoString) (sep : GoString) : GoString :=
  match elems with
  | [] => []
  | e :: es => es.foldl (fun b x => b ++ sep ++ x) e

end strings

namespace path

/-- Go `path.Base`: the last element of `path`, after removing trailing slashes; `.` for the
empty path and `/` for a path of slashes only. -/
def Base (path : GoString) : GoString :=
  if path = [] then str "."
  else
    -- Strip trailing slashes.
    let path := (path.reverse.dropWhile (fun b => b == byte '/')).reverse
    -- Find the last element
    let path := if byte '/' ∈ path then path.drop (lastSlashEnd path) else path
    -- If empty now, it had only slashes.
    if path = [] then str "/" else path

end path

namespace filepath

/-- The loop of `Ext`, from the last byte backwards: `rest` is `path[:i+1]` reversed and
`suffix` is `path[i+1:]`. -/
def Ext.loop : List UInt8 → GoString → GoString
  | [], _ => []
  | c :: rest, suffix =>
    if c = Separator then []
    else if c = byte '.' then c :: suffix
    else Ext.loop rest (c :: suffix)

/-- Go `filepath.Ext`: the suffix beginning at the final dot in the final element of
`path`; empty if there is no dot. -/
def Ext (path : GoString) : GoString := Ext.loop path.reverse []

/-- Go `filepath.Join` on a Unix target: the elements from the first non-empty one on,
joined with the separator and cleaned; empty when all elements are empty. -/
def Join : List GoString → GoString
  | [] => []
  | e :: es => if e ≠ [] then Clean (strings.Join (e :: es) [Separator]) else Join es

end filepath

/-! ## Finding and loading the source units (`main.go`, lines 41-49, 99-159) -/

namespace quadlet

/-- Modelled from the spec: the constant `quadlet.UnitDirAdmin`, the directory of the files
of the administrator, which has priority; its value is the one named in the comment of
`getUnitDirs`. -/
def UnitDirAdmin : GoString := str "/etc/containers/systemd"

/-- Modelled from the spec: the constant `quadlet.UnitDirDistro`, the directory of the
files of the distribution; its value is the one named in the comment of `getUnitDirs`. -/
def UnitDirDistro : GoString := str "/usr/share/containers/systemd"

end quadlet

/-- The keys of the map `supportedExtensions` (`main.go`, lines 43-48). -/
def supportedExtensions : List GoString :=
  [str ".container", str ".volume", str ".kube", str ".network"]

/-- Embedding of `getUnitDirs` (`main.go`, lines 103-128). The two warnings go to standard
error directly. -/
def getUnitDirs {σ : Type} (os : OS σ) (rootless : Bool) (w : World σ) :
    List GoString × World σ :=
  -- Allow overriding source dir, this is mainly for the CI tests
  let unitDirsEnv := os.Getenv (str "QUADLET_UNIT_DIRS")
  if unitDirsEnv.length > 0 then (strings.Split unitDirsEnv (str ":"), w)
  else
    let dirs : List GoString := []
    if rootless then
      match os.UserConfigDir with
      | .error err => ([], w.emit (Event.stderr (str "Warning: " ++ err)))
      | .ok configDir =>
        let dirs := dirs ++ [path.Join [configDir, str "containers/systemd"]]
        match os.CurrentUid with
        | .ok uid =>
          let dirs := dirs ++ [filepath.Join [quadlet.UnitDirAdmin, str "users", uid]]
          (dirs ++ [filepath.Join [quadlet.UnitDirAdmin, str "users"]], w)
        | .error err =>
          (dirs ++ [filepath.Join [quadlet.UnitDirAdmin, str "users"]],
            w.emit (Event.stderr (str "Warning: " ++ err)))
    else
      let dirs := dirs ++ [quadlet.UnitDirAdmin]
      (dirs ++ [quadlet.UnitDirDistro], w)

/-- Embedding of `isExtSupported` (`main.go`, lines 130-134). -/
def isExtSupported (filename : GoString) : Bool :=
  let ext := filepath.Ext filename
  supportedExtensions.contains ext

/-- The map `units` of `main`, a Go `map[string]*parser.UnitFile`: its entries, with
distinct keys. Every value stored is a parsed unit, so a lookup gives `nil` exactly for
the keys that are absent. -/
abbrev Units := List (GoString × UnitFile)

/-- The map lookup `units[name]`; `none` is `nil`. -/
def Units.get (units : Units) (name : GoString) : Option UnitFile :=
  (units.find? (fun e => e.1 == name)).map (fun e => e.2)

/-- The map assignment `units[name] = f`: replaces the value of the key, or adds the
key. -/
def Units.set (units : Units) (name : GoString) (f : UnitFile) : Units :=
  if (units.get name).isSome then units.map (fun e => if e.1 = name then (name, f) else e)
  else units ++ [(name, f)]

/-- The body of the loop at lines 145-158 of `loadUnitsFromDir`, for one directory entry. -/
def loadUnitsFromDir.file {σ : Type} (os : OS σ) (sourcePath name : GoString)
    (st : Units × World σ) : Units × World σ :=
  if (st.1.get name).isNone && isExtSupported name then
    let path := path.Join [sourcePath, name]
    let w := Debugf os (str "Loading source unit file " ++ path) st.2
    match os.ParseUnitFile path with
    | .error err =>
      (st.1, Logf os (str "Error loading '" ++ path ++ str "', ignoring: " ++ err)
        (w.emit (Event.parseUnitFile path (some err))))
    | .ok f => (st.1.set name f, w.emit (Event.parseUnitFile path none))
  else st

/-- Embedding of `loadUnitsFromDir` (`main.go`, lines 136-159). The map is passed by
reference, so the changed map is returned. -/
def loadUnitsFromDir {σ : Type} (os : OS σ) (sourcePath : GoString) (st : Units × World σ) :
    Units × World σ :=
  match os.ReadDir sourcePath with
  | .error err =>
    let w := st.2.emit (Event.readDir sourcePath (some err.1))
    if !err.2 then
      (st.1, Logf os (str "Can't read \"" ++ sourcePath ++ str "\": " ++ err.1) w)
    else (st.1, w)
  | .ok files =>
    files.foldl (fun st name => loadUnitsFromDir.file os sourcePath name st)
      (st.1, st.2.emit (Event.readDir sourcePath none))

/-! ## `main` (`main.go`, lines 305-402) -/

/-- The command line after `flag.Parse()` has accepted it: the values of the flags and the
remaining arguments `flag.Args()`. `userFlag` is the value of `-user` when it is given. -/
structure CommandLine where
  verboseFlag : Bool
  noKmsgFlag : Bool
  userFlag : Option Bool
  dryRunFlag : Bool
  versionFlag : Bool
  args : List GoString

/-- The order in which `for name, unit := range units` visits the entries of a map. Go
leaves it unspecified: it is some rearrangement of the entries. -/
structure RangeOrder where
  visit : Units → Units
  perm : ∀ units : Units, (visit units).Perm units

/-- Embedding of `enableDebug` (`main.go`, lines 89-91). -/
def enableDebug {σ : Type} (w : World σ) : World σ := { w with debugEnabled := true }

namespace fmt

/-- The verb `%s` of `fmt.Sprintf` for a `[]string`: the elements separated by spaces,
between brackets. -/
def strings (a : List GoString) : GoString := str "[" ++ strings.Join a (str " ") ++ str "]"

end fmt

/-- The loop at lines 341-343 of `main`: loading the source directories in order into an
empty map. -/
def main.load {σ : Type} (os : OS σ) (sourcePaths : List GoString) (w : World σ) :
    Units × World σ :=
  sourcePaths.foldl (fun st d => loadUnitsFromDir os d st) ([], w)

/-- The loop at lines 360-399 of `main` over the entries in the order of the visit. -/
def main.loop {σ : Type} (os : OS σ) (cv : Converters) (isUserFlag dryRunFlag : Bool)
    (outputPath : GoString) (entries : Units) (st : LoopState σ) : LoopState σ :=
  entries.foldl (fun st e => main.body os cv isUserFlag dryRunFlag outputPath e.1 e.2 st) st

/-- Lines 345-401 of `main`: what is done with the loaded units. -/
def main.generate {σ : Type} (os : OS σ) (cv : Converters) (order : RangeOrder)
    (isUserFlag dryRunFlag : Bool) (outputPath : GoString) (sourcePaths : List GoString)
    (units : Units) (w : World σ) : LoopState σ :=
  if units.length = 0 then
    -- containers/podman/issues/17374: exit cleanly but log that we had nothing to do
    { world := Debugf os (str "No files to parse from " ++ fmt.strings sourcePaths) w,
      exitCode := 0 }
  else
    let m : Option Error × World σ :=
      if !dryRunFlag then w.call (os.MkdirAll outputPath w.sys) (Event.mkdirAll outputPath)
      else (none, w)
    match m.1 with
    | some err =>
      { world := Logf os (str "Can't create dir " ++ outputPath ++ str ": " ++ err) m.2,
        exitCode := 1 }
    | none =>
      main.loop os cv isUserFlag dryRunFlag outputPath (order.visit units)
        { world := m.2, exitCode := 0 }

/-- Embedding of `main` (`main.go`, lines 305-402): the world when the process ends and
its exit code. -/
def main {σ : Type} (os : OS σ) (cv : Converters) (order : RangeOrder) (cmd : CommandLine)
    (w : World σ) : LoopState σ :=
  let prgname := path.Base os.Args0
  let isUserFlag := strings.Contains prgname (str "user")
  -- flag.Parse()
  let isUserFlag := match cmd.userFlag with
    | some b => b
    | none => isUserFlag
  if cmd.versionFlag then
    { world := w.emit (Event.stdout (os.RawVersion ++ str "\n")), exitCode := 0 }
  else
    let w := if cmd.verboseFlag || cmd.dryRunFlag then enableDebug w else w
    let w := if cmd.noKmsgFlag || cmd.dryRunFlag then { w with noKmsg := true } else w
    if !cmd.dryRunFlag && decide (cmd.args.length < 1) then
      { world := Logf os (str "Missing output directory argument") w, exitCode := 1 }
    else
      let outputPath : GoString := if !cmd.dryRunFlag then cmd.args.headD [] else []
      let w :=
        if !cmd.dryRunFlag then
          Debugf os (str "Starting quadlet-generator, output to: " ++ outputPath) w
        else w
      let d := getUnitDirs os isUserFlag w
      let l := main.load os d.1 d.2
      main.generate os cv order isUserFlag cmd.dryRunFlag outputPath d.1 l.1 l.2

/-! ## Vocabulary used to state the properties of loading -/

/-- The final path element of `name`: what follows its last `/`. -/
def finalElement (name : GoString) : GoString := (path.Split name).2

/-- The extension of a file name in the words of the specification: the suffix starting at
the last `.` of its final path element, that is the `.` and what follows the last `.`;
empty when the final element has no `.`. -/
def extension (name : GoString) : GoString :=
  if byte '.' ∈ finalElement name then
    byte '.' :: ((finalElement name).reverse.takeWhile (fun b => b != byte '.')).reverse
  else []

/-- What loading the directory `d` records for the file name `name`: the unit parsed from
the file of that name in `d`, when the directory can be listed, lists the name, the name
has a supported extension and the file parses. -/
def loads {σ : Type} (os : OS σ) (d name : GoString) : Option UnitFile :=
  match os.ReadDir d with
  | .error _ => none
  | .ok files =>
    if name ∈ files ∧ isExtSupported name = true then
      (os.ParseUnitFile (path.Join [d, name])).toOption
    else none

/-- The paths passed to `parser.ParseUnitFile` in a trace, oldest first. -/
def parseCalls : List Event → List GoString
  | [] => []
  | Event.parseUnitFile p _ :: t => p :: parseCalls t
  | _ :: t => parseCalls t

/-- The action writes to the file system: it creates or removes a directory, a file or a
link, or writes to a file. -/
def Event.isWrite : Event → Bool
  | Event.mkdirAll _ _ => true
  | Event.remove _ _ => true
  | Event.symlink _ _ _ => true
  | Event.create _ _ => true
  | Event.write _ _ _ => true
  | Event.sync _ _ => true
  | Event.close _ => true
  | _ => false

/-- The texts written to standard output in a trace, oldest first. -/
def stdoutTexts : List Event → List GoString
  | [] => []
  | Event.stdout text :: t => text :: stdoutTexts t
  | _ :: t => stdoutTexts t

/-- The action only logs or reads: it belongs to logging, lists a directory or parses a
file. Such an action neither writes to the file system nor prints to standard output. -/
def Event.isQuiet : Event → Bool
  | Event.readDir _ _ => true
  | Event.parseUnitFile _ _ => true
  | e => e.isLog

/-- The actions of a trace that write to the file system, oldest first. -/
def fsWrites (evs : List Event) : List Event := evs.filter Event.isWrite

/-- The world `w2` is reached from `w` by actions that only log or read. -/
def quietly {σ : Type} (w w2 : World σ) : Prop :=
  ∃ evs, w2.trace = w.trace ++ evs ∧ ∀ e ∈ evs, e.isQuiet = true

/-- The first directory of the list whose listing contains the name. -/
def firstDirWith {σ : Type} (os : OS σ) (dirs : List GoString) (name : GoString) :
    Option GoString :=
  dirs.find? (fun d =>
    match os.ReadDir d with
    | .ok files => files.contains name
    | .error _ => false)

/-! ## A concrete operating system with source directories -/

/-- The unit that a well-formed file at `pathName` parses to: its `Path` is `pathName` and
its `Filename` the base name; it has `WantedBy=multi-user.target` and the image
`quay.io/web:latest`. -/
def UnitFile.parsed (pathName : GoString) : UnitFile :=
  { UnitFile.sample (path.Base pathName) [] [str "multi-user.target"] []
      (some (str "quay.io/web:latest")) (str "[Container]\nImage=quay.io/web:latest\n") with
    Path := pathName }

/-- An operating system like `linkStore` with two source directories: the directory of the
administrator lists `db.volume`, `notes.txt` and `web.container`, the directory of the
distribution lists `cache.volume` and `web.container`. The files at the paths in `broken`
fail to parse, every other file parses. -/
def sourceStore (broken : List GoString) : OS Links :=
  { linkStore 42 (str "quadlet") with
    ReadDir := fun name =>
      if name = quadlet.UnitDirAdmin then
        .ok [str "db.volume", str "notes.txt", str "web.container"]
      else if name = quadlet.UnitDirDistro then .ok [str "cache.volume", str "web.container"]
      else .error (str "open " ++ name ++ str ": no such file or directory", true)
    ParseUnitFile := fun pathName =>
      if pathName ∈ broken then .error (str "unit file: missing group header")
      else .ok (UnitFile.parsed pathName) }

/-! ## Vocabulary used to state the properties of `main` -/

/-- The value of `isUserFlag` in `main` after `flag.Parse()`. -/
def main.isUserFlag {σ : Type} (os : OS σ) (cmd : CommandLine) : Bool :=
  match cmd.userFlag with
  | some b => b
  | none => strings.Contains (path.Base os.Args0) (str "user")

/-- The value of `outputPath` in `main`: the first argument, and empty in a dry run. -/
def main.outputPath (cmd : CommandLine) : GoString :=
  if !cmd.dryRunFlag then cmd.args.headD [] else []

/-- The world in which `main` calls `getUnitDirs`, when it gets that far: the flags have
set `debugEnabled` and `noKmsg`, and the start message has been logged. -/
def main.setup {σ : Type} (os : OS σ) (cmd : CommandLine) (w : World σ) : World σ :=
  let w := if cmd.verboseFlag || cmd.dryRunFlag then enableDebug w else w
  let w := if cmd.noKmsgFlag || cmd.dryRunFlag then { w with noKmsg := true } else w
  if !cmd.dryRunFlag then
    Debugf os (str "Starting quadlet-generator, output to: " ++ main.outputPath cmd) w
  else w

/-- The source directories of a run of `main`: the value of `sourcePaths`. -/
def main.sourcePaths {σ : Type} (os : OS σ) (cmd : CommandLine) (w : World σ) :
    List GoString :=
  (getUnitDirs os (main.isUserFlag os cmd) (main.setup os cmd w)).1

/-- The map `units` of `main` after the source directories were loaded, and the world at
that point. -/
def main.loaded {σ : Type} (os : OS σ) (cmd : CommandLine) (w : World σ) : Units × World σ :=
  let d := getUnitDirs os (main.isUserFlag os cmd) (main.setup os cmd w)
  main.load os d.1 d.2

/-- The result of the converter that the `switch` of `main` chooses for the unit `name`;
`none` when no case applies. -/
def main.converted (cv : Converters) (isUserFlag : Bool) (name : GoString) (unit : UnitFile) :
    Option (Except Error UnitFile) :=
  if strings.HasSuffix name (str ".container") then some (cv.ConvertContainer unit isUserFlag)
  else if strings.HasSuffix name (str ".volume") then some (cv.ConvertVolume unit name)
  else if strings.HasSuffix name (str ".kube") then some (cv.ConvertKube unit isUserFlag)
  else if strings.HasSuffix name (str ".network") then some (cv.ConvertNetwork unit name)
  else none

/-- What a dry run prints for an entry of `units`: for a unit that converts and renders,
the line `---<path>---`, the text of the generated unit and a newline; nothing otherwise. -/
def main.printed (cv : Converters) (isUserFlag : Bool) (outputPath : GoString)
    (e : GoString × UnitFile) : Option GoString :=
  match main.converted cv isUserFlag e.1 e.2 with
  | some (.ok service) =>
    let service := { service with Path := path.Join [outputPath, service.Filename] }
    match service.ToString with
    | .ok data => some (str "---" ++ service.Path ++ str "---\n" ++ data ++ str "\n")
    | .error _ => none
  | _ => none

/-- The entry of `units` converts, and the generated unit fails to render to text. -/
def main.renderFails (cv : Converters) (isUserFlag : Bool) (e : GoString × UnitFile) : Bool :=
  match main.converted cv isUserFlag e.1 e.2 with
  | some (.ok service) =>
    match service.ToString with
    | .ok _ => false
    | .error _ => true
  | _ => false

/-- An operating system like `sourceStore []` on which no directory can be created. -/
def readOnlyStore : OS Links :=
  { sourceStore [] with
    MkdirAll := fun p s => (some (str "mkdir " ++ p ++ str ": read-only file system"), s) }

/-! ## Vocabulary used to state the properties of logging and of writing a unit -/

/-- The lines written to the kernel log without error in a trace, oldest first. -/
def kmsgLines : List Event → List GoString
  | [] => []
  | Event.writeKmsg line none :: t => line :: kmsgLines t
  | _ :: t => kmsgLines t

/-- The texts written to standard error in a trace, oldest first. -/
def stderrTexts : List Event → List GoString
  | [] => []
  | Event.stderr text :: t => text :: stderrTexts t
  | _ :: t => stderrTexts t

/-- The call of `logToKmsg` fails to write the line `s` from the world `w`: logging to the
kernel log is disabled, or the device is not open and cannot be opened, or the write to the
device, opened before or by this call, returns an error. -/
def kmsgFails {σ : Type} (os : OS σ) (s : GoString) (w : World σ) : Prop :=
  w.noKmsg = true ∨
  (w.kmsgFile = false ∧ (os.OpenKmsg w.sys).1 ≠ none) ∨
  (w.kmsgFile = false ∧ (os.OpenKmsg w.sys).1 = none ∧
    (os.WriteKmsg s (os.OpenKmsg w.sys).2).1 ≠ none) ∨
  (w.kmsgFile = true ∧ (os.WriteKmsg s w.sys).1 ≠ none)

/-- The comment lines that `generateServiceFile` prepends to the first group of the unit:
the arguments of its call of `PrependComment` after the group name. -/
def generateServiceFile.banner {σ : Type} (os : OS σ) : List GoString :=
  [str "Automatically generated by " ++ os.Args0, str ""]

/-- The call of `os.Create` in `generateServiceFile`: its error and the world after it. -/
def generateServiceFile.created {σ : Type} (os : OS σ) (service : UnitFile) (w : World σ) :
    Option Error × World σ :=
  let w := Debugf os (str "writing '" ++ service.Path ++ str "'") w
  w.call (os.Create service.Path w.sys) (Event.create service.Path)

/-- The call of `service.Write(f)` in `generateServiceFile`, made when the file was
created: its error and the world after it. -/
def generateServiceFile.written {σ : Type} (os : OS σ) (service : UnitFile) (w : World σ) :
    Option Error × World σ :=
  (service.PrependComment (str "") (generateServiceFile.banner os)).Write os service.Path
    (generateServiceFile.created os service w).2

/-- The call of `f.Sync()` in `generateServiceFile`, made when the unit was written: its
error and the world after it. -/
def generateServiceFile.synced {σ : Type} (os : OS σ) (service : UnitFile) (w : World σ) :
    Option Error × World σ :=
  (generateServiceFile.written os service w).2.call
    (os.Sync service.Path (generateServiceFile.written os service w).2.sys)
    (Event.sync service.Path)

/-- The data passed to the calls of `Write` on a file in a trace, oldest first, as pairs
(path, data). -/
def writeCalls : List Event → List (GoString × GoString)
  | [] => []
  | Event.write p data _ :: t => (p, data) :: writeCalls t
  | _ :: t => writeCalls t

/-- An operating system like `linkStore` in which the variable `QUADLET_UNIT_DIRS` has the
given value, the configuration directory of the user is `/home/u/.config` and the uid of
the user is `1000`. -/
def envStore (unitDirs : GoString) : OS Links :=
  { linkStore 42 (str "quadlet") with
    Getenv := fun key => if key = str "QUADLET_UNIT_DIRS" then unitDirs else []
    UserConfigDir := .ok (str "/home/u/.config")
    CurrentUid := .ok (str "1000") }

/-! ## The helpers of the end-to-end tests (`test/e2e/common_test.go`)

Go `int` is 64 bits wide; the numbers below stay far from its bounds, so `int` is embedded
as `Int`, with `Int.tdiv` for the truncating division of Go. -/

namespace rand

/-- Go `(*rand.Rand).Intn(n)`: a number in `[0, n)` chosen by the generator, and a panic
(`none`) when `n <= 0`. The choice of the generator is the parameter `pick`: every number
of `[0, n)` is returned for some `pick`. -/
def Intn (pick : Nat) (n : Int) : Option Int :=
  if n ≤ 0 then none else some ((pick : Int) % n)

end rand

namespace strconv

/-- Go `strconv.Itoa`: the decimal digits of `i`, after a `-` when it is negative. -/
def Itoa (i : Int) : GoString :=
  if i < 0 then byte '-' :: fmt.d i.natAbs else fmt.d i.natAbs

/-- The number that a string of decimal digits stands for. -/
def digitsValue (s : GoString) : Nat :=
  s.foldl (fun n b => 10 * n + (b.toNat - 48)) 0

end strconv

/-- The last octet that `GetRandomIPAddress` computes (`common_test.go`, line 493):
`rng.Intn((255-nProcs)/nProcs)*nProcs + myProc`. `nProcs` is `GinkgoT().ParallelTotal()`,
`parallelProcess` is `GinkgoT().ParallelProcess()`, and `pick` the choice of the random
generator. -/
def GetRandomIPAddress.octet (nProcs parallelProcess : Int) (pick : Nat) : Option Int :=
  let myProc := parallelProcess - 1
  match rand.Intn pick ((255 - nProcs).tdiv nProcs) with
  | none => none
  | some r => some (r * nProcs + myProc)

/-- Embedding of `GetRandomIPAddress` (`common_test.go`, lines 482-495); `none` is a
panic. -/
def GetRandomIPAddress (nProcs parallelProcess : Int) (pick : Nat) : Option GoString :=
  -- 10.88.255 is unlikely to be used by CNI or netavark.
  -- Last octet .0 - .254, and will be unique to this ginkgo process.
  match GetRandomIPAddress.octet nProcs parallelProcess pick with
  | none => none
  | some ip4 => some (str "10.88.255." ++ strconv.Itoa ip4)

/-- The port that an iteration of the loop of `GetPort` tries (`common_test.go`,
line 1234): `portMin + rng.Intn((portMax-portMin)/nProcs)*nProcs + myProc`. -/
def GetPort.port (nProcs parallelProcess : Int) (pick : Nat) : Option Int :=
  let portMin : Int := 5000
  let portMax : Int := 5999
  let myProc := parallelProcess - 1
  -- Random port within that range
  match rand.Intn pick ((portMax - portMin).tdiv nProcs) with
  | none => none
  | some r => some (portMin + r * nProcs + myProc)

/-- The loop of `GetPort` from iteration `i` on, with `fuel` iterations left. `picks i` is
the choice of the random generator in iteration `i`, and `free i port` tells whether
`net.Listen` succeeds on the port then. The result is `some (some port)` when the port is
returned, `some none` when the loop ends and the test fails with `unable to get free port`,
and `none` for a panic. -/
def GetPort.loop (nProcs parallelProcess : Int) (picks : Nat → Nat) (free : Nat → Int → Bool) :
    Nat → Nat → Option (Option Int)
  | 0, _ => some none
  | fuel + 1, i =>
    match GetPort.port nProcs parallelProcess (picks i) with
    | none => none
    | some port =>
      if free i port then
        -- it's open. Return it.
        some (some port)
      else GetPort.loop nProcs parallelProcess picks free fuel (i + 1)

/-- Embedding of `GetPort` (`common_test.go`, lines 1222-1247): at most 50 iterations. -/
def GetPort (nProcs parallelProcess : Int) (picks : Nat → Nat) (free : Nat → Int → Bool) :
    Option (Option Int) :=
  GetPort.loop nProcs parallelProcess picks free 50 0

/-! ## Vocabulary used to compare two runs of the loop of `main` -/

/-- Logging to the kernel log leaves the rest of the system as it is: opening, writing and
closing the device do not change the state that the other calls see. -/
structure QuietKmsg {σ : Type} (os : OS σ) : Prop where
  openKmsg : ∀ s, (os.OpenKmsg s).2 = s
  writeKmsg : ∀ l s, (os.WriteKmsg l s).2 = s
  closeKmsg : ∀ s, os.CloseKmsg s = s

/-- The world `w2` is reached from `w` by logging alone, and the state of the system is
the same. -/
def logsOnly {σ : Type} (w w2 : World σ) : Prop :=
  w2.sys = w.sys ∧ ∃ evs, w2.trace = w.trace ++ evs ∧ ∀ e ∈ evs, e.isLog = true

/-- The worlds `w1` and `w2` have the same system state, and they were reached from the
traces `b1` and `b2` by the same file-system writes, in the same order. -/
def sameWrites {σ : Type} (b1 b2 : List Event) (w1 w2 : World σ) : Prop :=
  w1.sys = w2.sys ∧
  ∃ e1 e2, w1.trace = b1 ++ e1 ∧ w2.trace = b2 ++ e2 ∧ fsWrites e1 = fsWrites e2

/-! # Theorems -/

/-! ## Lemmas on the string primitives -/

theorem str_slash : str "/" = [47] := by decide

theorem HasPrefix_single (a c : UInt8) (s : GoString) :
    strings.HasPrefix (a :: s) [c] = (a == c) := by
  simp [strings.HasPrefix]

/-- The search of `strings.Index` for a one-byte pattern finds the first occurrence of the
byte, and fails exactly when the byte does not occur. -/
theorem indexFrom_single (c : UInt8) (s : GoString) (i : Nat) :
    strings.indexFrom [c] s i =
      if c ∈ s then (((i + (s.takeWhile (fun b => b != c)).length : Nat)) : Int) else -1 := by
  induction s generalizing i with
  | nil => simp [strings.indexFrom]
  | cons a s ih =>
    rw [strings.indexFrom, HasPrefix_single]
    by_cases h : a = c
    · subst h; simp
    · have h2 : ¬ c = a := fun e => h e.symm
      have hb : (a != c) = true := by simp [h]
      simp only [beq_iff_eq, h, if_false, ih, List.mem_cons, h2, false_or]
      split
      · rw [List.takeWhile_cons, hb]; simp only [if_true, List.length_cons]
        congr 1; omega
      · rfl

theorem Index_single_eq_neg_one (c : UInt8) (s : GoString) :
    strings.Index s [c] = -1 ↔ c ∉ s := by
  rw [strings.Index, indexFrom_single]
  split
  · constructor
    · intro h; omega
    · intro h; contradiction
  · simp_all

theorem take_Index_single (c : UInt8) (s : GoString) (h : c ∈ s) :
    s.take (strings.Index s [c]).toNat = s.takeWhile (fun b => b != c) := by
  rw [strings.Index, indexFrom_single, if_pos h]
  simp only [zero_add, Int.toNat_ofNat]
  clear h
  induction s with
  | nil => rfl
  | cons a s ih =>
    by_cases h : a = c
    · subst h; simp
    · have hb : (a != c) = true := by simp [h]
      rw [List.takeWhile_cons, hb]
      simp only [if_true, List.length_cons, List.take_succ_cons, ih]

theorem ContainsAny_dot_colon (d : GoString) :
    strings.ContainsAny d (str ".:") = true ↔ (byte '.' ∈ d ∨ byte ':' ∈ d) := by
  have h : str ".:" = [byte '.', byte ':'] := by decide
  rw [h, strings.ContainsAny]
  simp only [List.any_eq_true, List.contains_iff_exists_mem_beq, List.mem_cons,
    List.mem_singleton, List.not_mem_nil, or_false, beq_iff_eq]
  constructor
  · rintro ⟨b, hb, c, hc, rfl⟩
    rcases hc with rfl | rfl
    · exact Or.inl hb
    · exact Or.inr hb
  · rintro (h | h)
    · exact ⟨_, h, _, Or.inl rfl, rfl⟩
    · exact ⟨_, h, _, Or.inr rfl, rfl⟩

/-! ## Image-name classification -/

/-- What `isImageID` computes: the `sha256:` prefix test, or 64 bytes all of whose runes
have the `Hex_Digit` property. -/
theorem isImageID_loop_eq_all (rs : List Rune) :
    isImageID.loop rs = rs.all (fun c => unicode.Is unicode.Hex_Digit c) := by
  induction rs with
  | nil => rfl
  | cons c cs ih =>
    rw [isImageID.loop, ih, List.all_cons]
    cases unicode.Is unicode.Hex_Digit c <;> simp

/-- C1: for every string `s`, `isUnambiguousName s` is true if and only if `isImageID s` is
true, or `s` contains a `/` and the part of `s` before its first `/` contains a `.` or a
`:` or is exactly `localhost`; in every other case it is false. -/
theorem isUnambiguousName_iff (s : GoString) :
    (isUnambiguousName s = true ↔
      (isImageID s = true ∨
        (byte '/' ∈ s ∧
          (byte '.' ∈ firstComponent s ∨ byte ':' ∈ firstComponent s ∨
            firstComponent s = str "localhost")))) ∧
    (isUnambiguousName s = false ↔
      ¬ (isImageID s = true ∨
        (byte '/' ∈ s ∧
          (byte '.' ∈ firstComponent s ∨ byte ':' ∈ firstComponent s ∨
            firstComponent s = str "localhost")))) := by
  have key : isUnambiguousName s = true ↔
      (isImageID s = true ∨
        (byte '/' ∈ s ∧
          (byte '.' ∈ firstComponent s ∨ byte ':' ∈ firstComponent s ∨
            firstComponent s = str "localhost"))) := by
    have hb : byte '/' = 47 := by decide
    unfold isUnambiguousName
    by_cases hid : isImageID s = true
    · simp [hid]
    · simp only [hid, if_false, false_or, Bool.false_eq_true]
      rw [str_slash]
      by_cases hs : (47 : UInt8) ∈ s
      · have h1 : ¬ strings.Index s [47] = -1 := by
          rw [Index_single_eq_neg_one]; exact fun h => h hs
        simp only [beq_iff_eq, h1, if_false]
        rw [take_Index_single 47 s hs]
        have hfc : firstComponent s = s.takeWhile (fun b => b != 47) := by
          rw [firstComponent, hb]
        rw [hfc, hb]
        simp only [hs, true_and, Bool.or_eq_true, ContainsAny_dot_colon, beq_iff_eq,
          Bool.if_true_left, Bool.or_false, decide_eq_true_eq, or_assoc]
      · have h1 : strings.Index s [47] = -1 := (Index_single_eq_neg_one 47 s).2 hs
        rw [hb]
        simp [h1, hs]
  refine ⟨key, ?_⟩
  rw [← key]
  cases isUnambiguousName s <;> simp

theorem DecodeRuneInString_ascii (c : UInt8) (cs : GoString) (h : c.toNat < 0x80) :
    utf8.DecodeRuneInString (c :: cs) = (c.toNat, 1) := by
  simp [utf8.DecodeRuneInString, h]

/-- Ranging over a string of ASCII bytes visits the bytes themselves. -/
theorem rangeAux_ascii (n : Nat) (s : GoString) (hn : s.length ≤ n)
    (h : ∀ b ∈ s, b.toNat < 0x80) : utf8.rangeAux n s = s.map (fun b => b.toNat) := by
  induction n generalizing s with
  | zero =>
    have : s = [] := List.length_eq_zero.mp (Nat.le_zero.mp hn)
    subst this; rfl
  | succ n ih =>
    cases s with
    | nil => rfl
    | cons c cs =>
      have hc : c.toNat < 0x80 := h c (List.mem_cons_self _ _)
      rw [utf8.rangeAux, DecodeRuneInString_ascii c cs hc]
      simp only [List.drop_succ_cons, List.drop_zero, List.map_cons]
      rw [ih cs (by simpa using hn) (fun b hb => h b (List.mem_cons_of_mem _ hb))]

theorem isHexByte_lt (b : UInt8) (h : isHexByte b = true) : b.toNat < 0x80 := by
  simp only [isHexByte, Bool.or_eq_true, Bool.and_eq_true, decide_eq_true_eq] at h
  omega

theorem isHexByte_Hex_Digit (b : UInt8) (h : isHexByte b = true) :
    unicode.Is unicode.Hex_Digit b.toNat = true := by
  simp only [isHexByte, Bool.or_eq_true, Bool.and_eq_true, decide_eq_true_eq] at h
  simp only [unicode.Is, unicode.Hex_Digit, List.any_cons, List.any_nil, Bool.or_false,
    Bool.or_eq_true, Bool.and_eq_true, decide_eq_true_eq]
  rcases h with (h | h) | h
  · exact Or.inl h
  · exact Or.inr (Or.inl h)
  · exact Or.inr (Or.inr (Or.inl h))

/-- A string of 64 characters `0-9`, `a-f`, `A-F` is an image ID. -/
theorem isImageID_of_isHex64 (s : GoString) (h : isHex64 s = true) : isImageID s = true := by
  simp only [isHex64, Bool.and_eq_true, decide_eq_true_eq, List.all_eq_true] at h
  obtain ⟨hlen, hall⟩ := h
  unfold isImageID
  split
  · rfl
  · simp only [hlen, bne_self_eq_false, Bool.false_eq_true, if_false]
    rw [isImageID_loop_eq_all, utf8.range,
      rangeAux_ascii _ s (le_refl _) (fun b hb => isHexByte_lt b (hall b hb))]
    rw [List.all_eq_true]
    intro r hr
    obtain ⟨b, hb, rfl⟩ := List.mem_map.mp hr
    exact isHexByte_Hex_Digit b (hall b hb)

/-- A name that starts with `sha256:` is an image ID. -/
theorem isImageID_sha256 (t : GoString) : isImageID (str "sha256:" ++ t) = true := by
  have h : strings.HasPrefix (str "sha256:" ++ t) (str "sha256:") = true := by
    simp [strings.HasPrefix]
  simp [isImageID, h]

/-- C2, evaluated at the failing input: `isImageID` accepts the 64-byte name made of 21
fullwidth zeros and one ASCII `0`, although the name has no `sha256:` prefix and is not a
string of 64 characters `0-9`, `a-f`, `A-F` (it has 22 characters, 21 of them fullwidth). -/
theorem isImageID_fullwidthName :
    isImageID fullwidthName = true ∧
    strings.HasPrefix fullwidthName (str "sha256:") = false ∧
    isHex64 fullwidthName = false ∧
    fullwidthName.length = 64 ∧
    utf8.range fullwidthName = List.replicate 21 0xFF10 ++ [0x30] := by
  decide

/-- C3: `isUnambiguousName` on the documented literal cases. It is true for every name of
the form `sha256:...` (such as `sha256:abc`), for every string of 64 hexadecimal digits, for
`quay.io/image`, `localhost/image:tag` and `server.org:5000/lib/image`; it is false for
`fedora`, `library/fedora` and `image:tag`. -/
theorem isUnambiguousName_documented_cases :
    (∀ t : GoString, isUnambiguousName (str "sha256:" ++ t) = true) ∧
    isUnambiguousName (str "sha256:abc") = true ∧
    (∀ s : GoString, isHex64 s = true → isUnambiguousName s = true) ∧
    isUnambiguousName (str "quay.io/image") = true ∧
    isUnambiguousName (str "localhost/image:tag") = true ∧
    isUnambiguousName (str "server.org:5000/lib/image") = true ∧
    isUnambiguousName (str "fedora") = false ∧
    isUnambiguousName (str "library/fedora") = false ∧
    isUnambiguousName (str "image:tag") = false := by
  refine ⟨fun t => ?_, by decide, fun s h => ?_, by decide, by decide, by decide, by decide,
    by decide, by decide⟩
  · simp [isUnambiguousName, isImageID_sha256]
  · simp [isUnambiguousName, isImageID_of_isHex64 s h]

/-- C3 at concrete inputs: the name `sha256:` followed by `deadbeef`, and the 64-digit
hexadecimal string made of 16 copies of `0aF9`. -/
theorem isUnambiguousName_documented_cases_witness :
    isHex64 (List.replicate 16 (str "0aF9")).flatten = true ∧
    isUnambiguousName (List.replicate 16 (str "0aF9")).flatten = true ∧
    isUnambiguousName (str "sha256:" ++ str "deadbeef") = true :=
  ⟨by decide,
   isUnambiguousName_documented_cases.2.2.1 _ (by decide),
   isUnambiguousName_documented_cases.1 _⟩

/-! ## The planned links of `enableServiceFile` -/

theorem Contains_slash (u : GoString) :
    strings.Contains u (str "/") = decide (byte '/' ∈ u) := by
  have hb : byte '/' = 47 := by decide
  rw [str_slash, hb, strings.Contains, strings.Index, indexFrom_single]
  by_cases h : (47 : UInt8) ∈ u
  · simp only [h, if_true, decide_True, decide_eq_true_eq]
    omega
  · simp [h]

theorem foldl_append_map {α β : Type} (f : α → β) (l : List α) (init : List β) :
    l.foldl (fun acc a => acc ++ [f a]) init = init ++ l.map f := by
  induction l generalizing init with
  | nil => simp
  | cons a l ih => simp [ih]

theorem foldl_append_filter_map {α β : Type} (p : α → Bool) (f : α → β) (l : List α)
    (init : List β) :
    l.foldl (fun acc a => if p a then acc ++ [f a] else acc) init =
      init ++ (l.filter p).map f := by
  induction l generalizing init with
  | nil => simp
  | cons a l ih =>
    by_cases h : p a = true
    · simp [ih, h]
    · simp [ih, h]

/-- The list `symlinks` of `enableServiceFile` as maps and filters of the three lookups. -/
theorem symlinks_plan (service : UnitFile) :
    enableServiceFile.symlinks service =
      (service.LookupAllStrv quadlet.InstallGroup (str "Alias")).map filepath.Clean ++
      ((service.LookupAllStrv quadlet.InstallGroup (str "WantedBy")).filter
          (fun u => decide (byte '/' ∉ u))).map
        (fun u => u ++ str ".wants/" ++ service.Filename) ++
      ((service.LookupAllStrv quadlet.InstallGroup (str "RequiredBy")).filter
          (fun u => decide (byte '/' ∉ u))).map
        (fun u => u ++ str ".requires/" ++ service.Filename) := by
  have hp : (fun u : GoString => !strings.Contains u (str "/")) =
      (fun u : GoString => decide (byte '/' ∉ u)) := by
    funext u
    rw [Contains_slash]
    by_cases h : byte '/' ∈ u <;> simp [h]
  unfold enableServiceFile.symlinks
  simp only []
  rw [foldl_append_map, List.nil_append,
    foldl_append_filter_map (fun u => !strings.Contains u (str "/")),
    foldl_append_filter_map (fun u => !strings.Contains u (str "/")), hp]

/-- C5: the ordered list of links planned by `enableServiceFile` (relative to the output
directory) is the cleaned path of every `Alias` value in file order, then
`<u>.wants/<Filename>` for every `WantedBy` value `u` without `/` in file order, then
`<u>.requires/<Filename>` for every `RequiredBy` value `u` without `/` in file order; values
of `WantedBy` and `RequiredBy` that contain a `/` give no link, so the number of planned
links is the number of `Alias` values plus the number of slash-free `WantedBy` and
`RequiredBy` values. -/
theorem enableServiceFile_symlinks_eq (service : UnitFile) :
    enableServiceFile.symlinks service =
      (service.LookupAllStrv quadlet.InstallGroup (str "Alias")).map filepath.Clean ++
      ((service.LookupAllStrv quadlet.InstallGroup (str "WantedBy")).filter
          (fun u => decide (byte '/' ∉ u))).map
        (fun u => u ++ str ".wants/" ++ service.Filename) ++
      ((service.LookupAllStrv quadlet.InstallGroup (str "RequiredBy")).filter
          (fun u => decide (byte '/' ∉ u))).map
        (fun u => u ++ str ".requires/" ++ service.Filename) ∧
    (enableServiceFile.symlinks service).length =
      (service.LookupAllStrv quadlet.InstallGroup (str "Alias")).length +
      ((service.LookupAllStrv quadlet.InstallGroup (str "WantedBy")).filter
          (fun u => decide (byte '/' ∉ u))).length +
      ((service.LookupAllStrv quadlet.InstallGroup (str "RequiredBy")).filter
          (fun u => decide (byte '/' ∉ u))).length := by
  refine ⟨symlinks_plan service, ?_⟩
  rw [symlinks_plan]
  simp only [List.length_append, List.length_map]

/-! ## Lemmas on `path` and `path/filepath` -/

theorem takeWhile_no_slash (x r : GoString) (hx : byte '/' ∉ x)
    (hr : r = [] ∨ r.head? = some (byte '/')) :
    (x ++ r).takeWhile (fun b => b != byte '/') = x ∧
    (x ++ r).dropWhile (fun b => b != byte '/') = r := by
  induction x with
  | nil =>
    rcases hr with rfl | hr
    · simp
    · cases r with
      | nil => simp
      | cons a r =>
        simp only [List.head?_cons, Option.some.injEq] at hr
        subst hr
        simp [List.takeWhile_cons, List.dropWhile_cons]
  | cons a x ih =>
    have ha : a ≠ byte '/' := fun e => hx (e ▸ List.mem_cons_self _ _)
    have hx2 : byte '/' ∉ x := fun h => hx (List.mem_cons_of_mem _ h)
    have hb : (a != byte '/') = true := by simp [ha]
    obtain ⟨h1, h2⟩ := ih hx2
    constructor
    · rw [List.cons_append, List.takeWhile_cons, hb]; simp only [if_true]; rw [h1]
    · rw [List.cons_append, List.dropWhile_cons, hb]; simp only [if_true]; rw [h2]

/-- One iteration of the loop of `Clean` on a plain element copies the element. -/
theorem Clean_loop_elem (x r : GoString) (n : Nat) (hx : isElem x)
    (hr : r = [] ∨ r.head? = some (byte '/')) :
    path.Clean.loop false (n + 1) (x ++ r) [] 0 = path.Clean.loop false n r x 0 := by
  obtain ⟨hne, hs, hd, hdd⟩ := hx
  obtain ⟨h1, h2⟩ := takeWhile_no_slash x r hs hr
  cases x with
  | nil => exact absurd rfl hne
  | cons c t =>
    have hc : c ≠ byte '/' := fun e => hs (e ▸ List.mem_cons_self _ _)
    rw [List.cons_append, path.Clean.loop]
    rw [if_neg hc]
    have hdot : str "." = [byte '.'] := by decide
    have hdotdot : str ".." = [byte '.', byte '.'] := by decide
    have hne2 : byte '.' ≠ byte '/' := by decide
    have c2 : ¬ (c = byte '.' ∧ ((t ++ r) = [] ∨ (t ++ r).head? = some (byte '/'))) := by
      rintro ⟨rfl, h⟩
      cases t with
      | nil => exact hd (by rw [hdot])
      | cons a t =>
        rcases h with h | h
        · simp at h
        · simp only [List.cons_append, List.head?_cons, Option.some.injEq] at h
          exact hs (by simp [h])
    have c3 : ¬ (c = byte '.' ∧ (t ++ r).head? = some (byte '.') ∧
        ((t ++ r).tail = [] ∨ (t ++ r).tail.head? = some (byte '/'))) := by
      rintro ⟨rfl, h, h3⟩
      cases t with
      | nil =>
        rcases hr with rfl | hr
        · simp at h
        · simp only [List.nil_append] at h
          rw [hr] at h
          exact hne2 (Option.some.inj h).symm
      | cons a t =>
        simp only [List.cons_append, List.head?_cons, Option.some.injEq] at h
        subst h
        cases t with
        | nil => exact hdd (by rw [hdotdot])
        | cons b t =>
          rcases h3 with h3 | h3
          · simp at h3
          · simp only [List.cons_append, List.tail_cons, List.head?_cons,
              Option.some.injEq] at h3
            exact hs (by simp [h3])
    rw [if_neg c2, if_neg c3]
    simp only [List.length_nil, bne_self_eq_false, Bool.and_false, Bool.or_false,
      Bool.false_eq_true, if_false, List.nil_append]
    rw [← List.cons_append, h1, h2]
    simp

theorem isElem_length_pos (x : GoString) (hx : isElem x) : 0 < x.length :=
  List.length_pos.mpr hx.1

/-- Cleaning a plain element gives the element. -/
theorem Clean_elem (x : GoString) (hx : isElem x) : path.Clean x = x := by
  have hpos := isElem_length_pos x hx
  have hloop : path.Clean.loop false x.length x [] 0 = x := by
    obtain ⟨n, hn⟩ : ∃ n, x.length = n + 1 := ⟨x.length - 1, by omega⟩
    have := Clean_loop_elem x [] n hx (Or.inl rfl)
    rw [List.append_nil] at this
    rw [hn, this]
    cases n <;> rfl
  cases x with
  | nil => exact absurd rfl hx.1
  | cons c t =>
    have hc : c ≠ byte '/' := fun e => hx.2.1 (e ▸ List.mem_cons_self _ _)
    unfold path.Clean
    simp only [beq_iff_eq, hc, if_false, Bool.false_eq_true]
    rw [hloop]
    simp

/-- Cleaning a plain element followed by a `/` gives the element. -/
theorem Clean_elem_slash (x : GoString) (hx : isElem x) : path.Clean (x ++ [byte '/']) = x := by
  have hpos := isElem_length_pos x hx
  have hloop : path.Clean.loop false (x ++ [byte '/']).length (x ++ [byte '/']) [] 0 = x := by
    obtain ⟨n, hn⟩ : ∃ n, x.length = n + 1 := ⟨x.length - 1, by omega⟩
    have := Clean_loop_elem x [byte '/'] (n + 1) hx (Or.inr rfl)
    rw [List.length_append, hn, List.length_singleton, this]
    rw [path.Clean.loop]
    simp only [if_true]
    cases n <;> rfl
  cases x with
  | nil => exact absurd rfl hx.1
  | cons c t =>
    have hc : c ≠ byte '/' := fun e => hx.2.1 (e ▸ List.mem_cons_self _ _)
    unfold path.Clean
    simp only [List.cons_append, beq_iff_eq, hc, if_false, Bool.false_eq_true]
    rw [← List.cons_append, hloop]
    simp

theorem lastSlashEnd_no_slash (f : GoString) (hf : byte '/' ∉ f) : path.lastSlashEnd f = 0 := by
  have h := (takeWhile_no_slash f.reverse [] (by simpa using hf) (Or.inl rfl)).1
  rw [List.append_nil] at h
  rw [path.lastSlashEnd, h, List.length_reverse, Nat.sub_self]

theorem lastSlashEnd_append (x f : GoString) (hf : byte '/' ∉ f) :
    path.lastSlashEnd (x ++ [byte '/'] ++ f) = x.length + 1 := by
  have h := (takeWhile_no_slash f.reverse (byte '/' :: x.reverse) (by simpa using hf)
    (Or.inr rfl)).1
  have hr : (x ++ [byte '/'] ++ f).reverse = f.reverse ++ byte '/' :: x.reverse := by simp
  rw [path.lastSlashEnd, hr, h]
  simp only [List.length_append, List.length_singleton, List.length_reverse]
  omega

/-- The directory of a name without `/` is `.`. -/
theorem Dir_no_slash (f : GoString) (hf : byte '/' ∉ f) : path.Dir f = str "." := by
  rw [path.Dir, path.Split, lastSlashEnd_no_slash f hf]
  rfl

/-- The directory of `x/f`, for a plain element `x` and a name `f` without `/`, is `x`. -/
theorem Dir_elem_slash (x f : GoString) (hx : isElem x) (hf : byte '/' ∉ f) :
    path.Dir (x ++ [byte '/'] ++ f) = x := by
  rw [path.Dir, path.Split, lastSlashEnd_append x f hf]
  simp only []
  have : List.take (x.length + 1) (x ++ [byte '/'] ++ f) = x ++ [byte '/'] := by
    rw [List.take_append_of_le_length (by simp)]
    rw [List.take_of_length_le (by simp)]
  rw [this, Clean_elem_slash x hx]

theorem scan_no_sep (x : GoString) (hx : byte '/' ∉ x) : filepath.Rel.scan x 0 = x.length := by
  have h := (takeWhile_no_slash x [] hx (Or.inl rfl)).1
  rw [List.append_nil] at h
  rw [filepath.Rel.scan, List.drop_zero]
  show 0 + (List.takeWhile (fun b => b != byte '/') x).length = x.length
  rw [h, Nat.zero_add]

theorem slice_full (x : GoString) : filepath.slice x 0 x.length = x := by
  simp [filepath.slice]

theorem isElem_head (x : GoString) (hx : isElem x) : x.head? ≠ some filepath.Separator := by
  obtain ⟨hne, hs, _, _⟩ := hx
  cases x with
  | nil => exact absurd rfl hne
  | cons c t =>
    intro h
    simp only [List.head?_cons, Option.some.injEq] at h
    exact hs (by rw [h]; exact List.mem_cons_self _ _)

/-- From the directory `.`, the relative path to a plain element is the element. -/
theorem Rel_dot_elem (f : GoString) (hf : isElem f) :
    filepath.Rel (str ".") f = .ok f := by
  have hc : filepath.Clean (str ".") = str "." := by decide
  have hcf : filepath.Clean f = f := Clean_elem f hf
  have hne : f ≠ str "." := hf.2.2.1
  have hh := isElem_head f hf
  have hpos := isElem_length_pos f hf
  unfold filepath.Rel
  simp only [hc, hcf, hne, if_false, if_true, List.length_nil, gt_iff_lt, lt_self_iff_false,
    decide_False, Bool.false_and, List.head?_nil]
  have hts : (decide (0 < f.length) && f.head? == some filepath.Separator) = false := by
    simp [hh]
  rw [hts]
  simp [filepath.Rel.loop, filepath.slice]
  decide

/-- From a plain element `x`, the relative path to a different plain element `f` is
`../f`. -/
theorem Rel_elem_elem (x f : GoString) (hx : isElem x) (hf : isElem f) (hxf : x ≠ f) :
    filepath.Rel x f = .ok (str "../" ++ f) := by
  have hcx : filepath.Clean x = x := Clean_elem x hx
  have hcf : filepath.Clean f = f := Clean_elem f hf
  have hxpos := isElem_length_pos x hx
  have hfpos := isElem_length_pos f hf
  have hbs : (decide (x.length > 0) && x.head? == some filepath.Separator) = false := by
    simp [isElem_head x hx]
  have hts : (decide (f.length > 0) && f.head? == some filepath.Separator) = false := by
    simp [isElem_head f hf]
  have hloop : filepath.Rel.loop x f (x.length + 1) ⟨0, 0, 0, 0⟩ = ⟨0, x.length, 0, f.length⟩ := by
    rw [filepath.Rel.loop]
    simp only [hxpos, hfpos, and_self, if_true, scan_no_sep x hx.2.1, scan_no_sep f hf.2.1,
      slice_full]
    rw [if_pos (fun e => hxf e.symm)]
  unfold filepath.Rel
  simp only [hcx, hcf, fun e => hxf (Eq.symm e), if_false, hx.2.2.1, hbs, hts, hloop, slice_full,
    hx.2.2.2, bne_self_eq_false, Bool.false_eq_true]
  have hcount : List.count filepath.Separator x = 0 :=
    List.count_eq_zero.mpr hx.2.1
  have h1 : ¬ f = x := fun e => hxf e.symm
  have h2 : (0 : Nat) ≠ x.length := by omega
  have h3 : (0 : Nat) ≠ f.length := by omega
  rw [if_neg h1, if_pos h2, if_pos h3, hcount]
  have h4 : str ".." ++ [filepath.Separator] = str "../" := by decide
  simp only [List.replicate_zero, List.flatten_nil, List.append_nil, List.drop_zero, h4]

theorem isGeneratedName_split (f : GoString) (h : isGeneratedName f = true) :
    byte '/' ∉ f ∧ ∃ a, f = a ++ str ".service" := by
  simp only [isGeneratedName, strings.HasSuffix, Bool.and_eq_true, decide_eq_true_eq,
    beq_iff_eq] at h
  refine ⟨h.1, f.take (f.length - (str ".service").length), ?_⟩
  have := List.take_append_drop (f.length - (str ".service").length) f
  rw [h.2.2] at this
  exact this.symm

theorem length_service : (str ".service").length = 8 := by decide

/-- The file name of a generated unit is a plain path element. -/
theorem isGeneratedName_isElem (f : GoString) (h : isGeneratedName f = true) : isElem f := by
  obtain ⟨hs, a, rfl⟩ := isGeneratedName_split f h
  have hlen : 8 ≤ (a ++ str ".service").length := by
    rw [List.length_append, length_service]; omega
  refine ⟨?_, hs, ?_, ?_⟩
  · intro e; rw [e] at hlen; simp at hlen
  · intro e; rw [e] at hlen; revert hlen; decide
  · intro e; rw [e] at hlen; revert hlen; decide

/-- For a unit name `u` without `/`, `u` followed by a suffix such as `.wants` is a plain
path element. -/
theorem isElem_append_suffix (u suf : GoString) (hu : byte '/' ∉ u) (hs : byte '/' ∉ suf)
    (hlen : 3 ≤ suf.length) : isElem (u ++ suf) := by
  have hl : 3 ≤ (u ++ suf).length := by rw [List.length_append]; omega
  refine ⟨?_, ?_, ?_, ?_⟩
  · intro e; rw [e] at hl; simp at hl
  · simp [hu, hs]
  · intro e; rw [e] at hl; revert hl; decide
  · intro e; rw [e] at hl; revert hl; decide

theorem append_suffix_ne_generated (u suf f : GoString) (h : isGeneratedName f = true)
    (hsuf : suf.getLast? ≠ some (byte 'e')) (hne : suf ≠ []) : u ++ suf ≠ f := by
  obtain ⟨_, a, rfl⟩ := isGeneratedName_split f h
  intro e
  have h1 : (u ++ suf).getLast? = (a ++ str ".service").getLast? := by rw [e]
  have h2 : (a ++ str ".service").getLast? = some (byte 'e') := by
    rw [List.getLast?_append_of_ne_nil _ (by decide)]
    decide
  rw [List.getLast?_append_of_ne_nil _ hne, h2] at h1
  exact hsuf h1

/-! ## Traces -/

theorem symlinkCalls_append (a b : List Event) :
    symlinkCalls (a ++ b) = symlinkCalls a ++ symlinkCalls b := by
  induction a with
  | nil => rfl
  | cons e a ih => cases e <;> simp [symlinkCalls, ih]

theorem mkdirAllCalls_append (a b : List Event) :
    mkdirAllCalls (a ++ b) = mkdirAllCalls a ++ mkdirAllCalls b := by
  induction a with
  | nil => rfl
  | cons e a ih => cases e <;> simp [mkdirAllCalls, ih]

theorem removeCalls_append (a b : List Event) :
    removeCalls (a ++ b) = removeCalls a ++ removeCalls b := by
  induction a with
  | nil => rfl
  | cons e a ih => cases e <;> simp [removeCalls, ih]

theorem symlinkCalls_log (evs : List Event) (h : ∀ e ∈ evs, e.isLog = true) :
    symlinkCalls evs = [] := by
  induction evs with
  | nil => rfl
  | cons e evs ih =>
    have he := h e (List.mem_cons_self _ _)
    have ht := ih (fun e he => h e (List.mem_cons_of_mem _ he))
    cases e <;> simp_all [symlinkCalls, Event.isLog]

theorem mkdirAllCalls_log (evs : List Event) (h : ∀ e ∈ evs, e.isLog = true) :
    mkdirAllCalls evs = [] := by
  induction evs with
  | nil => rfl
  | cons e evs ih =>
    have he := h e (List.mem_cons_self _ _)
    have ht := ih (fun e he => h e (List.mem_cons_of_mem _ he))
    cases e <;> simp_all [mkdirAllCalls, Event.isLog]

theorem removeCalls_log (evs : List Event) (h : ∀ e ∈ evs, e.isLog = true) :
    removeCalls evs = [] := by
  induction evs with
  | nil => rfl
  | cons e evs ih =>
    have he := h e (List.mem_cons_self _ _)
    have ht := ih (fun e he => h e (List.mem_cons_of_mem _ he))
    cases e <;> simp_all [removeCalls, Event.isLog]

/-- The write step of `logToKmsg` only adds logging actions to the trace and leaves
`debugEnabled` alone. -/
theorem logToKmsg_write_trace {σ : Type} (os : OS σ) (s : GoString) (w : World σ) :
    ∃ evs, (logToKmsg.write os s w).2.trace = w.trace ++ evs ∧
      (∀ e ∈ evs, e.isLog = true) ∧
      (logToKmsg.write os s w).2.debugEnabled = w.debugEnabled := by
  unfold logToKmsg.write World.call
  cases h : (os.WriteKmsg s w.sys).1 with
  | none => exact ⟨[Event.writeKmsg s none], by simp [h], by simp [Event.isLog], by simp [h]⟩
  | some e =>
    exact ⟨[Event.writeKmsg s (some e), Event.closeKmsg], by simp [h],
      by simp [Event.isLog], by simp [h]⟩

theorem logToKmsg_trace {σ : Type} (os : OS σ) (s : GoString) (w : World σ) :
    ∃ evs, (logToKmsg os s w).2.trace = w.trace ++ evs ∧
      (∀ e ∈ evs, e.isLog = true) ∧
      (logToKmsg os s w).2.debugEnabled = w.debugEnabled := by
  unfold logToKmsg
  by_cases h1 : w.noKmsg = true
  · exact ⟨[], by simp [h1], by simp, by simp [h1]⟩
  · by_cases h2 : w.kmsgFile = false
    · simp only [h1, h2, if_false, if_true, Bool.false_eq_true]
      cases h3 : (os.OpenKmsg w.sys).1 with
      | some e =>
        exact ⟨[Event.openKmsg (some e)], by simp [World.call, h3],
          by simp [Event.isLog], by simp [World.call, h3]⟩
      | none =>
        simp only [World.call, h3, Option.isSome_none, Bool.false_eq_true, if_false]
        obtain ⟨evs, he, hl, hd⟩ := logToKmsg_write_trace os s
          { noKmsg := w.noKmsg, kmsgFile := true, debugEnabled := w.debugEnabled,
            sys := (os.OpenKmsg w.sys).2, trace := w.trace ++ [Event.openKmsg none] }
        refine ⟨Event.openKmsg none :: evs, ?_, ?_, ?_⟩
        · rw [he]; simp
        · intro e he2
          rcases List.mem_cons.mp he2 with rfl | h
          · rfl
          · exact hl e h
        · rw [hd]
    · simp only [h1, h2, if_false, Bool.false_eq_true]
      exact logToKmsg_write_trace os s w

/-- `Logf` only adds logging actions to the trace and leaves `debugEnabled` alone. -/
theorem Logf_trace {σ : Type} (os : OS σ) (s : GoString) (w : World σ) :
    ∃ evs, (Logf os s w).trace = w.trace ++ evs ∧ (∀ e ∈ evs, e.isLog = true) ∧
      (Logf os s w).debugEnabled = w.debugEnabled := by
  obtain ⟨evs, he, hl, hd⟩ := logToKmsg_trace os (Logf.line os s) w
  unfold Logf
  simp only []
  cases h : (logToKmsg os (Logf.line os s) w).1 with
  | true => exact ⟨evs, by simp [he], hl, by simp [hd]⟩
  | false =>
    refine ⟨evs ++ [Event.stderr (Logf.line os s ++ str "\n")], ?_, ?_, ?_⟩
    · simp [World.emit, he]
    · intro e he2
      rcases List.mem_append.mp he2 with h | h
      · exact hl e h
      · rw [List.mem_singleton.mp h]; rfl
    · simp [World.emit, hd]

theorem Debugf_trace {σ : Type} (os : OS σ) (s : GoString) (w : World σ) :
    ∃ evs, (Debugf os s w).trace = w.trace ++ evs ∧ (∀ e ∈ evs, e.isLog = true) ∧
      (Debugf os s w).debugEnabled = w.debugEnabled := by
  unfold Debugf
  split
  · exact Logf_trace os s w
  · exact ⟨[], by simp, by simp, rfl⟩

/-- What creating one link adds to the trace: one call of `os.MkdirAll` on the directory of
the link and, when that call succeeds, one call of `os.Remove` and one call of `os.Symlink`
on the path of the link; everything else it adds is logging. -/
theorem create_trace {σ : Type} (os : OS σ) (outputPath symlinkRel target : GoString)
    (w : World σ) :
    ∃ evs, (enableServiceFile.create os outputPath symlinkRel target w).trace = w.trace ++ evs ∧
      (enableServiceFile.create os outputPath symlinkRel target w).debugEnabled = w.debugEnabled ∧
      mkdirAllCalls evs = [path.Dir (path.Join [outputPath, symlinkRel])] ∧
      ((os.MkdirAll (path.Dir (path.Join [outputPath, symlinkRel])) w.sys).1 = none →
        symlinkCalls evs = [(path.Join [outputPath, symlinkRel], target)] ∧
        removeCalls evs = [path.Join [outputPath, symlinkRel]]) ∧
      ((os.MkdirAll (path.Dir (path.Join [outputPath, symlinkRel])) w.sys).1 ≠ none →
        symlinkCalls evs = [] ∧ removeCalls evs = []) := by
  unfold enableServiceFile.create
  simp only [World.call]
  generalize path.Join [outputPath, symlinkRel] = p
  generalize path.Dir p = d
  cases hm : (os.MkdirAll d w.sys).1 with
  | some err =>
    simp only []
    obtain ⟨evs, he, hl, hd⟩ := Logf_trace os (str "Can't create dir " ++ d ++ str ": " ++ err)
      { w with sys := (os.MkdirAll d w.sys).2, trace := w.trace ++ [Event.mkdirAll d (some err)] }
    refine ⟨Event.mkdirAll d (some err) :: evs, ?_, ?_, ?_, ?_, ?_⟩
    · rw [he]; simp
    · rw [hd]
    · simp [mkdirAllCalls, mkdirAllCalls_log evs hl]
    · intro h; simp at h
    · intro _; simp [symlinkCalls, removeCalls, symlinkCalls_log evs hl, removeCalls_log evs hl]
  | none =>
    simp only []
    obtain ⟨evs, he, hl, hd⟩ := Debugf_trace os
      (str "Creating symlink " ++ p ++ str " -> " ++ target)
      { w with sys := (os.MkdirAll d w.sys).2, trace := w.trace ++ [Event.mkdirAll d none] }
    generalize Debugf os (str "Creating symlink " ++ p ++ str " -> " ++ target)
      { w with sys := (os.MkdirAll d w.sys).2, trace := w.trace ++ [Event.mkdirAll d none] }
      = w1 at he hd
    simp only [] at he hd
    cases hs : (os.Symlink target p (os.Remove p w1.sys).2).1 with
    | none =>
      simp only []
      refine ⟨Event.mkdirAll d none :: evs ++
        [Event.remove p (os.Remove p w1.sys).1, Event.symlink target p none], ?_, ?_, ?_, ?_, ?_⟩
      · rw [he]; simp
      · rw [hd]
      · simp [mkdirAllCalls, mkdirAllCalls_append, mkdirAllCalls_log evs hl]
      · intro _
        simp [symlinkCalls, removeCalls, symlinkCalls_append, removeCalls_append,
          symlinkCalls_log evs hl, removeCalls_log evs hl]
      · intro h; exact absurd rfl h
    | some err =>
      simp only []
      obtain ⟨evs2, he2, hl2, hd2⟩ := Logf_trace os
        (str "Failed creating symlink " ++ p ++ str ": " ++ err)
        { w1 with sys := (os.Symlink target p (os.Remove p w1.sys).2).2,
                  trace := w1.trace ++ [Event.remove p (os.Remove p w1.sys).1] ++
                    [Event.symlink target p (some err)] }
      refine ⟨Event.mkdirAll d none :: evs ++
        [Event.remove p (os.Remove p w1.sys).1, Event.symlink target p (some err)] ++ evs2,
         ?_, ?_, ?_, ?_, ?_⟩
      · rw [he2, he]; simp
      · rw [hd2]; exact hd
      · simp [mkdirAllCalls, mkdirAllCalls_append, mkdirAllCalls_log evs hl,
          mkdirAllCalls_log evs2 hl2]
      · intro _
        simp [symlinkCalls, removeCalls, symlinkCalls_append, removeCalls_append,
          symlinkCalls_log evs hl, removeCalls_log evs hl, symlinkCalls_log evs2 hl2,
          removeCalls_log evs2 hl2]
      · intro h; exact absurd rfl h

/-! ## Creating the links -/

/-- The link of a `WantedBy` or `RequiredBy` value `u` without `/`, at `<u><suffix>/<F>`
for a generated file name `F`, gets the target `../<F>`. -/
theorem link_dependency {σ : Type} (os : OS σ) (outputPath : GoString) (service : UnitFile)
    (w : World σ) (u suf : GoString) (hF : isGeneratedName service.Filename = true)
    (hu : byte '/' ∉ u) (hs : byte '/' ∉ suf) (hlen : 3 ≤ suf.length)
    (hlast : suf.getLast? ≠ some (byte 'e')) :
    enableServiceFile.link os outputPath service (u ++ suf ++ [byte '/'] ++ service.Filename) w =
      enableServiceFile.create os outputPath (u ++ suf ++ [byte '/'] ++ service.Filename)
        (str "../" ++ service.Filename) w := by
  have hx := isElem_append_suffix u suf hu hs hlen
  have hf := isGeneratedName_isElem _ hF
  have hne : suf ≠ [] := by intro e; rw [e] at hlen; simp at hlen
  have hxf := append_suffix_ne_generated u suf _ hF hlast hne
  unfold enableServiceFile.link
  rw [Dir_elem_slash _ _ hx hf.2.1, Rel_elem_elem _ _ hx hf hxf]

theorem link_wants {σ : Type} (os : OS σ) (outputPath : GoString) (service : UnitFile)
    (w : World σ) (u : GoString) (hF : isGeneratedName service.Filename = true)
    (hu : byte '/' ∉ u) :
    enableServiceFile.link os outputPath service (u ++ str ".wants/" ++ service.Filename) w =
      enableServiceFile.create os outputPath (u ++ str ".wants/" ++ service.Filename)
        (str "../" ++ service.Filename) w := by
  have h := link_dependency os outputPath service w u (str ".wants") hF hu (by decide)
    (by decide) (by decide)
  have e : u ++ str ".wants" ++ [byte '/'] = u ++ str ".wants/" := by
    rw [List.append_assoc]; congr 1
  rw [e] at h
  exact h

theorem link_requires {σ : Type} (os : OS σ) (outputPath : GoString) (service : UnitFile)
    (w : World σ) (u : GoString) (hF : isGeneratedName service.Filename = true)
    (hu : byte '/' ∉ u) :
    enableServiceFile.link os outputPath service (u ++ str ".requires/" ++ service.Filename) w =
      enableServiceFile.create os outputPath (u ++ str ".requires/" ++ service.Filename)
        (str "../" ++ service.Filename) w := by
  have h := link_dependency os outputPath service w u (str ".requires") hF hu (by decide)
    (by decide) (by decide)
  have e : u ++ str ".requires" ++ [byte '/'] = u ++ str ".requires/" := by
    rw [List.append_assoc]; congr 1
  rw [e] at h
  exact h

/-- The link of an alias without `/` that is a plain element gets the generated file name
itself as target. -/
theorem link_plain_alias {σ : Type} (os : OS σ) (outputPath : GoString) (service : UnitFile)
    (w : World σ) (a : GoString) (hF : isGeneratedName service.Filename = true)
    (ha : byte '/' ∉ a) :
    enableServiceFile.link os outputPath service a w =
      enableServiceFile.create os outputPath a service.Filename w := by
  unfold enableServiceFile.link
  rw [Dir_no_slash a ha, Rel_dot_elem _ (isGeneratedName_isElem _ hF)]

/-- When the directory of a link can be created, creating the link calls `os.Symlink`
exactly once, with the path of the link and the target. -/
theorem create_symlinkCalls {σ : Type} (os : OS σ) (outputPath symlinkRel target : GoString)
    (w : World σ)
    (hm : (os.MkdirAll (path.Dir (path.Join [outputPath, symlinkRel])) w.sys).1 = none) :
    symlinkCalls (enableServiceFile.create os outputPath symlinkRel target w).trace =
      symlinkCalls w.trace ++ [(path.Join [outputPath, symlinkRel], target)] := by
  obtain ⟨evs, he, _, _, h1, _⟩ := create_trace os outputPath symlinkRel target w
  rw [he, symlinkCalls_append, (h1 hm).1]

/-- C6: install fan-out. For a generated unit with the bare file name `F` whose `Install`
group has exactly `WantedBy=multi-user.target` and `Alias=foo.service`, and for every output
directory, `enableServiceFile` creates exactly two symbolic links (directories being
creatable): `<outputPath>/foo.service` with target `F`, and
`<outputPath>/multi-user.target.wants/F` with target `../F`. More generally every
slash-free unit name `u` of `WantedBy` (`RequiredBy`) has the planned link `<u>.wants/F`
(`<u>.requires/F`), which is created at that path under `outputPath` with the target `../F`,
whatever `outputPath` is. -/
theorem enableServiceFile_fan_out {σ : Type} (os : OS σ) (outputPath : GoString)
    (service : UnitFile) (w : World σ) (hF : isGeneratedName service.Filename = true) :
    ((service.LookupAllStrv quadlet.InstallGroup (str "Alias") = [str "foo.service"] ∧
      service.LookupAllStrv quadlet.InstallGroup (str "WantedBy") = [str "multi-user.target"] ∧
      service.LookupAllStrv quadlet.InstallGroup (str "RequiredBy") = [] ∧
      (∀ p s, (os.MkdirAll p s).1 = none)) →
      symlinkCalls (enableServiceFile os outputPath service w).trace =
        symlinkCalls w.trace ++
          [(path.Join [outputPath, str "foo.service"], service.Filename),
           (path.Join [outputPath, str "multi-user.target.wants/" ++ service.Filename],
             str "../" ++ service.Filename)]) ∧
    (∀ u : GoString, byte '/' ∉ u →
      (u ∈ service.LookupAllStrv quadlet.InstallGroup (str "WantedBy") →
        u ++ str ".wants/" ++ service.Filename ∈ enableServiceFile.symlinks service) ∧
      (u ∈ service.LookupAllStrv quadlet.InstallGroup (str "RequiredBy") →
        u ++ str ".requires/" ++ service.Filename ∈ enableServiceFile.symlinks service) ∧
      enableServiceFile.link os outputPath service (u ++ str ".wants/" ++ service.Filename) w =
        enableServiceFile.create os outputPath (u ++ str ".wants/" ++ service.Filename)
          (str "../" ++ service.Filename) w ∧
      enableServiceFile.link os outputPath service (u ++ str ".requires/" ++ service.Filename) w =
        enableServiceFile.create os outputPath (u ++ str ".requires/" ++ service.Filename)
          (str "../" ++ service.Filename) w ∧
      ((os.MkdirAll (path.Dir (path.Join [outputPath, u ++ str ".wants/" ++ service.Filename]))
          w.sys).1 = none →
        symlinkCalls (enableServiceFile.link os outputPath service
            (u ++ str ".wants/" ++ service.Filename) w).trace =
          symlinkCalls w.trace ++
            [(path.Join [outputPath, u ++ str ".wants/" ++ service.Filename],
              str "../" ++ service.Filename)]) ∧
      ((os.MkdirAll (path.Dir (path.Join [outputPath, u ++ str ".requires/" ++ service.Filename]))
          w.sys).1 = none →
        symlinkCalls (enableServiceFile.link os outputPath service
            (u ++ str ".requires/" ++ service.Filename) w).trace =
          symlinkCalls w.trace ++
            [(path.Join [outputPath, u ++ str ".requires/" ++ service.Filename],
              str "../" ++ service.Filename)])) := by
  constructor
  · rintro ⟨hA, hW, hR, hm⟩
    have hplan : enableServiceFile.symlinks service =
        [str "foo.service", str "multi-user.target.wants/" ++ service.Filename] := by
      rw [symlinks_plan, hA, hW, hR]
      have h1 : filepath.Clean (str "foo.service") = str "foo.service" := by decide
      have h2 : decide (byte '/' ∉ str "multi-user.target") = true := by decide
      have h3 : str "multi-user.target" ++ str ".wants/" = str "multi-user.target.wants/" := by
        decide
      simp only [List.map_cons, List.map_nil, h1, List.filter_cons, h2, if_true,
        List.filter_nil, List.append_nil, List.singleton_append, h3]
    have h3 : str "multi-user.target" ++ str ".wants/" = str "multi-user.target.wants/" := by
      decide
    have hl2 := link_wants os outputPath service
      (enableServiceFile.create os outputPath (str "foo.service") service.Filename w)
      (str "multi-user.target") hF (by decide)
    rw [h3] at hl2
    unfold enableServiceFile enableServiceFile.links
    rw [hplan]
    simp only [List.foldl_cons, List.foldl_nil]
    rw [link_plain_alias os outputPath service w (str "foo.service") hF (by decide), hl2,
      create_symlinkCalls _ _ _ _ _ (hm _ _), create_symlinkCalls _ _ _ _ _ (hm _ _)]
    simp
  · intro u hu
    refine ⟨fun hmem => ?_, fun hmem => ?_, link_wants os outputPath service w u hF hu,
      link_requires os outputPath service w u hF hu, fun hm => ?_, fun hm => ?_⟩
    · rw [symlinks_plan]
      refine List.mem_append_left _ (List.mem_append_right _ ?_)
      exact List.mem_map.mpr ⟨u, List.mem_filter.mpr ⟨hmem, by simpa using hu⟩, rfl⟩
    · rw [symlinks_plan]
      refine List.mem_append_right _ ?_
      exact List.mem_map.mpr ⟨u, List.mem_filter.mpr ⟨hmem, by simpa using hu⟩, rfl⟩
    · rw [link_wants os outputPath service w u hF hu, create_symlinkCalls _ _ _ _ _ hm]
    · rw [link_requires os outputPath service w u hF hu, create_symlinkCalls _ _ _ _ _ hm]

/-- C6 at a concrete input: the unit `web.service` with `Alias=foo.service` and
`WantedBy=multi-user.target`, enabled in `/run/gen` on an empty store of links. -/
theorem enableServiceFile_fan_out_witness :
    isGeneratedName sampleService.Filename = true ∧
    symlinkCalls (enableServiceFile (linkStore 42 (str "quadlet")) (str "/run/gen") sampleService
        (World.start [])).trace =
      [(str "/run/gen/foo.service", str "web.service"),
       (str "/run/gen/multi-user.target.wants/web.service", str "../web.service")] ∧
    symlinkCalls (enableServiceFile.link (linkStore 42 (str "quadlet")) (str "/run/gen")
        sampleService (str "default.target" ++ str ".requires/" ++ sampleService.Filename)
        (World.start [])).trace =
      [(str "/run/gen/default.target.requires/web.service", str "../web.service")] :=
  ⟨by decide,
   ((enableServiceFile_fan_out (linkStore 42 (str "quadlet")) (str "/run/gen") sampleService
      (World.start []) (by decide)).1
      ⟨by decide, by decide, by decide, fun _ _ => rfl⟩).trans (by decide),
   (((enableServiceFile_fan_out (linkStore 42 (str "quadlet")) (str "/run/gen") sampleService
      (World.start []) (by decide)).2 (str "default.target") (by decide)).2.2.2.2.2
      rfl).trans (by decide)⟩

/-- C7, evaluated at the failing input: for the generated unit `web.service` with `Alias=.`
and the output directory `/run/gen`, `enableServiceFile` plans the link `.`, computes the
target `web.service` for it and creates the link at the path `/run/gen`. Resolved from the
directory `/run` that contains the link, the target names `/run/web.service`, not the
generated unit `/run/gen/web.service`. -/
theorem enableServiceFile_dot_alias_target :
    isGeneratedName dotAliasService.Filename = true ∧
    enableServiceFile.symlinks dotAliasService = [str "."] ∧
    filepath.Rel (path.Dir (str ".")) dotAliasService.Filename = .ok (str "web.service") ∧
    symlinkCalls (enableServiceFile (linkStore 42 (str "quadlet")) (str "/run/gen")
        dotAliasService (World.start [])).trace = [(str "/run/gen", str "web.service")] ∧
    path.Join [path.Dir (str "/run/gen"), str "web.service"] = str "/run/web.service" ∧
    path.Join [str "/run/gen", dotAliasService.Filename] = str "/run/gen/web.service" ∧
    path.Join [path.Dir (path.Join [str "/run/gen", str "."]), str "web.service"] ≠
      path.Join [str "/run/gen", dotAliasService.Filename] := by
  decide

/-- C8, evaluated at the failing input: for the generated unit `web.service` with
`Alias=..` and the output directory `/run/gen`, `enableServiceFile` plans the link `..`,
whose path `path.Join(outputPath, "..")` is `/run`, the parent of the output directory. It
calls `os.Remove` and `os.Symlink` on `/run`, a path that is not inside `/run/gen`. -/
theorem enableServiceFile_dotdot_alias_escapes :
    isGeneratedName dotdotAliasService.Filename = true ∧
    enableServiceFile.symlinks dotdotAliasService = [str ".."] ∧
    path.Join [str "/run/gen", str ".."] = str "/run" ∧
    removeCalls (enableServiceFile (linkStore 42 (str "quadlet")) (str "/run/gen")
        dotdotAliasService (World.start [])).trace = [str "/run"] ∧
    symlinkCalls (enableServiceFile (linkStore 42 (str "quadlet")) (str "/run/gen")
        dotdotAliasService (World.start [])).trace = [(str "/run", str "web.service")] ∧
    (enableServiceFile (linkStore 42 (str "quadlet")) (str "/run/gen")
        dotdotAliasService (World.start [])).sys = [(str "/run", str "web.service")] ∧
    strings.HasPrefix (str "/run") (str "/run/gen/") = false := by
  decide


/-! ## Failures while creating links -/

theorem delivered_append (a b : List Event) : delivered (a ++ b) = delivered a ++ delivered b := by
  induction a with
  | nil => rfl
  | cons e a ih =>
    cases e with
    | writeKmsg line err => cases err <;> simp [delivered, ih]
    | _ => simp [delivered, ih]

/-- Every call of `Logf` delivers exactly one line, the tagged message: to the kernel log,
or else to standard error followed by a newline. -/
theorem Logf_delivered {σ : Type} (os : OS σ) (s : GoString) (w : World σ) :
    delivered (Logf os s w).trace = delivered w.trace ++ [Logf.line os s] ∨
    delivered (Logf os s w).trace = delivered w.trace ++ [Logf.line os s ++ str "\n"] := by
  unfold Logf logToKmsg
  by_cases h1 : w.noKmsg = true
  · right
    simp [h1, World.emit, delivered_append, delivered]
  · by_cases h2 : w.kmsgFile = false
    · cases h3 : (os.OpenKmsg w.sys).1 with
      | some e =>
        right
        simp [h1, h2, h3, World.call, World.emit, delivered_append, delivered]
      | none =>
        cases h4 : (os.WriteKmsg (Logf.line os s) (os.OpenKmsg w.sys).2).1 with
        | some e =>
          right
          simp [h1, h2, h3, h4, World.call, World.emit, logToKmsg.write, delivered_append,
            delivered]
        | none =>
          left
          simp [h1, h2, h3, h4, World.call, World.emit, logToKmsg.write, delivered_append,
            delivered]
    · cases h4 : (os.WriteKmsg (Logf.line os s) w.sys).1 with
      | some e =>
        right
        simp [h1, h2, h4, World.call, World.emit, logToKmsg.write, delivered_append, delivered]
      | none =>
        left
        simp [h1, h2, h4, World.call, World.emit, logToKmsg.write, delivered_append, delivered]

/-- The directory that `enableServiceFile` creates for a planned link, when the target of
the link can be computed. -/
theorem link_mkdirAllCalls {σ : Type} (os : OS σ) (outputPath : GoString) (service : UnitFile)
    (l : GoString) (w : World σ) :
    mkdirAllCalls (enableServiceFile.link os outputPath service l w).trace =
      mkdirAllCalls w.trace ++
        (match filepath.Rel (path.Dir l) service.Filename with
         | .ok _ => [path.Dir (path.Join [outputPath, l])]
         | .error _ => []) := by
  unfold enableServiceFile.link
  cases filepath.Rel (path.Dir l) service.Filename with
  | error err =>
    obtain ⟨evs, he, hl, _⟩ := Logf_trace os
      (str "Can't create symlink " ++ l ++ str ": " ++ err) w
    simp only []
    rw [he, mkdirAllCalls_append, mkdirAllCalls_log evs hl]
  | ok target =>
    obtain ⟨evs, he, _, hm, _⟩ := create_trace os outputPath l target w
    simp only []
    rw [he, mkdirAllCalls_append, hm]

theorem links_mkdirAllCalls {σ : Type} (os : OS σ) (outputPath : GoString) (service : UnitFile)
    (ls : List GoString) (w : World σ) :
    mkdirAllCalls (enableServiceFile.links os outputPath service ls w).trace =
      mkdirAllCalls w.trace ++
        (ls.map (fun l =>
          match filepath.Rel (path.Dir l) service.Filename with
          | .ok _ => [path.Dir (path.Join [outputPath, l])]
          | .error _ => [])).flatten := by
  induction ls generalizing w with
  | nil => simp [enableServiceFile.links]
  | cons l ls ih =>
    have h := ih (enableServiceFile.link os outputPath service l w)
    unfold enableServiceFile.links at h ⊢
    rw [List.foldl_cons, h, link_mkdirAllCalls]
    simp

/-- C9: a single symlink failure is logged and skipped and does not abort the remaining
links. The loop of `enableServiceFile` goes on with the links after `l` from the world that
the step for `l` leaves, whatever happened in that step. When computing the relative target,
creating the parent directory or creating the symlink fails for a planned link, the step
for that link ends with one call of `Logf` that names the link, and every call of `Logf`
delivers exactly one line (to the kernel log, or to standard error). Whatever fails, the
directory of every planned link that has a target is still passed to `os.MkdirAll`, in the
order of the plan. -/
theorem enableServiceFile_failure_skipped {σ : Type} (os : OS σ) (outputPath : GoString)
    (service : UnitFile) (w : World σ) :
    (∀ (pre post : List GoString) (l : GoString),
      enableServiceFile.links os outputPath service (pre ++ l :: post) w =
        enableServiceFile.links os outputPath service post
          (enableServiceFile.link os outputPath service l
            (enableServiceFile.links os outputPath service pre w))) ∧
    (∀ (l : GoString) (w0 : World σ) (err : Error),
      filepath.Rel (path.Dir l) service.Filename = .error err →
      enableServiceFile.link os outputPath service l w0 =
        Logf os (str "Can't create symlink " ++ l ++ str ": " ++ err) w0) ∧
    (∀ (l target : GoString) (w0 : World σ) (err : Error),
      filepath.Rel (path.Dir l) service.Filename = .ok target →
      (os.MkdirAll (path.Dir (path.Join [outputPath, l])) w0.sys).1 = some err →
      enableServiceFile.link os outputPath service l w0 =
        Logf os (str "Can't create dir " ++ path.Dir (path.Join [outputPath, l]) ++ str ": " ++ err)
          (w0.call (os.MkdirAll (path.Dir (path.Join [outputPath, l])) w0.sys)
            (Event.mkdirAll (path.Dir (path.Join [outputPath, l])))).2) ∧
    (∀ (l target : GoString) (w0 : World σ) (err : Error),
      filepath.Rel (path.Dir l) service.Filename = .ok target →
      (os.MkdirAll (path.Dir (path.Join [outputPath, l])) w0.sys).1 = none →
      let p := path.Join [outputPath, l]
      let w1 := Debugf os (str "Creating symlink " ++ p ++ str " -> " ++ target)
        (w0.call (os.MkdirAll (path.Dir p) w0.sys) (Event.mkdirAll (path.Dir p))).2
      let w2 := (w1.call (os.Remove p w1.sys) (Event.remove p)).2
      (os.Symlink target p w2.sys).1 = some err →
      enableServiceFile.link os outputPath service l w0 =
        Logf os (str "Failed creating symlink " ++ p ++ str ": " ++ err)
          (w2.call (os.Symlink target p w2.sys) (Event.symlink target p)).2) ∧
    (∀ (s : GoString) (w0 : World σ),
      delivered (Logf os s w0).trace = delivered w0.trace ++ [Logf.line os s] ∨
      delivered (Logf os s w0).trace = delivered w0.trace ++ [Logf.line os s ++ str "\n"]) ∧
    mkdirAllCalls (enableServiceFile os outputPath service w).trace =
      mkdirAllCalls w.trace ++
        ((enableServiceFile.symlinks service).map (fun l =>
          match filepath.Rel (path.Dir l) service.Filename with
          | .ok _ => [path.Dir (path.Join [outputPath, l])]
          | .error _ => [])).flatten := by
  refine ⟨?_, ?_, ?_, ?_, Logf_delivered os, links_mkdirAllCalls os outputPath service _ w⟩
  · intro pre post l
    simp [enableServiceFile.links, List.foldl_append]
  · intro l w0 err h
    simp [enableServiceFile.link, h]
  · intro l target w0 err h hm
    simp [enableServiceFile.link, enableServiceFile.create, h, hm, World.call]
  · intro l target w0 err h hm p w1 w2 hs
    simp only [enableServiceFile.link, enableServiceFile.create, h, World.call, hm]
    simp only [p, w1, w2, World.call, hm] at hs
    simp only [hs, p, w1, w2, World.call, hm]

/-- C9 at a concrete input: the unit `web.service` with `Alias=/abs foo.service`,
`WantedBy=multi-user.target` and `RequiredBy=default.target` on an operating system where
the target of `/abs` cannot be computed, the link `foo.service` cannot be created and the
directory `multi-user.target.wants` cannot be created. Each failure is logged, and the
last link is still created. -/
theorem enableServiceFile_failure_skipped_witness :
    (filepath.Rel (path.Dir (str "/abs")) manyLinksService.Filename =
        .error (str "Rel: can't make web.service relative to /") ∧
      enableServiceFile.link faultyStore (str "/run/gen") manyLinksService (str "/abs")
          (World.start []) =
        Logf faultyStore
          (str "Can't create symlink /abs: Rel: can't make web.service relative to /")
          (World.start [])) ∧
    (delivered (enableServiceFile.link faultyStore (str "/run/gen") manyLinksService
        (str "multi-user.target.wants/web.service") (World.start [])).trace =
      [str "quadlet-generator[42]: Can't create dir /run/gen/multi-user.target.wants: mkdir /run/gen/multi-user.target.wants: permission denied\n"]) ∧
    (delivered (enableServiceFile.link faultyStore (str "/run/gen") manyLinksService
        (str "foo.service") (World.start [])).trace =
      [str "quadlet-generator[42]: Failed creating symlink /run/gen/foo.service: symlink web.service /run/gen/foo.service: permission denied\n"]) ∧
    mkdirAllCalls (enableServiceFile faultyStore (str "/run/gen") manyLinksService
        (World.start [])).trace =
      [str "/run/gen", str "/run/gen/multi-user.target.wants",
       str "/run/gen/default.target.requires"] ∧
    (enableServiceFile faultyStore (str "/run/gen") manyLinksService (World.start [])).sys =
      [(str "/run/gen/default.target.requires/web.service", str "../web.service")] :=
  ⟨⟨by decide,
    ((enableServiceFile_failure_skipped faultyStore (str "/run/gen") manyLinksService
      (World.start [])).2.1 (str "/abs") (World.start [])
      (str "Rel: can't make web.service relative to /") (by decide)).trans (by decide)⟩,
   (congrArg (fun w => delivered w.trace)
      ((enableServiceFile_failure_skipped faultyStore (str "/run/gen") manyLinksService
        (World.start [])).2.2.1 (str "multi-user.target.wants/web.service") (str "../web.service")
        (World.start []) (str "mkdir /run/gen/multi-user.target.wants: permission denied")
        (by decide) (by decide))).trans (by decide),
   (congrArg (fun w => delivered w.trace)
      ((enableServiceFile_failure_skipped faultyStore (str "/run/gen") manyLinksService
        (World.start [])).2.2.2.1 (str "foo.service") (str "web.service")
        (World.start []) (str "symlink web.service /run/gen/foo.service: permission denied")
        (by decide) (by decide) (by decide))).trans (by decide),
   ((enableServiceFile_failure_skipped faultyStore (str "/run/gen") manyLinksService
      (World.start [])).2.2.2.2.2).trans (by decide),
   by decide⟩


/-! ## The image-name warning in the loop of `main` -/

/-- The exit code after `main.emit` does not depend on the world. -/
theorem emit_exitCode {σ : Type} (os : OS σ) (dryRunFlag : Bool) (outputPath name : GoString)
    (res : Except Error UnitFile) (st st2 : LoopState σ) (h : st.exitCode = st2.exitCode) :
    (main.emit os dryRunFlag outputPath name res st).exitCode =
      (main.emit os dryRunFlag outputPath name res st2).exitCode := by
  unfold main.emit
  cases res with
  | error e => exact h
  | ok service =>
    simp only []
    cases dryRunFlag with
    | true =>
      simp only [if_true]
      cases (UnitFile.ToString
        { service with Path := path.Join [outputPath, service.Filename] }) with
      | error e => rfl
      | ok data => exact h
    | false => exact h

/-- C4: an ambiguous image name only produces a warning, never an error. For every
`.container` unit the loop body of `main` calls the container converter with the same unit
and rootless flag and then handles its result (writing or printing it) from the world that
`warnIfAmbiguousName` leaves, whether or not a warning was logged: the unit is not skipped.
`warnIfAmbiguousName` either does nothing or makes one call of `Logf` with the warning; it
only adds logging actions to the trace, and the exit code is the one obtained without it. -/
theorem warnIfAmbiguousName_only_warns {σ : Type} (os : OS σ) (cv : Converters)
    (isUserFlag dryRunFlag : Bool) (outputPath name : GoString) (unit : UnitFile)
    (st : LoopState σ) (hname : strings.HasSuffix name (str ".container") = true) :
    main.body os cv isUserFlag dryRunFlag outputPath name unit st =
      main.emit os dryRunFlag outputPath name (cv.ConvertContainer unit isUserFlag)
        { st with world := warnIfAmbiguousName os unit st.world } ∧
    (warnIfAmbiguousName os unit st.world = st.world ∨
      ∃ imageName, unit.Lookup quadlet.ContainerGroup quadlet.KeyImage = some imageName ∧
        isUnambiguousName imageName = false ∧
        warnIfAmbiguousName os unit st.world =
          Logf os (warnIfAmbiguousName.message unit.Filename imageName) st.world) ∧
    (∃ evs, (warnIfAmbiguousName os unit st.world).trace = st.world.trace ++ evs ∧
      (∀ e ∈ evs, e.isLog = true)) ∧
    (main.body os cv isUserFlag dryRunFlag outputPath name unit st).exitCode =
      (main.emit os dryRunFlag outputPath name (cv.ConvertContainer unit isUserFlag) st).exitCode := by
  have hbody : main.body os cv isUserFlag dryRunFlag outputPath name unit st =
      main.emit os dryRunFlag outputPath name (cv.ConvertContainer unit isUserFlag)
        { st with world := warnIfAmbiguousName os unit st.world } := by
    simp [main.body, main.convert, hname]
  refine ⟨hbody, ?_, ?_, ?_⟩
  · unfold warnIfAmbiguousName
    cases hl : unit.Lookup quadlet.ContainerGroup quadlet.KeyImage with
    | none => exact Or.inl rfl
    | some imageName =>
      by_cases hu : isUnambiguousName imageName = true
      · left; simp [hu]
      · have hu2 : isUnambiguousName imageName = false := by simpa using hu
        right; exact ⟨imageName, rfl, hu2, by simp [hu2]⟩
  · unfold warnIfAmbiguousName
    cases unit.Lookup quadlet.ContainerGroup quadlet.KeyImage with
    | none => exact ⟨[], by simp, by simp⟩
    | some imageName =>
      by_cases hu : isUnambiguousName imageName = true
      · exact ⟨[], by simp [hu], by simp⟩
      · have hu2 : isUnambiguousName imageName = false := by simpa using hu
        obtain ⟨evs, he, hl, _⟩ := Logf_trace os
          (warnIfAmbiguousName.message unit.Filename imageName) st.world
        exact ⟨evs, by simpa [hu2] using he, hl⟩
  · rw [hbody]
    exact emit_exitCode os dryRunFlag outputPath name _ _ _ rfl

set_option maxRecDepth 100000 in
/-- C4 at a concrete input: the unit `web.container` with the short image name `fedora`, in
dry-run mode. The warning is delivered, the unit is converted and printed, and the exit
code stays 0. -/
theorem warnIfAmbiguousName_only_warns_witness :
    strings.HasSuffix (str "web.container") (str ".container") = true ∧
    isUnambiguousName (str "fedora") = false ∧
    (main.body (linkStore 42 (str "quadlet")) sampleConverters false true [] (str "web.container")
        shortNameContainer { world := World.start [], exitCode := 0 }).exitCode = 0 ∧
    (main.body (linkStore 42 (str "quadlet")) sampleConverters false true [] (str "web.container")
        shortNameContainer { world := World.start [], exitCode := 0 }).world.trace =
      [Event.openKmsg none,
       Event.writeKmsg (Logf.line (linkStore 42 (str "quadlet"))
         (warnIfAmbiguousName.message (str "web.container") (str "fedora"))) none,
       Event.stdout (str "---web.service---\n[Container]\nImage=fedora\n\n")] :=
  ⟨by decide, by decide,
   ((warnIfAmbiguousName_only_warns (linkStore 42 (str "quadlet")) sampleConverters false true []
      (str "web.container") shortNameContainer { world := World.start [], exitCode := 0 }
      (by decide)).2.2.2).trans (by decide),
   (congrArg (fun s => s.world.trace)
     ((warnIfAmbiguousName_only_warns (linkStore 42 (str "quadlet")) sampleConverters false true []
      (str "web.container") shortNameContainer { world := World.start [], exitCode := 0 }
      (by decide)).1)).trans (by decide)⟩


/-! ## Enabling a unit twice -/

theorem linkFailures_append (a b : List Event) :
    linkFailures (a ++ b) = linkFailures a ++ linkFailures b := by
  induction a with
  | nil => rfl
  | cons e a ih =>
    cases e with
    | mkdirAll p err => cases err <;> simp [linkFailures, ih]
    | symlink o n err => cases err <;> simp [linkFailures, ih]
    | _ => simp [linkFailures, ih]

theorem linkFailures_log (evs : List Event) (h : ∀ e ∈ evs, e.isLog = true) :
    linkFailures evs = [] := by
  induction evs with
  | nil => rfl
  | cons e evs ih =>
    have he := h e (List.mem_cons_self _ _)
    have ht := ih (fun e he => h e (List.mem_cons_of_mem _ he))
    cases e <;> simp_all [linkFailures, Event.isLog]

theorem putLinks_congr (ls : List (GoString × GoString)) (f g : GoString → Option GoString)
    (q : GoString) (h : f q = g q ∨ q ∈ ls.map Prod.fst) : putLinks ls f q = putLinks ls g q := by
  induction ls generalizing f g with
  | nil =>
    rcases h with h | h
    · exact h
    · simp at h
  | cons e ls ih =>
    simp only [putLinks, List.foldl_cons]
    apply ih
    by_cases hq : q = e.1
    · left; simp [hq]
    · rcases h with h | h
      · left; simp [hq, h]
      · right
        simp only [List.map_cons, List.mem_cons] at h
        rcases h with h | h
        · exact absurd h hq
        · exact h

theorem putLinks_not_mem (ls : List (GoString × GoString)) (f : GoString → Option GoString)
    (q : GoString) (h : q ∉ ls.map Prod.fst) : putLinks ls f q = f q := by
  induction ls generalizing f with
  | nil => rfl
  | cons e ls ih =>
    simp only [List.map_cons, List.mem_cons, not_or] at h
    simp only [putLinks, List.foldl_cons]
    have := ih (fun q => if q = e.1 then some e.2 else f q) h.2
    simp only [putLinks] at this
    rw [this]
    simp [h.1]

theorem putLinks_mem (ls : List (GoString × GoString)) (f : GoString → Option GoString)
    (q : GoString) (h : q ∈ ls.map Prod.fst) : putLinks ls f q ≠ none := by
  induction ls generalizing f with
  | nil => simp at h
  | cons e ls ih =>
    simp only [putLinks, List.foldl_cons]
    by_cases hq : q ∈ ls.map Prod.fst
    · exact ih _ hq
    · have := putLinks_not_mem ls (fun q => if q = e.1 then some e.2 else f q) q hq
      simp only [putLinks] at this
      rw [this]
      simp only [List.map_cons, List.mem_cons] at h
      rcases h with h | h
      · simp [h]
      · exact absurd h hq

/-- Putting the same links into a store a second time changes nothing. -/
theorem putLinks_twice (ls : List (GoString × GoString)) (f : GoString → Option GoString) :
    putLinks ls (putLinks ls f) = putLinks ls f := by
  funext q
  by_cases hq : q ∈ ls.map Prod.fst
  · exact putLinks_congr ls _ _ q (Or.inr hq)
  · rw [putLinks_not_mem ls _ q hq]

theorem putLinks_append (a b : List (GoString × GoString)) (f : GoString → Option GoString) :
    putLinks (a ++ b) f = putLinks b (putLinks a f) := by
  simp [putLinks, List.foldl_append]

/-- Logging changes no link. -/
theorem Logf_links {σ : Type} (os : OS σ) (links : σ → GoString → Option GoString)
    (h : SymlinkStore os links) (s : GoString) (w : World σ) :
    links (Logf os s w).sys = links w.sys := by
  unfold Logf logToKmsg
  by_cases h1 : w.noKmsg = true
  · simp [h1, World.emit]
  · by_cases h2 : w.kmsgFile = false
    · cases h3 : (os.OpenKmsg w.sys).1 with
      | some e => simp [h1, h2, h3, World.call, World.emit, h.openKmsg_links]
      | none =>
        cases h4 : (os.WriteKmsg (Logf.line os s) (os.OpenKmsg w.sys).2).1 with
        | some e =>
          simp [h1, h2, h3, h4, World.call, World.emit, logToKmsg.write, h.openKmsg_links,
            h.writeKmsg_links, h.closeKmsg_links]
        | none =>
          simp [h1, h2, h3, h4, World.call, World.emit, logToKmsg.write, h.openKmsg_links,
            h.writeKmsg_links]
    · cases h4 : (os.WriteKmsg (Logf.line os s) w.sys).1 with
      | some e =>
        simp [h1, h2, h4, World.call, World.emit, logToKmsg.write, h.writeKmsg_links,
          h.closeKmsg_links]
      | none =>
        simp [h1, h2, h4, World.call, World.emit, logToKmsg.write, h.writeKmsg_links]

theorem Debugf_links {σ : Type} (os : OS σ) (links : σ → GoString → Option GoString)
    (h : SymlinkStore os links) (s : GoString) (w : World σ) :
    links (Debugf os s w).sys = links w.sys := by
  unfold Debugf
  split
  · exact Logf_links os links h s w
  · rfl

theorem delivered_Debugf_off {σ : Type} (os : OS σ) (s : GoString) (w : World σ)
    (h : w.debugEnabled = false) : Debugf os s w = w := by
  simp [Debugf, h]

/-- One step of the loop of `enableServiceFile` on a store of symbolic links: no directory
or link creation fails, the planned link (if it has a target) is removed and created, and
afterwards the store holds it. -/
theorem link_store {σ : Type} (os : OS σ) (links : σ → GoString → Option GoString)
    (h : SymlinkStore os links) (outputPath : GoString) (service : UnitFile) (l : GoString)
    (w : World σ) :
    ∃ evs, (enableServiceFile.link os outputPath service l w).trace = w.trace ++ evs ∧
      (enableServiceFile.link os outputPath service l w).debugEnabled = w.debugEnabled ∧
      linkFailures evs = [] ∧
      symlinkCalls evs = (plannedLink outputPath service.Filename l).toList ∧
      removeCalls evs = (plannedLink outputPath service.Filename l).toList.map Prod.fst ∧
      links (enableServiceFile.link os outputPath service l w).sys =
        putLinks (plannedLink outputPath service.Filename l).toList (links w.sys) ∧
      (plannedLink outputPath service.Filename l ≠ none → w.debugEnabled = false →
        delivered evs = []) := by
  unfold enableServiceFile.link plannedLink
  cases filepath.Rel (path.Dir l) service.Filename with
  | error err =>
    obtain ⟨evs, he, hl, hd⟩ := Logf_trace os
      (str "Can't create symlink " ++ l ++ str ": " ++ err) w
    refine ⟨evs, he, hd, linkFailures_log evs hl, symlinkCalls_log evs hl, ?_, ?_, ?_⟩
    · simpa using removeCalls_log evs hl
    · simpa [putLinks] using Logf_links os links h _ w
    · intro hne; exact absurd rfl hne
  | ok target =>
    simp only [Option.toList, List.map_cons, List.map_nil]
    unfold enableServiceFile.create
    simp only [World.call, h.mkdirAll_ok]
    generalize path.Join [outputPath, l] = p
    generalize path.Dir p = d
    obtain ⟨evs, he, hl, hd⟩ := Debugf_trace os
      (str "Creating symlink " ++ p ++ str " -> " ++ target)
      { w with sys := (os.MkdirAll d w.sys).2, trace := w.trace ++ [Event.mkdirAll d none] }
    have hlk := Debugf_links os links h (str "Creating symlink " ++ p ++ str " -> " ++ target)
      { w with sys := (os.MkdirAll d w.sys).2, trace := w.trace ++ [Event.mkdirAll d none] }
    have hoff : w.debugEnabled = false → Debugf os
        (str "Creating symlink " ++ p ++ str " -> " ++ target)
        { w with sys := (os.MkdirAll d w.sys).2, trace := w.trace ++ [Event.mkdirAll d none] } =
        { w with sys := (os.MkdirAll d w.sys).2, trace := w.trace ++ [Event.mkdirAll d none] } :=
      fun hw => delivered_Debugf_off os _ _ hw
    generalize Debugf os (str "Creating symlink " ++ p ++ str " -> " ++ target)
      { w with sys := (os.MkdirAll d w.sys).2, trace := w.trace ++ [Event.mkdirAll d none] }
      = w1 at he hd hlk hoff
    simp only [h.mkdirAll_links] at he hd hlk
    have hfree : links (os.Remove p w1.sys).2 p = none := by
      rw [h.remove_links]; simp
    obtain ⟨hok, hnew⟩ := h.symlink_free target p _ hfree
    simp only [hok]
    refine ⟨Event.mkdirAll d none :: evs ++
        [Event.remove p (os.Remove p w1.sys).1, Event.symlink target p none],
      ?_, hd, ?_, ?_, ?_, ?_, ?_⟩
    · rw [he]; simp
    · simp [linkFailures, linkFailures_append, linkFailures_log evs hl]
    · simp [symlinkCalls, symlinkCalls_append, symlinkCalls_log evs hl]
    · simp [removeCalls, removeCalls_append, removeCalls_log evs hl]
    · funext q
      rw [hnew q, h.remove_links, hlk]
      simp only [putLinks, List.foldl_cons, List.foldl_nil]
      by_cases hq : q = p <;> simp [hq]
    · intro _ hw
      have e1 := hoff hw
      have e2 : evs = [] := by
        have := congrArg World.trace e1
        rw [he] at this
        simpa using this
      subst e2
      simp [delivered]

theorem filterMap_cons_toList {α β : Type} (f : α → Option β) (a : α) (l : List α) :
    (a :: l).filterMap f = (f a).toList ++ l.filterMap f := by
  rw [List.filterMap_cons]
  cases f a <;> rfl

/-- The loop of `enableServiceFile` on a store of symbolic links. -/
theorem links_store {σ : Type} (os : OS σ) (links : σ → GoString → Option GoString)
    (h : SymlinkStore os links) (outputPath : GoString) (service : UnitFile)
    (ls : List GoString) (w : World σ) :
    ∃ evs, (enableServiceFile.links os outputPath service ls w).trace = w.trace ++ evs ∧
      (enableServiceFile.links os outputPath service ls w).debugEnabled = w.debugEnabled ∧
      linkFailures evs = [] ∧
      symlinkCalls evs = ls.filterMap (plannedLink outputPath service.Filename) ∧
      removeCalls evs = (ls.filterMap (plannedLink outputPath service.Filename)).map Prod.fst ∧
      links (enableServiceFile.links os outputPath service ls w).sys =
        putLinks (ls.filterMap (plannedLink outputPath service.Filename)) (links w.sys) ∧
      ((∀ l ∈ ls, plannedLink outputPath service.Filename l ≠ none) → w.debugEnabled = false →
        delivered evs = []) := by
  induction ls generalizing w with
  | nil =>
    exact ⟨[], by simp [enableServiceFile.links], rfl, rfl, rfl, rfl, rfl, fun _ _ => rfl⟩
  | cons l ls ih =>
    obtain ⟨evs1, t1, d1, f1, s1, r1, k1, q1⟩ := link_store os links h outputPath service l w
    obtain ⟨evs2, t2, d2, f2, s2, r2, k2, q2⟩ :=
      ih (enableServiceFile.link os outputPath service l w)
    have hstep : enableServiceFile.links os outputPath service (l :: ls) w =
        enableServiceFile.links os outputPath service ls
          (enableServiceFile.link os outputPath service l w) := by
      simp [enableServiceFile.links]
    rw [hstep]
    refine ⟨evs1 ++ evs2, ?_, ?_, ?_, ?_, ?_, ?_, ?_⟩
    · rw [t2, t1, List.append_assoc]
    · rw [d2, d1]
    · rw [linkFailures_append, f1, f2]; rfl
    · rw [symlinkCalls_append, s1, s2, filterMap_cons_toList]
    · rw [removeCalls_append, r1, r2, filterMap_cons_toList, List.map_append]
    · rw [k2, k1, filterMap_cons_toList, putLinks_append]
    · intro hall hw
      rw [delivered_append, q1 (hall l (List.mem_cons_self _ _)) hw,
        q2 (fun l2 hl2 => hall l2 (List.mem_cons_of_mem _ hl2)) (d1.trans hw)]
      rfl

/-- C10: overwrite semantics make symlink creation idempotent. On a file system where
directory and link creation succeed (a store of symbolic links in which `os.Symlink` fails
on a path that holds a link), running `enableServiceFile` a second time with the same
`outputPath` and unit leaves the same links (same paths, same targets) as the first run,
and no directory or link creation fails in either run. The second run calls `os.Remove` and
then `os.Symlink` on the same paths with the same targets as the first run, and each of
these paths holds a link when the second run starts: the link is removed and created again
rather than causing an error. When every planned link has a target and debugging is off,
the second run delivers no log line. -/
theorem enableServiceFile_idempotent {σ : Type} (os : OS σ)
    (links : σ → GoString → Option GoString) (h : SymlinkStore os links)
    (outputPath : GoString) (service : UnitFile) (w : World σ) :
    links (enableServiceFile os outputPath service
        (enableServiceFile os outputPath service w)).sys =
      links (enableServiceFile os outputPath service w).sys ∧
    linkFailures (enableServiceFile os outputPath service w).trace = linkFailures w.trace ∧
    linkFailures (enableServiceFile os outputPath service
        (enableServiceFile os outputPath service w)).trace = linkFailures w.trace ∧
    (∃ ls : List (GoString × GoString),
      ls = (enableServiceFile.symlinks service).filterMap
        (plannedLink outputPath service.Filename) ∧
      symlinkCalls (enableServiceFile os outputPath service w).trace =
        symlinkCalls w.trace ++ ls ∧
      symlinkCalls (enableServiceFile os outputPath service
          (enableServiceFile os outputPath service w)).trace =
        symlinkCalls (enableServiceFile os outputPath service w).trace ++ ls ∧
      removeCalls (enableServiceFile os outputPath service
          (enableServiceFile os outputPath service w)).trace =
        removeCalls (enableServiceFile os outputPath service w).trace ++ ls.map Prod.fst ∧
      ∀ e ∈ ls, links (enableServiceFile os outputPath service w).sys e.1 ≠ none) ∧
    ((∀ l ∈ enableServiceFile.symlinks service,
        plannedLink outputPath service.Filename l ≠ none) →
      w.debugEnabled = false →
      delivered (enableServiceFile os outputPath service
          (enableServiceFile os outputPath service w)).trace =
        delivered (enableServiceFile os outputPath service w).trace) := by
  obtain ⟨evs1, t1, d1, f1, s1, r1, k1, q1⟩ :=
    links_store os links h outputPath service (enableServiceFile.symlinks service) w
  obtain ⟨evs2, t2, d2, f2, s2, r2, k2, q2⟩ :=
    links_store os links h outputPath service (enableServiceFile.symlinks service)
      (enableServiceFile os outputPath service w)
  have e1 : enableServiceFile.links os outputPath service (enableServiceFile.symlinks service) w =
      enableServiceFile os outputPath service w := rfl
  have e2 : enableServiceFile.links os outputPath service (enableServiceFile.symlinks service)
      (enableServiceFile os outputPath service w) =
      enableServiceFile os outputPath service (enableServiceFile os outputPath service w) := rfl
  rw [e1] at t1 d1 k1
  rw [e2] at t2 d2 k2
  refine ⟨?_, ?_, ?_, ⟨_, rfl, ?_, ?_, ?_, ?_⟩, ?_⟩
  · rw [k2, k1, putLinks_twice]
  · rw [t1, linkFailures_append, f1, List.append_nil]
  · rw [t2, t1, linkFailures_append, linkFailures_append, f1, f2, List.append_nil,
      List.append_nil]
  · rw [t1, symlinkCalls_append, s1]
  · rw [t2, symlinkCalls_append, s2]
  · rw [t2, removeCalls_append, r2]
  · intro e he
    rw [k1]
    exact putLinks_mem _ _ _ (List.mem_map_of_mem _ he)
  · intro hall hw
    rw [t2, delivered_append, q2 hall (d1.trans hw), List.append_nil]

theorem lookup_filter_ne (p q : GoString) (s : Links) :
    (s.filter (fun e => e.1 != p)).lookup q = if q = p then none else s.lookup q := by
  induction s with
  | nil => simp
  | cons e s ih =>
    obtain ⟨a, b⟩ := e
    by_cases hap : a = p
    · subst hap
      have hf : ((a, b) :: s).filter (fun e => e.1 != a) = s.filter (fun e => e.1 != a) := by
        simp
      rw [hf, ih]
      by_cases hq : q = a
      · simp [hq]
      · have : (q == a) = false := by simpa using hq
        simp [hq, List.lookup_cons, this]
    · have hf : ((a, b) :: s).filter (fun e => e.1 != p) =
          (a, b) :: s.filter (fun e => e.1 != p) := by
        simp [hap]
      rw [hf, List.lookup_cons, List.lookup_cons, ih]
      by_cases hq : q = p
      · subst hq
        have : (q == a) = false := by simpa using fun e => hap e.symm
        simp [this]
      · simp [hq]

/-- The operating system `linkStore` is a store of symbolic links on which directory and
link creation succeed. -/
theorem linkStore_store (pid : Nat) (args0 : GoString) :
    SymlinkStore (linkStore pid args0) (fun s p => s.lookup p) where
  mkdirAll_ok := fun _ _ => rfl
  mkdirAll_links := fun _ _ => rfl
  remove_links := by
    intro p s q
    simp only [linkStore]
    by_cases hp : (List.lookup p s).isSome = true
    · simp only [hp, if_true]
      exact lookup_filter_ne p q s
    · simp only [hp, if_false, Bool.false_eq_true]
      by_cases hq : q = p
      · subst hq
        have hn : List.lookup q s = none := by
          cases hl : List.lookup q s with
          | none => rfl
          | some v => rw [hl] at hp; exact absurd rfl hp
        rw [if_pos rfl, hn]
      · rw [if_neg hq]
  symlink_free := by
    intro t p s hfree
    simp only [linkStore] at hfree ⊢
    simp only [hfree, Option.isSome_none, Bool.false_eq_true, if_false, true_and]
    intro q
    rw [List.lookup_cons]
    by_cases hq : q = p
    · simp [hq]
    · have : (q == p) = false := by simpa using hq
      simp [hq, this]
  symlink_present := by
    intro t p s hpres
    simp only [linkStore] at hpres ⊢
    have : (List.lookup p s).isSome = true := by
      cases h : List.lookup p s with
      | none => exact absurd h hpres
      | some v => rfl
    simp [this]
  openKmsg_links := fun _ => rfl
  writeKmsg_links := fun _ _ => rfl
  closeKmsg_links := fun _ => rfl

/-- C10 at a concrete input: the unit `web.service` with `Alias=foo.service` and
`WantedBy=multi-user.target`, enabled twice in `/run/gen` on a store that is empty at first.
After the first run the store holds the two links, so that `os.Symlink` on one of their
paths fails; the second run leaves the same two links and no creation fails. -/
theorem enableServiceFile_idempotent_witness :
    (enableServiceFile (linkStore 42 (str "quadlet")) (str "/run/gen") sampleService
        (World.start [])).sys =
      [(str "/run/gen/multi-user.target.wants/web.service", str "../web.service"),
       (str "/run/gen/foo.service", str "web.service")] ∧
    ((linkStore 42 (str "quadlet")).Symlink (str "web.service") (str "/run/gen/foo.service")
        (enableServiceFile (linkStore 42 (str "quadlet")) (str "/run/gen") sampleService
          (World.start [])).sys).1 =
      some (str "symlink web.service /run/gen/foo.service: file exists") ∧
    (fun p => (enableServiceFile (linkStore 42 (str "quadlet")) (str "/run/gen") sampleService
        (enableServiceFile (linkStore 42 (str "quadlet")) (str "/run/gen") sampleService
          (World.start []))).sys.lookup p) =
      (fun p => (enableServiceFile (linkStore 42 (str "quadlet")) (str "/run/gen") sampleService
        (World.start [])).sys.lookup p) ∧
    linkFailures (enableServiceFile (linkStore 42 (str "quadlet")) (str "/run/gen") sampleService
        (enableServiceFile (linkStore 42 (str "quadlet")) (str "/run/gen") sampleService
          (World.start []))).trace = [] ∧
    delivered (enableServiceFile (linkStore 42 (str "quadlet")) (str "/run/gen") sampleService
        (enableServiceFile (linkStore 42 (str "quadlet")) (str "/run/gen") sampleService
          (World.start []))).trace = [] :=
  ⟨by decide, by decide,
   (enableServiceFile_idempotent (linkStore 42 (str "quadlet")) (fun s p => s.lookup p)
      (linkStore_store 42 (str "quadlet")) (str "/run/gen") sampleService (World.start [])).1,
   (enableServiceFile_idempotent (linkStore 42 (str "quadlet")) (fun s p => s.lookup p)
      (linkStore_store 42 (str "quadlet")) (str "/run/gen") sampleService
      (World.start [])).2.2.1,
   ((enableServiceFile_idempotent (linkStore 42 (str "quadlet")) (fun s p => s.lookup p)
      (linkStore_store 42 (str "quadlet")) (str "/run/gen") sampleService
      (World.start [])).2.2.2.2 (by decide) rfl).trans (by decide)⟩


/-! ## The loops run to completion

The loops of `range`, `path.Clean` and `filepath.Rel` are embedded with a bound on the
number of iterations. The bounds used are enough: a larger bound gives the same result. -/

theorem ite_width {b : Prop} [Decidable b] {p q : Rune × Nat} (hp : 1 ≤ p.2) (hq : 1 ≤ q.2) :
    1 ≤ (if b then p else q).2 := by
  split <;> assumption

/-- Decoding a rune of a non-empty string consumes at least one byte. -/
theorem DecodeRuneInString_width (c : UInt8) (cs : GoString) :
    1 ≤ (utf8.DecodeRuneInString (c :: cs)).2 := by
  unfold utf8.DecodeRuneInString
  apply ite_width (le_refl _)
  apply ite_width (le_refl _)
  apply ite_width (le_refl _)
  cases cs with
  | nil => exact le_refl _
  | cons s1 t1 =>
    apply ite_width (le_refl _)
    apply ite_width (Nat.le_succ _)
    cases t1 with
    | nil => exact le_refl _
    | cons s2 t2 =>
      apply ite_width (le_refl _)
      apply ite_width (Nat.le_add_left _ _)
      cases t2 with
      | nil => exact le_refl _
      | cons s3 t3 =>
        apply ite_width (le_refl _)
        exact Nat.le_add_left _ _

theorem rangeAux_fuel (n m : Nat) (s : GoString) (hn : s.length ≤ n) (hm : s.length ≤ m) :
    utf8.rangeAux n s = utf8.rangeAux m s := by
  induction n generalizing m s with
  | zero =>
    have : s = [] := List.length_eq_zero.mp (Nat.le_zero.mp hn)
    subst this
    cases m <;> rfl
  | succ n ih =>
    cases s with
    | nil => cases m <;> rfl
    | cons c cs =>
      cases m with
      | zero => simp at hm
      | succ m =>
        have hw := DecodeRuneInString_width c cs
        have hlen : ((c :: cs).drop (utf8.DecodeRuneInString (c :: cs)).2).length ≤ cs.length := by
          rw [List.length_drop, List.length_cons]; omega
        simp only [List.length_cons] at hn hm
        rw [utf8.rangeAux, utf8.rangeAux]
        exact congrArg _ (ih m _ (by omega) (by omega))

/-- The loop of `range` ends within `len(s)` iterations. -/
theorem range_fuel (n : Nat) (s : GoString) (hn : s.length ≤ n) :
    utf8.rangeAux n s = utf8.range s :=
  rangeAux_fuel n s.length s hn (le_refl _)

theorem length_dropWhile_le {α : Type} (p : α → Bool) (l : List α) :
    (l.dropWhile p).length ≤ l.length := by
  induction l with
  | nil => simp
  | cons a l ih =>
    rw [List.dropWhile_cons]
    split
    · simp only [List.length_cons]; omega
    · exact le_refl _

theorem Clean_loop_fuel (rooted : Bool) (n m : Nat) (rest out : GoString) (dotdot : Nat)
    (hn : rest.length ≤ n) (hm : rest.length ≤ m) :
    path.Clean.loop rooted n rest out dotdot = path.Clean.loop rooted m rest out dotdot := by
  induction n generalizing m rest out dotdot with
  | zero =>
    have : rest = [] := List.length_eq_zero.mp (Nat.le_zero.mp hn)
    subst this
    cases m <;> rfl
  | succ n ih =>
    cases rest with
    | nil => cases m <;> rfl
    | cons c t =>
      cases m with
      | zero => simp at hm
      | succ m =>
        simp only [List.length_cons] at hn hm
        have ht : t.tail.length ≤ t.length := by simp
        have hd : ¬ c = byte '/' →
            ((c :: t).dropWhile (fun b => b != byte '/')).length ≤ t.length := by
          intro h1
          have hb : (c != byte '/') = true := by simpa using h1
          rw [List.dropWhile_cons, hb]
          exact length_dropWhile_le _ t
        rw [path.Clean.loop, path.Clean.loop]
        split_ifs with h1
        all_goals first
          | exact ih m t out dotdot (by omega) (by omega)
          | exact ih m t.tail _ _ (by omega) (by omega)
          | exact ih m _ _ _ (le_trans (hd h1) (by omega)) (le_trans (hd h1) (by omega))

/-- The loop of `Clean` ends within `len(path)` iterations. -/
theorem Clean_loop_enough (rooted : Bool) (n : Nat) (rest out : GoString) (dotdot : Nat)
    (hn : rest.length ≤ n) :
    path.Clean.loop rooted n rest out dotdot =
      path.Clean.loop rooted rest.length rest out dotdot :=
  Clean_loop_fuel rooted n rest.length rest out dotdot hn (le_refl _)

theorem length_takeWhile_le_length {α : Type} (p : α → Bool) (l : List α) :
    (l.takeWhile p).length ≤ l.length := by
  induction l with
  | nil => simp
  | cons a l ih =>
    rw [List.takeWhile_cons]
    split
    · simp only [List.length_cons]; omega
    · simp

theorem scan_bounds (s : GoString) (i : Nat) (hi : i ≤ s.length) :
    i ≤ filepath.Rel.scan s i ∧ filepath.Rel.scan s i ≤ s.length := by
  have h := length_takeWhile_le_length (fun b => b != filepath.Separator) (s.drop i)
  rw [List.length_drop] at h
  unfold filepath.Rel.scan
  omega

theorem Rel_loop_fuel (base targ : GoString) (n m : Nat) (p : filepath.Rel.Pos)
    (hn : base.length - p.bi ≤ n) (hm : base.length - p.bi ≤ m) :
    filepath.Rel.loop base targ n p = filepath.Rel.loop base targ m p := by
  induction n generalizing m p with
  | zero =>
    have hb : ¬ (p.bi < base.length ∧ p.ti < targ.length) := by omega
    cases m with
    | zero => rfl
    | succ m => rw [filepath.Rel.loop, filepath.Rel.loop, if_neg hb]
  | succ n ih =>
    cases m with
    | zero =>
      have hb : ¬ (p.bi < base.length ∧ p.ti < targ.length) := by omega
      rw [filepath.Rel.loop, filepath.Rel.loop, if_neg hb]
    | succ m =>
      rw [filepath.Rel.loop, filepath.Rel.loop]
      by_cases hc : p.bi < base.length ∧ p.ti < targ.length
      · have hs := scan_bounds base p.bi (le_of_lt hc.1)
        simp only [hc, and_self, if_true]
        split_ifs
        all_goals first
          | rfl
          | exact ih m _ (by simp only []; omega) (by simp only []; omega)
      · rw [if_neg hc, if_neg hc]

/-- The loop of `Rel` ends within `len(base) + 1` iterations. -/
theorem Rel_loop_enough (base targ : GoString) (n : Nat) (hn : base.length + 1 ≤ n) :
    filepath.Rel.loop base targ n ⟨0, 0, 0, 0⟩ =
      filepath.Rel.loop base targ (base.length + 1) ⟨0, 0, 0, 0⟩ :=
  Rel_loop_fuel base targ n (base.length + 1) ⟨0, 0, 0, 0⟩ (by simp only []; omega)
    (by simp only []; omega)

/-! ## `isImageID` on ASCII names -/

theorem Hex_Digit_ascii (b : UInt8) (h : b.toNat < 0x80) :
    unicode.Is unicode.Hex_Digit b.toNat = isHexByte b := by
  have h2 : ¬ (0xff10 ≤ b.toNat) := by omega
  have h3 : ¬ (0xff21 ≤ b.toNat) := by omega
  have h4 : ¬ (0xff41 ≤ b.toNat) := by omega
  simp only [unicode.Is, unicode.Hex_Digit, List.any_cons, List.any_nil, Bool.or_false,
    isHexByte, h2, h3, h4, decide_False, Bool.false_and, Bool.or_assoc]

/-- On names made of ASCII bytes `isImageID` is the test of the documentation: the prefix
`sha256:`, or 64 characters `0-9`, `a-f`, `A-F`. -/
theorem isImageID_ascii (s : GoString) (h : ∀ b ∈ s, b.toNat < 0x80) :
    isImageID s = (strings.HasPrefix s (str "sha256:") || isHex64 s) := by
  unfold isImageID isHex64
  by_cases hp : strings.HasPrefix s (str "sha256:") = true
  · simp [hp]
  · by_cases hl : s.length = 64
    · have hr : utf8.range s = s.map (fun b => b.toNat) := rangeAux_ascii _ s (le_refl _) h
      have hall : (s.map (fun b => b.toNat)).all (fun c => unicode.Is unicode.Hex_Digit c) =
          s.all isHexByte := by
        clear hr hl hp
        induction s with
        | nil => rfl
        | cons b t ih =>
          simp only [List.map_cons, List.all_cons]
          rw [ih (fun b hb => h b (List.mem_cons_of_mem _ hb)),
            Hex_Digit_ascii b (h b (List.mem_cons_self _ _))]
      simp only [hp, hl, bne_self_eq_false, Bool.false_eq_true, if_false, Bool.false_or,
        decide_True, Bool.true_and]
      rw [isImageID_loop_eq_all, hr, hall]
    · simp [hp, hl]


/-! ## Supported extensions -/

theorem drop_length_sub_takeWhile_reverse (l : GoString) (p : UInt8 → Bool) :
    l.drop (l.length - (l.reverse.takeWhile p).length) = (l.reverse.takeWhile p).reverse := by
  have h := List.takeWhile_append_dropWhile p l.reverse
  have hl : l = (l.reverse.dropWhile p).reverse ++ (l.reverse.takeWhile p).reverse := by
    rw [← List.reverse_append, h, List.reverse_reverse]
  have hlen : l.length = (l.reverse.dropWhile p).length + (l.reverse.takeWhile p).length := by
    have := congrArg List.length hl
    simpa using this
  generalize l.reverse.takeWhile p = tw at hl hlen ⊢
  generalize l.reverse.dropWhile p = dw at hl hlen
  have hd : l.length - tw.length = dw.reverse.length := by
    rw [List.length_reverse]; omega
  rw [hd, hl, List.drop_left]

/-- The final element of a name, reversed, is what precedes the first `/` of the reversed
name. -/
theorem finalElement_reverse (name : GoString) :
    (finalElement name).reverse = name.reverse.takeWhile (fun b => b != byte '/') := by
  rw [finalElement, path.Split]
  show (name.drop (path.lastSlashEnd name)).reverse = _
  rw [path.lastSlashEnd, drop_length_sub_takeWhile_reverse, List.reverse_reverse]

/-- What the backward loop of `Ext` computes. -/
theorem Ext_loop_eq (r suffix : GoString) :
    filepath.Ext.loop r suffix =
      if byte '.' ∈ r.takeWhile (fun b => b != byte '/') then
        byte '.' ::
          ((r.takeWhile (fun b => b != byte '/')).takeWhile (fun b => b != byte '.')).reverse ++
            suffix
      else [] := by
  induction r generalizing suffix with
  | nil => simp [filepath.Ext.loop]
  | cons c r ih =>
    rw [filepath.Ext.loop]
    by_cases h1 : c = byte '/'
    · subst h1
      simp [filepath.Separator]
    · have hs : ¬ c = filepath.Separator := h1
      have hb : (c != byte '/') = true := by simpa using h1
      rw [if_neg hs, List.takeWhile_cons, hb]
      simp only [if_true]
      by_cases h2 : c = byte '.'
      · subst h2
        simp
      · have hb2 : (c != byte '.') = true := by simpa using h2
        have hne : ¬ byte '.' = c := fun e => h2 e.symm
        rw [if_neg h2, ih, List.takeWhile_cons, hb2]
        simp only [if_true, List.mem_cons, hne, false_or, List.reverse_cons,
          List.append_assoc, List.singleton_append, List.cons_append, List.nil_append]

/-- The function `filepath.Ext` computes the extension in the words of the
specification. -/
theorem Ext_eq_extension (name : GoString) : filepath.Ext name = extension name := by
  rw [filepath.Ext, Ext_loop_eq, extension, ← finalElement_reverse]
  have hm : byte '.' ∈ (finalElement name).reverse ↔ byte '.' ∈ finalElement name :=
    List.mem_reverse
  by_cases h : byte '.' ∈ finalElement name
  · rw [if_pos (hm.mpr h), if_pos h, List.append_nil]
  · rw [if_neg (fun x => h (hm.mp x)), if_neg h]

/-! ## The map of units -/

theorem Units.get_nil (name : GoString) : Units.get [] name = none := rfl

theorem Units.get_cons (a : GoString) (b : UnitFile) (t : Units) (name : GoString) :
    Units.get ((a, b) :: t) name = if a = name then some b else Units.get t name := by
  unfold Units.get
  rw [List.find?_cons]
  by_cases h : a = name
  · simp [h]
  · have : (a == name) = false := by simpa using h
    simp [h, this]

theorem Units.get_append_singleton (units : Units) (k : GoString) (v : UnitFile)
    (name : GoString) :
    Units.get (units ++ [(k, v)]) name =
      match Units.get units name with
      | some u => some u
      | none => if k = name then some v else none := by
  induction units with
  | nil => simp [Units.get_cons, Units.get_nil]
  | cons e t ih =>
    obtain ⟨a, b⟩ := e
    rw [List.cons_append, Units.get_cons, Units.get_cons, ih]
    by_cases h : a = name <;> simp [h]

theorem Units.get_map_replace (units : Units) (k : GoString) (v : UnitFile) (name : GoString) :
    Units.get (units.map (fun e => if e.1 = k then (k, v) else e)) name =
      if name = k then (Units.get units k).map (fun _ => v) else Units.get units name := by
  induction units with
  | nil => simp [Units.get_nil]
  | cons e t ih =>
    obtain ⟨a, b⟩ := e
    rw [List.map_cons]
    by_cases hak : a = k
    · subst hak
      simp only [if_true, Units.get_cons, ih]
      by_cases hn : name = a
      · subst hn; simp
      · have : ¬ a = name := fun e => hn e.symm
        simp [hn, this]
    · simp only [hak, if_false, Units.get_cons, ih]
      by_cases hn : name = k
      · subst hn
        simp [hak]
      · simp [hn]

/-- The lookup after a map assignment. -/
theorem Units.get_set (units : Units) (k : GoString) (v : UnitFile) (name : GoString) :
    Units.get (Units.set units k v) name = if name = k then some v else Units.get units name := by
  unfold Units.set
  cases hk : Units.get units k with
  | some u =>
    simp only [Option.isSome_some, if_true]
    rw [Units.get_map_replace, hk]
    rfl
  | none =>
    simp only [Option.isSome_none, Bool.false_eq_true, if_false]
    rw [Units.get_append_singleton]
    by_cases hn : name = k
    · subst hn; simp [hk]
    · have : ¬ k = name := fun e => hn e.symm
      cases Units.get units name <;> simp [hn, this]

/-! ## Loading a directory -/

/-- A directory entry whose name is in the map already, or whose extension is not
supported, is passed over: nothing is parsed, logged or changed. -/
theorem file_skip {σ : Type} (os : OS σ) (sourcePath name : GoString) (st : Units × World σ)
    (h : Units.get st.1 name ≠ none ∨ isExtSupported name = false) :
    loadUnitsFromDir.file os sourcePath name st = st := by
  unfold loadUnitsFromDir.file
  rcases h with h | h
  · cases hg : Units.get st.1 name with
    | none => exact absurd hg h
    | some u => simp
  · simp [h]

theorem file_units_get {σ : Type} (os : OS σ) (sourcePath name : GoString)
    (st : Units × World σ) (name2 : GoString) :
    Units.get (loadUnitsFromDir.file os sourcePath name st).1 name2 =
      match Units.get st.1 name2 with
      | some u => some u
      | none =>
        if name2 = name ∧ isExtSupported name = true then
          (os.ParseUnitFile (path.Join [sourcePath, name])).toOption
        else none := by
  by_cases hc : Units.get st.1 name = none ∧ isExtSupported name = true
  · obtain ⟨hg, hs⟩ := hc
    unfold loadUnitsFromDir.file
    simp only [hg, hs, Option.isNone_none, Bool.and_self, if_true]
    cases hp : os.ParseUnitFile (path.Join [sourcePath, name]) with
    | error err =>
      simp only [Except.toOption]
      cases Units.get st.1 name2 <;> simp
    | ok f =>
      simp only [Except.toOption, Units.get_set]
      by_cases hn : name2 = name
      · subst hn; simp [hg]
      · cases Units.get st.1 name2 <;> simp [hn]
  · have hskip : loadUnitsFromDir.file os sourcePath name st = st := by
      apply file_skip
      by_cases hg : Units.get st.1 name = none
      · right
        cases hs : isExtSupported name with
        | true => exact absurd ⟨hg, hs⟩ hc
        | false => rfl
      · left; exact hg
    rw [hskip]
    cases hg2 : Units.get st.1 name2 with
    | some u => rfl
    | none =>
      by_cases hn : name2 = name ∧ isExtSupported name = true
      · exact absurd ⟨hn.1 ▸ hg2, hn.2⟩ hc
      · simp [hn]

/-- The map after the loop of `loadUnitsFromDir`: an entry that was present is kept, and a
name that was absent gets the unit parsed from its file if the name is listed, has a
supported extension and the file parses. -/
theorem files_units_get {σ : Type} (os : OS σ) (sourcePath : GoString) (files : List GoString)
    (st : Units × World σ) (name : GoString) :
    Units.get (files.foldl (fun st f => loadUnitsFromDir.file os sourcePath f st) st).1 name =
      match Units.get st.1 name with
      | some u => some u
      | none =>
        if name ∈ files ∧ isExtSupported name = true then
          (os.ParseUnitFile (path.Join [sourcePath, name])).toOption
        else none := by
  induction files generalizing st with
  | nil =>
    simp only [List.foldl_nil, List.not_mem_nil, false_and, if_false]
    cases hg : Units.get st.1 name <;> rfl
  | cons f rest ih =>
    rw [List.foldl_cons, ih, file_units_get]
    cases hg : Units.get st.1 name with
    | some u => rfl
    | none =>
      simp only []
      by_cases hn : name = f ∧ isExtSupported f = true
      · obtain ⟨rfl, hs⟩ := hn
        simp only [hs, and_self, if_true, List.mem_cons, true_or]
        cases hp : (os.ParseUnitFile (path.Join [sourcePath, name])).toOption with
        | some u => rfl
        | none => simp
      · rw [if_neg hn]
        simp only [List.mem_cons]
        by_cases hf : name = f
        · subst hf
          have hs : ¬ isExtSupported name = true := fun h => hn ⟨rfl, h⟩
          simp [hs]
        · simp [hf]

/-- The map after `loadUnitsFromDir`. -/
theorem loadUnitsFromDir_get {σ : Type} (os : OS σ) (sourcePath : GoString)
    (st : Units × World σ) (name : GoString) :
    Units.get (loadUnitsFromDir os sourcePath st).1 name =
      match Units.get st.1 name with
      | some u => some u
      | none => loads os sourcePath name := by
  unfold loadUnitsFromDir loads
  cases hr : os.ReadDir sourcePath with
  | error err =>
    simp only []
    split <;> cases Units.get st.1 name <;> rfl
  | ok files =>
    simp only []
    rw [files_units_get]

/-! ## Loading only logs and reads -/

theorem isQuiet_of_isLog (e : Event) (h : e.isLog = true) : e.isQuiet = true := by
  cases e <;> simp_all [Event.isQuiet, Event.isLog]

theorem quietly_refl {σ : Type} (w : World σ) : quietly w w :=
  ⟨[], by simp, by simp⟩

theorem quietly_trans {σ : Type} {a b c : World σ} (h1 : quietly a b) (h2 : quietly b c) :
    quietly a c := by
  obtain ⟨e1, t1, q1⟩ := h1
  obtain ⟨e2, t2, q2⟩ := h2
  refine ⟨e1 ++ e2, by rw [t2, t1, List.append_assoc], ?_⟩
  intro e he
  rcases List.mem_append.mp he with h | h
  · exact q1 e h
  · exact q2 e h

theorem quietly_emit {σ : Type} (w : World σ) (e : Event) (h : e.isQuiet = true) :
    quietly w (w.emit e) :=
  ⟨[e], rfl, by simpa using h⟩

theorem quietly_Logf {σ : Type} (os : OS σ) (s : GoString) (w : World σ) :
    quietly w (Logf os s w) := by
  obtain ⟨evs, he, hl, _⟩ := Logf_trace os s w
  exact ⟨evs, he, fun e h => isQuiet_of_isLog e (hl e h)⟩

theorem quietly_Debugf {σ : Type} (os : OS σ) (s : GoString) (w : World σ) :
    quietly w (Debugf os s w) := by
  obtain ⟨evs, he, hl, _⟩ := Debugf_trace os s w
  exact ⟨evs, he, fun e h => isQuiet_of_isLog e (hl e h)⟩

theorem fsWrites_append (a b : List Event) : fsWrites (a ++ b) = fsWrites a ++ fsWrites b := by
  simp [fsWrites]

theorem stdoutTexts_append (a b : List Event) :
    stdoutTexts (a ++ b) = stdoutTexts a ++ stdoutTexts b := by
  induction a with
  | nil => rfl
  | cons e a ih => cases e <;> simp [stdoutTexts, ih]

theorem parseCalls_append (a b : List Event) :
    parseCalls (a ++ b) = parseCalls a ++ parseCalls b := by
  induction a with
  | nil => rfl
  | cons e a ih => cases e <;> simp [parseCalls, ih]

theorem fsWrites_quiet (evs : List Event) (h : ∀ e ∈ evs, e.isQuiet = true) :
    fsWrites evs = [] := by
  rw [fsWrites, List.filter_eq_nil_iff]
  intro e he
  have := h e he
  cases e <;> simp_all [Event.isQuiet, Event.isLog, Event.isWrite]

theorem stdoutTexts_quiet (evs : List Event) (h : ∀ e ∈ evs, e.isQuiet = true) :
    stdoutTexts evs = [] := by
  induction evs with
  | nil => rfl
  | cons e evs ih =>
    have he := h e (List.mem_cons_self _ _)
    have ht := ih (fun e he => h e (List.mem_cons_of_mem _ he))
    cases e <;> simp_all [stdoutTexts, Event.isQuiet, Event.isLog]

/-- Actions that only log or read leave the file-system writes and the standard output of
the trace as they were. -/
theorem quietly_observe {σ : Type} {w w2 : World σ} (h : quietly w w2) :
    fsWrites w2.trace = fsWrites w.trace ∧ stdoutTexts w2.trace = stdoutTexts w.trace := by
  obtain ⟨evs, he, hq⟩ := h
  rw [he, fsWrites_append, stdoutTexts_append, fsWrites_quiet evs hq, stdoutTexts_quiet evs hq]
  simp

theorem quietly_file {σ : Type} (os : OS σ) (sourcePath name : GoString)
    (st : Units × World σ) : quietly st.2 (loadUnitsFromDir.file os sourcePath name st).2 := by
  unfold loadUnitsFromDir.file
  split
  · simp only []
    cases os.ParseUnitFile (path.Join [sourcePath, name]) with
    | error err =>
      exact quietly_trans (quietly_Debugf os _ _)
        (quietly_trans (quietly_emit _ _ (by rfl)) (quietly_Logf os _ _))
    | ok f => exact quietly_trans (quietly_Debugf os _ _) (quietly_emit _ _ (by rfl))
  · exact quietly_refl _

theorem quietly_files {σ : Type} (os : OS σ) (sourcePath : GoString) (files : List GoString)
    (st : Units × World σ) :
    quietly st.2 (files.foldl (fun st f => loadUnitsFromDir.file os sourcePath f st) st).2 := by
  induction files generalizing st with
  | nil => exact quietly_refl _
  | cons f rest ih =>
    rw [List.foldl_cons]
    exact quietly_trans (quietly_file os sourcePath f st) (ih _)

theorem quietly_loadUnitsFromDir {σ : Type} (os : OS σ) (sourcePath : GoString)
    (st : Units × World σ) : quietly st.2 (loadUnitsFromDir os sourcePath st).2 := by
  unfold loadUnitsFromDir
  cases os.ReadDir sourcePath with
  | error err =>
    simp only []
    split
    · exact quietly_trans (quietly_emit _ _ (by rfl)) (quietly_Logf os _ _)
    · exact quietly_emit _ _ (by rfl)
  | ok files =>
    simp only []
    exact quietly_trans (quietly_emit st.2 (Event.readDir sourcePath none) (by rfl))
      (quietly_files os sourcePath files _)

theorem quietly_load_from {σ : Type} (os : OS σ) (dirs : List GoString) (st : Units × World σ) :
    quietly st.2 (dirs.foldl (fun st d => loadUnitsFromDir os d st) st).2 := by
  induction dirs generalizing st with
  | nil => exact quietly_refl _
  | cons d rest ih =>
    rw [List.foldl_cons]
    exact quietly_trans (quietly_loadUnitsFromDir os d st) (ih _)

theorem quietly_getUnitDirs {σ : Type} (os : OS σ) (rootless : Bool) (w : World σ) :
    quietly w (getUnitDirs os rootless w).2 := by
  unfold getUnitDirs
  simp only []
  split
  · exact quietly_refl _
  · split
    · cases os.UserConfigDir with
      | error err => exact quietly_emit _ _ (by rfl)
      | ok configDir =>
        simp only []
        cases os.CurrentUid with
        | error err => exact quietly_emit _ _ (by rfl)
        | ok uid => exact quietly_refl _
    · exact quietly_refl _

/-! ## What loading a directory parses and adds -/

theorem parseCalls_log (evs : List Event) (h : ∀ e ∈ evs, e.isLog = true) :
    parseCalls evs = [] := by
  induction evs with
  | nil => rfl
  | cons e evs ih =>
    have he := h e (List.mem_cons_self _ _)
    have ht := ih (fun e he => h e (List.mem_cons_of_mem _ he))
    cases e <;> simp_all [parseCalls, Event.isLog]

theorem Logf_parseCalls {σ : Type} (os : OS σ) (s : GoString) (w : World σ) :
    parseCalls (Logf os s w).trace = parseCalls w.trace := by
  obtain ⟨evs, he, hl, _⟩ := Logf_trace os s w
  rw [he, parseCalls_append, parseCalls_log evs hl, List.append_nil]

theorem Debugf_parseCalls {σ : Type} (os : OS σ) (s : GoString) (w : World σ) :
    parseCalls (Debugf os s w).trace = parseCalls w.trace := by
  obtain ⟨evs, he, hl, _⟩ := Debugf_trace os s w
  rw [he, parseCalls_append, parseCalls_log evs hl, List.append_nil]

theorem Units.get_append_none (units added : Units) (name : GoString)
    (h : Units.get (units ++ added) name = none) : Units.get units name = none := by
  unfold Units.get at *
  rw [List.find?_append] at h
  cases hf : units.find? (fun e => e.1 == name) with
  | none => rfl
  | some e => rw [hf] at h; simp at h

theorem Units.set_absent (units : Units) (name : GoString) (f : UnitFile)
    (h : Units.get units name = none) : Units.set units name f = units ++ [(name, f)] := by
  unfold Units.set
  simp [h]

/-- One directory entry: a file is parsed exactly when its name is absent from the map and
has a supported extension; the map then grows at its end by the unit parsed, if any. -/
theorem file_step {σ : Type} (os : OS σ) (sourcePath name : GoString) (st : Units × World σ) :
    ∃ (added : Units) (names : List GoString),
      (loadUnitsFromDir.file os sourcePath name st).1 = st.1 ++ added ∧
      parseCalls (loadUnitsFromDir.file os sourcePath name st).2.trace =
        parseCalls st.2.trace ++ names.map (fun f => path.Join [sourcePath, f]) ∧
      (∀ e ∈ added, e.1 = name ∧ os.ParseUnitFile (path.Join [sourcePath, name]) = .ok e.2) ∧
      (∀ f ∈ names, f = name) ∧
      ((added ≠ [] ∨ names ≠ []) → Units.get st.1 name = none ∧ isExtSupported name = true) := by
  by_cases hc : Units.get st.1 name = none ∧ isExtSupported name = true
  · obtain ⟨hg, hs⟩ := hc
    unfold loadUnitsFromDir.file
    simp only [hg, hs, Option.isNone_none, Bool.and_self, if_true]
    cases hp : os.ParseUnitFile (path.Join [sourcePath, name]) with
    | error err =>
      refine ⟨[], [name], by simp, ?_, by simp, by simp, by simp⟩
      simp only []
      rw [Logf_parseCalls]
      simp only [World.emit, parseCalls_append, Debugf_parseCalls]
      rfl
    | ok f =>
      refine ⟨[(name, f)], [name], ?_, ?_, by simp, by simp, by simp⟩
      · simp only []
        exact Units.set_absent _ _ _ hg
      · simp only [World.emit, parseCalls_append, Debugf_parseCalls]
        rfl
  · have hskip : loadUnitsFromDir.file os sourcePath name st = st := by
      apply file_skip
      by_cases hg : Units.get st.1 name = none
      · right
        cases hs : isExtSupported name with
        | true => exact absurd ⟨hg, hs⟩ hc
        | false => rfl
      · left; exact hg
    rw [hskip]
    exact ⟨[], [], by simp, by simp, by simp, by simp, by simp⟩

/-- The loop of `loadUnitsFromDir`: the map grows at its end, by units parsed from listed
files whose names were absent from it and have a supported extension; only files with such
names are parsed. -/
theorem files_step {σ : Type} (os : OS σ) (sourcePath : GoString) (files : List GoString)
    (st : Units × World σ) :
    ∃ (added : Units) (names : List GoString),
      (files.foldl (fun st f => loadUnitsFromDir.file os sourcePath f st) st).1 =
        st.1 ++ added ∧
      parseCalls (files.foldl (fun st f => loadUnitsFromDir.file os sourcePath f st) st).2.trace =
        parseCalls st.2.trace ++ names.map (fun f => path.Join [sourcePath, f]) ∧
      (∀ e ∈ added, e.1 ∈ files ∧ Units.get st.1 e.1 = none ∧ isExtSupported e.1 = true ∧
        os.ParseUnitFile (path.Join [sourcePath, e.1]) = .ok e.2) ∧
      (∀ f ∈ names, f ∈ files ∧ Units.get st.1 f = none ∧ isExtSupported f = true) := by
  induction files generalizing st with
  | nil => exact ⟨[], [], by simp, by simp, by simp, by simp⟩
  | cons f rest ih =>
    obtain ⟨a1, n1, h1, p1, ha1, hn1, hc1⟩ := file_step os sourcePath f st
    obtain ⟨a2, n2, h2, p2, ha2, hn2⟩ := ih (loadUnitsFromDir.file os sourcePath f st)
    refine ⟨a1 ++ a2, n1 ++ n2, ?_, ?_, ?_, ?_⟩
    · rw [List.foldl_cons, h2, h1, List.append_assoc]
    · rw [List.foldl_cons, p2, p1, List.map_append, List.append_assoc]
    · intro e he
      rcases List.mem_append.mp he with h | h
      · obtain ⟨hk, hp⟩ := ha1 e h
        have := hc1 (Or.inl (List.ne_nil_of_mem h))
        rw [hk]
        exact ⟨List.mem_cons_self _ _, this.1, this.2, hp⟩
      · obtain ⟨hm, hg, hs, hp⟩ := ha2 e h
        rw [h1] at hg
        exact ⟨List.mem_cons_of_mem _ hm, Units.get_append_none _ _ _ hg, hs, hp⟩
    · intro g hg
      rcases List.mem_append.mp hg with h | h
      · have hk := hn1 g h
        have := hc1 (Or.inr (List.ne_nil_of_mem h))
        rw [hk]
        exact ⟨List.mem_cons_self _ _, this.1, this.2⟩
      · obtain ⟨hm, hgn, hs⟩ := hn2 g h
        rw [h1] at hgn
        exact ⟨List.mem_cons_of_mem _ hm, Units.get_append_none _ _ _ hgn, hs⟩

theorem loadUnitsFromDir_step {σ : Type} (os : OS σ) (sourcePath : GoString)
    (st : Units × World σ) :
    ∃ (added : Units) (names : List GoString),
      (loadUnitsFromDir os sourcePath st).1 = st.1 ++ added ∧
      parseCalls (loadUnitsFromDir os sourcePath st).2.trace =
        parseCalls st.2.trace ++ names.map (fun f => path.Join [sourcePath, f]) ∧
      (∀ e ∈ added, Units.get st.1 e.1 = none ∧ isExtSupported e.1 = true ∧
        os.ParseUnitFile (path.Join [sourcePath, e.1]) = .ok e.2) ∧
      (∀ f ∈ names, Units.get st.1 f = none ∧ isExtSupported f = true) := by
  unfold loadUnitsFromDir
  cases hr : os.ReadDir sourcePath with
  | error err =>
    refine ⟨[], [], ?_, ?_, by simp, by simp⟩
    · simp only []
      split <;> simp
    · simp only []
      split
      · rw [Logf_parseCalls]; simp [World.emit, parseCalls_append, parseCalls]
      · simp [World.emit, parseCalls_append, parseCalls]
  | ok files =>
    simp only []
    obtain ⟨a, n, h1, h2, h3, h4⟩ := files_step os sourcePath files
      (st.1, st.2.emit (Event.readDir sourcePath none))
    refine ⟨a, n, h1, ?_, fun e he => (h3 e he).2, fun f hf => (h4 f hf).2⟩
    rw [h2]
    simp [World.emit, parseCalls_append, parseCalls]

/-! ## Properties of loading the source units -/

/-- C11. For every file name, `isExtSupported` is true if and only if the extension of the
name, the suffix starting at the last `.` of its final path element, is one of `.container`,
`.volume`, `.kube`, `.network`. `loadUnitsFromDir` loads no file whose name fails the test:
the entry of such a name is as before, every file parsed has a name that passes the test,
and so has every entry added to the map. -/
theorem isExtSupported_iff_extension {σ : Type} (os : OS σ) (sourcePath : GoString)
    (st : Units × World σ) (name : GoString) :
    (isExtSupported name = true ↔
      (extension name = str ".container" ∨ extension name = str ".volume" ∨
        extension name = str ".kube" ∨ extension name = str ".network")) ∧
    (isExtSupported name = false →
      Units.get (loadUnitsFromDir os sourcePath st).1 name = Units.get st.1 name) ∧
    ∃ (added : Units) (names : List GoString),
      (loadUnitsFromDir os sourcePath st).1 = st.1 ++ added ∧
      parseCalls (loadUnitsFromDir os sourcePath st).2.trace =
        parseCalls st.2.trace ++ names.map (fun f => path.Join [sourcePath, f]) ∧
      (∀ e ∈ added, isExtSupported e.1 = true) ∧ (∀ f ∈ names, isExtSupported f = true) := by
  refine ⟨?_, ?_, ?_⟩
  · unfold isExtSupported
    rw [Ext_eq_extension]
    simp [supportedExtensions]
  · intro h
    rw [loadUnitsFromDir_get]
    cases hg : Units.get st.1 name with
    | some u => rfl
    | none =>
      simp only [loads]
      cases os.ReadDir sourcePath with
      | error err => rfl
      | ok files => simp [h]
  · obtain ⟨added, names, h1, h2, h3, h4⟩ := loadUnitsFromDir_step os sourcePath st
    exact ⟨added, names, h1, h2, fun e he => (h3 e he).2.1, fun f hf => (h4 f hf).2⟩

/-- C12. For every units map and every directory, `loadUnitsFromDir` leaves the entry of
every name that was in the map unchanged: the map after the call is the map before followed
by entries whose names were absent, so no entry is replaced or removed and a lookup of a
name that was present gives the same unit; no file whose name was in the map is parsed. -/
theorem loadUnitsFromDir_keeps_entries {σ : Type} (os : OS σ) (sourcePath : GoString)
    (st : Units × World σ) :
    (∀ name u, Units.get st.1 name = some u →
      Units.get (loadUnitsFromDir os sourcePath st).1 name = some u) ∧
    ∃ (added : Units) (names : List GoString),
      (loadUnitsFromDir os sourcePath st).1 = st.1 ++ added ∧
      parseCalls (loadUnitsFromDir os sourcePath st).2.trace =
        parseCalls st.2.trace ++ names.map (fun f => path.Join [sourcePath, f]) ∧
      (∀ e ∈ added, Units.get st.1 e.1 = none) ∧ (∀ f ∈ names, Units.get st.1 f = none) := by
  refine ⟨?_, ?_⟩
  · intro name u h
    rw [loadUnitsFromDir_get, h]
  · obtain ⟨added, names, h1, h2, h3, h4⟩ := loadUnitsFromDir_step os sourcePath st
    exact ⟨added, names, h1, h2, fun e he => (h3 e he).1, fun f hf => (h4 f hf).1⟩

/-- C15. When `QUADLET_UNIT_DIRS` is unset or empty (`os.Getenv` gives the empty string in
both cases) and the generator is not rootless, `getUnitDirs` returns exactly the list of
`UnitDirAdmin` and `UnitDirDistro`, the directory of the administrator first, and does
nothing else. -/
theorem getUnitDirs_system {σ : Type} (os : OS σ) (w : World σ)
    (henv : os.Getenv (str "QUADLET_UNIT_DIRS") = []) :
    getUnitDirs os false w = ([quadlet.UnitDirAdmin, quadlet.UnitDirDistro], w) := by
  unfold getUnitDirs
  simp [henv]

theorem getUnitDirs_system_witness :
    (linkStore 42 (str "quadlet")).Getenv (str "QUADLET_UNIT_DIRS") = [] ∧
    getUnitDirs (linkStore 42 (str "quadlet")) false (World.start []) =
      ([str "/etc/containers/systemd", str "/usr/share/containers/systemd"], World.start []) :=
  ⟨rfl, getUnitDirs_system (linkStore 42 (str "quadlet")) (World.start []) rfl⟩

/-- The map after loading a list of directories in order: an entry that was present is
kept, and a name that was absent gets what the first directory that loads it records. -/
theorem load_from_get {σ : Type} (os : OS σ) (dirs : List GoString) (st : Units × World σ)
    (name : GoString) :
    Units.get (dirs.foldl (fun st d => loadUnitsFromDir os d st) st).1 name =
      match Units.get st.1 name with
      | some u => some u
      | none => dirs.findSome? (fun d => loads os d name) := by
  induction dirs generalizing st with
  | nil => cases hg : Units.get st.1 name <;> simp [hg]
  | cons d rest ih =>
    rw [List.foldl_cons, ih, loadUnitsFromDir_get]
    cases hg : Units.get st.1 name with
    | some u => rfl
    | none =>
      simp only [List.findSome?_cons]
      cases hl : loads os d name <;> rfl

theorem findSome?_first {α β : Type} (f : α → Option β) (pre post : List α) (d : α) (u : β)
    (hpre : ∀ p ∈ pre, f p = none) (hd : f d = some u) :
    (pre ++ d :: post).findSome? f = some u := by
  induction pre with
  | nil => simp [List.findSome?_cons, hd]
  | cons p pre ih =>
    have hp := hpre p (List.mem_cons_self _ _)
    simp only [List.cons_append, List.findSome?_cons, hp]
    exact ih (fun q hq => hpre q (List.mem_cons_of_mem _ hq))

set_option maxRecDepth 100000 in
/-- C13, counterexample. The directory of the administrator and the directory of the
distribution both list `web.container`, and the file of the administrator fails to parse.
The first directory of the list that contains the name is the directory of the
administrator, but the unit recorded for the name is not parsed from it: it is the one
parsed from the file of the distribution, which is not ignored. -/
theorem main_load_first_dir_counterexample :
    ¬ (∀ u : UnitFile,
        Units.get (main.load (sourceStore [str "/etc/containers/systemd/web.container"])
          [quadlet.UnitDirAdmin, quadlet.UnitDirDistro] (World.start [])).1
          (str "web.container") = some u →
        ∃ d, firstDirWith (sourceStore [str "/etc/containers/systemd/web.container"])
            [quadlet.UnitDirAdmin, quadlet.UnitDirDistro] (str "web.container") = some d ∧
          (sourceStore [str "/etc/containers/systemd/web.container"]).ParseUnitFile
            (path.Join [d, str "web.container"]) = .ok u) := by
  intro h
  have hget : Units.get (main.load (sourceStore [str "/etc/containers/systemd/web.container"])
      [quadlet.UnitDirAdmin, quadlet.UnitDirDistro] (World.start [])).1
      (str "web.container") =
      some (UnitFile.parsed (str "/usr/share/containers/systemd/web.container")) := by
    unfold main.load
    rw [load_from_get]
    rfl
  obtain ⟨d, hd, hp⟩ := h _ hget
  have hfirst : firstDirWith (sourceStore [str "/etc/containers/systemd/web.container"])
      [quadlet.UnitDirAdmin, quadlet.UnitDirDistro] (str "web.container") =
      some quadlet.UnitDirAdmin := by decide
  rw [hfirst] at hd
  cases hd
  have herr : (sourceStore [str "/etc/containers/systemd/web.container"]).ParseUnitFile
      (path.Join [quadlet.UnitDirAdmin, str "web.container"]) =
      .error (str "unit file: missing group header") := by rfl
  rw [herr] at hp
  cases hp

/-- C13, amended. After `main` has loaded all directories in order, the unit recorded for a
name is the one that the first directory which loads the name records: the first directory
in the list that can be listed, lists the name with a supported extension and whose file of
that name parses. Directories before it whose file fails to parse are passed over, and the
files of all directories after it are ignored for that name. -/
theorem main_load_first_parsed {σ : Type} (os : OS σ) (dirs : List GoString) (w : World σ)
    (name : GoString) :
    Units.get (main.load os dirs w).1 name = dirs.findSome? (fun d => loads os d name) ∧
    ∀ (pre post : List GoString) (d : GoString) (u : UnitFile),
      (∀ p ∈ pre, loads os p name = none) → loads os d name = some u →
      Units.get (main.load os (pre ++ d :: post) w).1 name = some u := by
  have key : ∀ ds : List GoString,
      Units.get (main.load os ds w).1 name = ds.findSome? (fun d => loads os d name) := by
    intro ds
    unfold main.load
    rw [load_from_get]
    rfl
  refine ⟨key dirs, ?_⟩
  intro pre post d u hpre hd
  rw [key]
  exact findSome?_first _ pre post d u hpre hd

theorem delivered_emit_parse {σ : Type} (w : World σ) (p : GoString) (err : Option Error) :
    delivered (w.emit (Event.parseUnitFile p err)).trace = delivered w.trace := by
  simp [World.emit, delivered_append, delivered]

/-- C14. A source file that fails to parse is logged and skipped without affecting the
others. When the directory lists a name with a supported extension that is absent from the
map and parsing its file returns an error, then after `loadUnitsFromDir` the map has no
entry for the name, and every listed name with a supported extension that was absent and
whose file parses has the unit parsed from its file. The loop body for the failing file
leaves the map as it is and delivers, after the debug line, exactly one log line: the
message that the file is ignored. -/
theorem loadUnitsFromDir_parse_failure {σ : Type} (os : OS σ) (sourcePath name : GoString)
    (files : List GoString) (err : Error) (st : Units × World σ)
    (hr : os.ReadDir sourcePath = .ok files) (hm : name ∈ files)
    (hs : isExtSupported name = true) (hg : Units.get st.1 name = none)
    (hp : os.ParseUnitFile (path.Join [sourcePath, name]) = .error err) :
    Units.get (loadUnitsFromDir os sourcePath st).1 name = none ∧
    (∀ (other : GoString) (f : UnitFile), other ∈ files → isExtSupported other = true →
      Units.get st.1 other = none →
      os.ParseUnitFile (path.Join [sourcePath, other]) = .ok f →
      Units.get (loadUnitsFromDir os sourcePath st).1 other = some f) ∧
    (∀ st2 : Units × World σ, Units.get st2.1 name = none →
      (loadUnitsFromDir.file os sourcePath name st2).1 = st2.1 ∧
      ∃ line,
        (line = Logf.line os (str "Error loading '" ++ path.Join [sourcePath, name] ++
            str "', ignoring: " ++ err) ∨
          line = Logf.line os (str "Error loading '" ++ path.Join [sourcePath, name] ++
            str "', ignoring: " ++ err) ++ str "\n") ∧
        delivered (loadUnitsFromDir.file os sourcePath name st2).2.trace =
          delivered (Debugf os (str "Loading source unit file " ++
            path.Join [sourcePath, name]) st2.2).trace ++ [line]) := by
  refine ⟨?_, ?_, ?_⟩
  · rw [loadUnitsFromDir_get, hg]
    simp [loads, hr, hm, hs, hp, Except.toOption]
  · intro other f hmo hso hgo hpo
    rw [loadUnitsFromDir_get, hgo]
    simp [loads, hr, hmo, hso, hpo, Except.toOption]
  · intro st2 hg2
    unfold loadUnitsFromDir.file
    simp only [hg2, hs, Option.isNone_none, Bool.and_self, if_true, hp, true_and]
    rcases Logf_delivered os (str "Error loading '" ++ path.Join [sourcePath, name] ++
        str "', ignoring: " ++ err)
      ((Debugf os (str "Loading source unit file " ++ path.Join [sourcePath, name]) st2.2).emit
        (Event.parseUnitFile (path.Join [sourcePath, name]) (some err))) with h | h
    · exact ⟨_, Or.inl rfl, by rw [h, delivered_emit_parse]⟩
    · exact ⟨_, Or.inr rfl, by rw [h, delivered_emit_parse]⟩

set_option maxRecDepth 100000 in
theorem loadUnitsFromDir_parse_failure_witness :
    Units.get (loadUnitsFromDir (sourceStore [str "/etc/containers/systemd/web.container"])
      quadlet.UnitDirAdmin ([], World.start [])).1 (str "web.container") = none ∧
    (Units.get (loadUnitsFromDir (sourceStore [str "/etc/containers/systemd/web.container"])
      quadlet.UnitDirAdmin ([], World.start [])).1 (str "db.volume")).map (fun u => u.Path) =
      some (str "/etc/containers/systemd/db.volume") := by
  have h := loadUnitsFromDir_parse_failure
    (sourceStore [str "/etc/containers/systemd/web.container"]) quadlet.UnitDirAdmin
    (str "web.container") [str "db.volume", str "notes.txt", str "web.container"]
    (str "unit file: missing group header") ([], World.start [])
    (by rfl) (by decide) (by decide) (by rfl) (by rfl)
  refine ⟨h.1, ?_⟩
  rw [h.2.1 (str "db.volume") (UnitFile.parsed (str "/etc/containers/systemd/db.volume"))
    (by decide) (by decide) (by rfl) (by rfl)]
  rfl

/-! ## The structure of a run of `main` -/

/-- A run of `main` that neither prints the version nor misses its argument loads the units
and goes on with them. -/
theorem main_eq_generate {σ : Type} (os : OS σ) (cv : Converters) (order : RangeOrder)
    (cmd : CommandLine) (w : World σ) (hv : cmd.versionFlag = false)
    (ha : cmd.dryRunFlag = true ∨ cmd.args ≠ []) :
    main os cv order cmd w =
      main.generate os cv order (main.isUserFlag os cmd) cmd.dryRunFlag (main.outputPath cmd)
        (main.sourcePaths os cmd w) (main.loaded os cmd w).1 (main.loaded os cmd w).2 := by
  have hlen : (!cmd.dryRunFlag && decide (cmd.args.length < 1)) = false := by
    rcases ha with h | h
    · simp [h]
    · cases hargs : cmd.args with
      | nil => exact absurd hargs h
      | cons a t => simp
  unfold main
  simp only [hv, hlen]
  rfl

theorem quietly_setup {σ : Type} (os : OS σ) (cmd : CommandLine) (w : World σ) :
    quietly w (main.setup os cmd w) := by
  unfold main.setup
  simp only []
  split
  · refine quietly_trans ?_ (quietly_Debugf os _ _)
    refine ⟨[], ?_, by simp⟩
    split <;> split <;> simp [enableDebug]
  · refine ⟨[], ?_, by simp⟩
    split <;> split <;> simp [enableDebug]

theorem quietly_loaded {σ : Type} (os : OS σ) (cmd : CommandLine) (w : World σ) :
    quietly w (main.loaded os cmd w).2 := by
  unfold main.loaded main.load
  exact quietly_trans (quietly_setup os cmd w)
    (quietly_trans (quietly_getUnitDirs os _ _) (quietly_load_from os _ _))

/-- C16. No-op on empty input. When `main` gets to loading (it does not print the version,
and it has its output directory argument or is a dry run) and no unit was loaded from any
source directory, it exits with code 0 and all it has done is logging and reading: the
trace has no file-system write, so the output directory is not created, and nothing is
printed. No converter is called: the result is the same for all converters. -/
theorem main_no_units {σ : Type} (os : OS σ) (cv : Converters) (order : RangeOrder)
    (cmd : CommandLine) (w : World σ) (hv : cmd.versionFlag = false)
    (ha : cmd.dryRunFlag = true ∨ cmd.args ≠ []) (hu : (main.loaded os cmd w).1 = []) :
    (main os cv order cmd w).exitCode = 0 ∧
    quietly w (main os cv order cmd w).world ∧
    fsWrites (main os cv order cmd w).world.trace = fsWrites w.trace ∧
    mkdirAllCalls (main os cv order cmd w).world.trace = mkdirAllCalls w.trace ∧
    stdoutTexts (main os cv order cmd w).world.trace = stdoutTexts w.trace ∧
    ∀ cv2 : Converters, main os cv2 order cmd w = main os cv order cmd w := by
  have hm : ∀ c : Converters, main os c order cmd w =
      { world := Debugf os (str "No files to parse from " ++
          fmt.strings (main.sourcePaths os cmd w)) (main.loaded os cmd w).2,
        exitCode := 0 } := by
    intro c
    rw [main_eq_generate os c order cmd w hv ha]
    unfold main.generate
    simp [hu]
  have hq : quietly w (main os cv order cmd w).world := by
    rw [hm cv]
    exact quietly_trans (quietly_loaded os cmd w) (quietly_Debugf os _ _)
  refine ⟨by rw [hm cv], hq, (quietly_observe hq).1, ?_, (quietly_observe hq).2, ?_⟩
  · obtain ⟨evs, he, hall⟩ := hq
    rw [he, mkdirAllCalls_append]
    have : mkdirAllCalls evs = [] := by
      clear he
      induction evs with
      | nil => rfl
      | cons e evs ih =>
        have h1 := hall e (List.mem_cons_self _ _)
        have h2 := ih (fun e he => hall e (List.mem_cons_of_mem _ he))
        cases e <;> simp_all [mkdirAllCalls, Event.isQuiet, Event.isLog]
    rw [this, List.append_nil]
  · intro cv2
    rw [hm cv2, hm cv]

theorem main_no_units_witness :
    (main (linkStore 42 (str "quadlet")) sampleConverters ⟨id, fun _ => List.Perm.refl _⟩
      ⟨false, false, none, false, false, [str "/run/gen"]⟩ (World.start [])).exitCode = 0 :=
  (main_no_units (linkStore 42 (str "quadlet")) sampleConverters ⟨id, fun _ => List.Perm.refl _⟩
    ⟨false, false, none, false, false, [str "/run/gen"]⟩ (World.start []) rfl
    (Or.inr (by simp)) (by rfl)).1

/-! ## The loop of `main` -/

theorem quietly_warnIfAmbiguousName {σ : Type} (os : OS σ) (unit : UnitFile) (w : World σ) :
    quietly w (warnIfAmbiguousName os unit w) := by
  unfold warnIfAmbiguousName
  split
  · exact quietly_refl _
  · split
    · exact quietly_Logf os _ _
    · exact quietly_refl _

/-- The `switch` of `main` chooses the converter by the name alone, and does nothing but
logging besides. -/
theorem convert_converted {σ : Type} (os : OS σ) (cv : Converters) (isUserFlag : Bool)
    (name : GoString) (unit : UnitFile) (w : World σ) :
    (main.convert os cv isUserFlag name unit w).1 = main.converted cv isUserFlag name unit ∧
    quietly w (main.convert os cv isUserFlag name unit w).2 := by
  unfold main.convert main.converted
  split
  · exact ⟨rfl, quietly_warnIfAmbiguousName os unit w⟩
  · split
    · exact ⟨rfl, quietly_refl _⟩
    · split
      · exact ⟨rfl, quietly_refl _⟩
      · split
        · exact ⟨rfl, quietly_refl _⟩
        · exact ⟨rfl, quietly_Logf os _ _⟩

theorem ToString_Path (service : UnitFile) (p : GoString) :
    UnitFile.ToString { service with Path := p } = service.ToString := rfl

/-- The body of the loop in a dry run: only logging, besides the text printed for a unit
that converts and renders; the exit code becomes 1 when a converted unit fails to render
and is left as it is otherwise. -/
theorem body_dry {σ : Type} (os : OS σ) (cv : Converters) (isUserFlag : Bool)
    (outputPath name : GoString) (unit : UnitFile) (st : LoopState σ) :
    fsWrites (main.body os cv isUserFlag true outputPath name unit st).world.trace =
      fsWrites st.world.trace ∧
    stdoutTexts (main.body os cv isUserFlag true outputPath name unit st).world.trace =
      stdoutTexts st.world.trace ++
        (main.printed cv isUserFlag outputPath (name, unit)).toList ∧
    (main.body os cv isUserFlag true outputPath name unit st).exitCode =
      if main.renderFails cv isUserFlag (name, unit) = true then 1 else st.exitCode := by
  obtain ⟨hc, hq⟩ := convert_converted os cv isUserFlag name unit st.world
  have ho := quietly_observe hq
  cases hcv : main.converted cv isUserFlag name unit with
  | none =>
    have hb : main.body os cv isUserFlag true outputPath name unit st =
        { st with world := (main.convert os cv isUserFlag name unit st.world).2 } := by
      unfold main.body
      simp only [hc, hcv]
    rw [hb]
    simp only [main.printed, main.renderFails, hcv]
    exact ⟨ho.1, by simpa using ho.2, by simp⟩
  | some res =>
    cases res with
    | error err =>
      have hb : main.body os cv isUserFlag true outputPath name unit st =
          LoopState.mk (Logf os (str "Error converting '" ++ name ++
              str "', ignoring: " ++ err)
              (main.convert os cv isUserFlag name unit st.world).2) st.exitCode := by
        unfold main.body
        simp only [hc, hcv, main.emit]
      have h2 := quietly_observe (quietly_Logf os
        (str "Error converting '" ++ name ++ str "', ignoring: " ++ err)
        (main.convert os cv isUserFlag name unit st.world).2)
      rw [hb]
      simp only [main.printed, main.renderFails, hcv]
      exact ⟨by rw [h2.1, ho.1], by rw [h2.2, ho.2]; simp, by simp⟩
    | ok service =>
      cases hs : service.ToString with
      | error e =>
        have hb : main.body os cv isUserFlag true outputPath name unit st =
            LoopState.mk (Debugf os (str "Error parsing " ++
                path.Join [outputPath, service.Filename] ++ str "\n---\n")
                (main.convert os cv isUserFlag name unit st.world).2) 1 := by
          unfold main.body
          simp only [hc, hcv, main.emit, ToString_Path, hs, if_true]
        have h2 := quietly_observe (quietly_Debugf os
          (str "Error parsing " ++ path.Join [outputPath, service.Filename] ++ str "\n---\n")
          (main.convert os cv isUserFlag name unit st.world).2)
        rw [hb]
        simp only [main.printed, main.renderFails, hcv, ToString_Path, hs]
        exact ⟨by rw [h2.1, ho.1], by rw [h2.2, ho.2]; simp, by simp⟩
      | ok data =>
        have hb : main.body os cv isUserFlag true outputPath name unit st =
            LoopState.mk (World.emit (main.convert os cv isUserFlag name unit st.world).2
                (Event.stdout (str "---" ++ path.Join [outputPath, service.Filename] ++
                  str "---\n" ++ data ++ str "\n"))) st.exitCode := by
          unfold main.body
          simp only [hc, hcv, main.emit, ToString_Path, hs, if_true]
        rw [hb]
        simp only [main.printed, main.renderFails, hcv, ToString_Path, hs]
        refine ⟨?_, ?_, by simp⟩
        · simp only [World.emit, fsWrites_append, ho.1]
          simp [fsWrites, Event.isWrite]
        · simp only [World.emit, stdoutTexts_append, ho.2]
          simp [stdoutTexts]

theorem loop_dry {σ : Type} (os : OS σ) (cv : Converters) (isUserFlag : Bool)
    (outputPath : GoString) (entries : Units) (st : LoopState σ) :
    fsWrites (main.loop os cv isUserFlag true outputPath entries st).world.trace =
      fsWrites st.world.trace ∧
    stdoutTexts (main.loop os cv isUserFlag true outputPath entries st).world.trace =
      stdoutTexts st.world.trace ++
        entries.filterMap (main.printed cv isUserFlag outputPath) ∧
    (main.loop os cv isUserFlag true outputPath entries st).exitCode =
      if entries.any (main.renderFails cv isUserFlag) = true then 1 else st.exitCode := by
  induction entries generalizing st with
  | nil => simp [main.loop]
  | cons e rest ih =>
    obtain ⟨n, u⟩ := e
    obtain ⟨b1, b2, b3⟩ := body_dry os cv isUserFlag outputPath n u st
    obtain ⟨i1, i2, i3⟩ := ih (main.body os cv isUserFlag true outputPath n u st)
    unfold main.loop at i1 i2 i3 ⊢
    simp only [List.foldl_cons]
    refine ⟨by rw [i1, b1], ?_, ?_⟩
    · rw [i2, b2, List.filterMap_cons]
      cases main.printed cv isUserFlag outputPath (n, u) <;> simp
    · rw [i3, b3, List.any_cons]
      cases h : main.renderFails cv isUserFlag (n, u) with
      | false =>
        simp only [Bool.false_or, Bool.false_eq_true, if_false]
      | true =>
        simp only [Bool.true_or, if_true]
        split <;> rfl

/-- With an empty output path the path of a generated unit is its file name. -/
theorem Join_empty_generated (f : GoString) (h : isGeneratedName f = true) :
    path.Join [[], f] = f := by
  have he := isGeneratedName_isElem f h
  have hpos : 0 < f.length := List.length_pos.mpr he.1
  unfold path.Join
  have hsum : ¬ (List.map List.length [([] : GoString), f]).sum = 0 := by
    simp only [List.map_cons, List.map_nil, List.sum_cons, List.sum_nil, List.length_nil]
    omega
  rw [if_neg hsum]
  simp only [List.foldl_cons, List.foldl_nil, List.length_nil, gt_iff_lt, lt_irrefl, ne_eq,
    not_true_eq_false, or_self, if_false, false_or, he.1, not_false_eq_true, if_true,
    List.nil_append]
  exact Clean_elem f he

theorem visit_nil (order : RangeOrder) : order.visit [] = [] :=
  List.Perm.eq_nil (order.perm [])

/-- A dry run of `main`, seen from its trace and exit code. -/
theorem main_dry {σ : Type} (os : OS σ) (cv : Converters) (order : RangeOrder)
    (cmd : CommandLine) (w : World σ) (hv : cmd.versionFlag = false)
    (hd : cmd.dryRunFlag = true) :
    fsWrites (main os cv order cmd w).world.trace = fsWrites w.trace ∧
    stdoutTexts (main os cv order cmd w).world.trace =
      stdoutTexts w.trace ++ (order.visit (main.loaded os cmd w).1).filterMap
        (main.printed cv (main.isUserFlag os cmd) []) ∧
    (main os cv order cmd w).exitCode =
      if (order.visit (main.loaded os cmd w).1).any
        (main.renderFails cv (main.isUserFlag os cmd)) = true then 1 else 0 := by
  have ho := quietly_observe (quietly_loaded os cmd w)
  have hout : main.outputPath cmd = [] := by simp [main.outputPath, hd]
  rw [main_eq_generate os cv order cmd w hv (Or.inl hd), hd, hout]
  unfold main.generate
  by_cases hu : (main.loaded os cmd w).1.length = 0
  · have hnil : (main.loaded os cmd w).1 = [] := List.length_eq_zero.mp hu
    have h2 := quietly_observe (quietly_Debugf os
      (str "No files to parse from " ++ fmt.strings (main.sourcePaths os cmd w))
      (main.loaded os cmd w).2)
    simp only [hu, if_true]
    rw [hnil, visit_nil]
    exact ⟨by rw [h2.1, ho.1], by rw [h2.2, ho.2]; simp, by simp⟩
  · simp only [hu, if_false, Bool.not_true, Bool.false_eq_true]
    obtain ⟨l1, l2, l3⟩ := loop_dry os cv (main.isUserFlag os cmd) []
      (order.visit (main.loaded os cmd w).1) { world := (main.loaded os cmd w).2, exitCode := 0 }
    exact ⟨by rw [l1, ho.1], by rw [l2, ho.2], l3⟩

theorem printed_iff (cv : Converters) (isUserFlag : Bool) (outputPath : GoString)
    (e : GoString × UnitFile) (text : GoString) :
    main.printed cv isUserFlag outputPath e = some text ↔
      ∃ service data, main.converted cv isUserFlag e.1 e.2 = some (.ok service) ∧
        service.ToString = .ok data ∧
        text = str "---" ++ path.Join [outputPath, service.Filename] ++ str "---\n" ++ data ++
          str "\n" := by
  unfold main.printed
  cases hcv : main.converted cv isUserFlag e.1 e.2 with
  | none => simp
  | some res =>
    cases res with
    | error err => simp
    | ok service =>
      simp only [ToString_Path]
      cases hs : service.ToString with
      | error err =>
        constructor
        · intro h; cases h
        · rintro ⟨s2, data, h1, h2, _⟩
          cases h1
          rw [hs] at h2
          cases h2
      | ok data =>
        constructor
        · intro h
          cases h
          exact ⟨service, data, rfl, hs, rfl⟩
        · rintro ⟨s2, d2, h1, h2, h3⟩
          cases h1
          rw [hs] at h2
          cases h2
          rw [h3]

theorem renderFails_iff (cv : Converters) (isUserFlag : Bool) (e : GoString × UnitFile) :
    main.renderFails cv isUserFlag e = true ↔
      ∃ service err, main.converted cv isUserFlag e.1 e.2 = some (.ok service) ∧
        service.ToString = .error err := by
  unfold main.renderFails
  cases hcv : main.converted cv isUserFlag e.1 e.2 with
  | none => simp
  | some res =>
    cases res with
    | error err => simp
    | ok service =>
      cases hs : service.ToString with
      | error err => simp [hs]
      | ok data =>
        simp only [hs, Bool.false_eq_true, false_iff]
        rintro ⟨s2, err, h1, h2⟩
        cases h1
        rw [hs] at h2
        cases h2

/-- C18. In a dry run no file, directory or symlink is created or removed: the trace of
`main` has no file-system write, so neither the output directory is created nor a unit
written or enabled. What is printed to standard output is, for every entry of `units` in
the order of the visit that converts and renders, the line `---<path>---`, the rendered
text and a newline, and nothing else; `<path>` is `path.Join` of the empty output path and
the file name of the generated unit, which is that file name. -/
theorem main_dry_run_prints {σ : Type} (os : OS σ) (cv : Converters) (order : RangeOrder)
    (cmd : CommandLine) (w : World σ) (hv : cmd.versionFlag = false)
    (hd : cmd.dryRunFlag = true) :
    fsWrites (main os cv order cmd w).world.trace = fsWrites w.trace ∧
    stdoutTexts (main os cv order cmd w).world.trace =
      stdoutTexts w.trace ++ (order.visit (main.loaded os cmd w).1).filterMap
        (main.printed cv (main.isUserFlag os cmd) []) ∧
    (∀ (e : GoString × UnitFile) (text : GoString),
      main.printed cv (main.isUserFlag os cmd) [] e = some text ↔
        ∃ service data,
          main.converted cv (main.isUserFlag os cmd) e.1 e.2 = some (.ok service) ∧
          service.ToString = .ok data ∧
          text = str "---" ++ path.Join [[], service.Filename] ++ str "---\n" ++ data ++
            str "\n") ∧
    (∀ service : UnitFile, isGeneratedName service.Filename = true →
      path.Join [[], service.Filename] = service.Filename) := by
  obtain ⟨h1, h2, _⟩ := main_dry os cv order cmd w hv hd
  exact ⟨h1, h2, fun e text => printed_iff cv _ [] e text,
    fun service h => Join_empty_generated service.Filename h⟩

theorem main_dry_run_prints_witness :
    fsWrites (main (sourceStore []) sampleConverters ⟨id, fun _ => List.Perm.refl _⟩
      ⟨false, false, none, true, false, []⟩ (World.start [])).world.trace = [] :=
  (main_dry_run_prints (sourceStore []) sampleConverters ⟨id, fun _ => List.Perm.refl _⟩
    ⟨false, false, none, true, false, []⟩ (World.start []) rfl rfl).1

/-- C19. In a dry run the exit code of `main` is 1 if and only if at least one loaded unit
converts and then fails to render to text, and 0 otherwise. A render failure does not stop
the loop: every entry that converts and renders is printed, whatever happened to the
entries visited before it. -/
theorem main_dry_run_exit_code {σ : Type} (os : OS σ) (cv : Converters) (order : RangeOrder)
    (cmd : CommandLine) (w : World σ) (hv : cmd.versionFlag = false)
    (hd : cmd.dryRunFlag = true) :
    ((main os cv order cmd w).exitCode = 1 ↔
      ∃ e ∈ (main.loaded os cmd w).1, ∃ service err,
        main.converted cv (main.isUserFlag os cmd) e.1 e.2 = some (.ok service) ∧
        service.ToString = .error err) ∧
    ((main os cv order cmd w).exitCode ≠ 1 → (main os cv order cmd w).exitCode = 0) ∧
    stdoutTexts (main os cv order cmd w).world.trace =
      stdoutTexts w.trace ++ (order.visit (main.loaded os cmd w).1).filterMap
        (main.printed cv (main.isUserFlag os cmd) []) := by
  obtain ⟨_, h2, h3⟩ := main_dry os cv order cmd w hv hd
  refine ⟨?_, ?_, h2⟩
  · rw [h3]
    constructor
    · intro h
      split at h
      · rename_i hany
        obtain ⟨e, he, hf⟩ := List.any_eq_true.mp hany
        exact ⟨e, (order.perm _).mem_iff.mp he, (renderFails_iff cv _ e).mp hf⟩
      · cases h
    · rintro ⟨e, he, hf⟩
      have hany : (order.visit (main.loaded os cmd w).1).any
          (main.renderFails cv (main.isUserFlag os cmd)) = true :=
        List.any_eq_true.mpr ⟨e, (order.perm _).mem_iff.mpr he, (renderFails_iff cv _ e).mpr hf⟩
      rw [if_pos hany]
  · rw [h3]
    intro h
    split at h
    · exact absurd rfl h
    · rename_i hany
      rw [if_neg hany]

theorem main_dry_run_exit_code_witness :
    stdoutTexts (main (sourceStore []) sampleConverters ⟨id, fun _ => List.Perm.refl _⟩
      ⟨false, false, none, true, false, []⟩ (World.start [])).world.trace =
      stdoutTexts (World.start ([] : Links)).trace ++
        (main.loaded (sourceStore []) ⟨false, false, none, true, false, []⟩
          (World.start [])).1.filterMap
          (main.printed sampleConverters
            (main.isUserFlag (sourceStore []) ⟨false, false, none, true, false, []⟩) []) :=
  (main_dry_run_exit_code (sourceStore []) sampleConverters ⟨id, fun _ => List.Perm.refl _⟩
    ⟨false, false, none, true, false, []⟩ (World.start []) rfl rfl).2.2

/-- Outside a dry run the body of the loop leaves the exit code as it is. -/
theorem body_exitCode {σ : Type} (os : OS σ) (cv : Converters) (isUserFlag : Bool)
    (outputPath name : GoString) (unit : UnitFile) (st : LoopState σ) :
    (main.body os cv isUserFlag false outputPath name unit st).exitCode = st.exitCode := by
  unfold main.body
  simp only []
  cases (main.convert os cv isUserFlag name unit st.world).1 with
  | none => rfl
  | some res =>
    cases res with
    | error err => rfl
    | ok service => rfl

theorem loop_exitCode {σ : Type} (os : OS σ) (cv : Converters) (isUserFlag : Bool)
    (outputPath : GoString) (entries : Units) (st : LoopState σ) :
    (main.loop os cv isUserFlag false outputPath entries st).exitCode = st.exitCode := by
  induction entries generalizing st with
  | nil => rfl
  | cons e rest ih =>
    unfold main.loop at ih ⊢
    rw [List.foldl_cons, ih, body_exitCode]

theorem loop_append {σ : Type} (os : OS σ) (cv : Converters) (isUserFlag dryRunFlag : Bool)
    (outputPath : GoString) (pre post : Units) (st : LoopState σ) :
    main.loop os cv isUserFlag dryRunFlag outputPath (pre ++ post) st =
      main.loop os cv isUserFlag dryRunFlag outputPath post
        (main.loop os cv isUserFlag dryRunFlag outputPath pre st) := by
  unfold main.loop
  rw [List.foldl_append]

/-- The body of the loop for a unit whose conversion returns an error: one call of `Logf`
after the `switch`. -/
theorem body_conversion_error {σ : Type} (os : OS σ) (cv : Converters)
    (isUserFlag dryRunFlag : Bool) (outputPath name : GoString) (unit : UnitFile)
    (st : LoopState σ) (err : Error)
    (h : main.converted cv isUserFlag name unit = some (.error err)) :
    main.body os cv isUserFlag dryRunFlag outputPath name unit st =
      LoopState.mk (Logf os (str "Error converting '" ++ name ++ str "', ignoring: " ++ err)
        (main.convert os cv isUserFlag name unit st.world).2) st.exitCode := by
  have hc := (convert_converted os cv isUserFlag name unit st.world).1
  unfold main.body
  simp only [hc, h, main.emit]

/-- The body of the loop outside a dry run for a unit that converts: the generated unit is
written by `generateServiceFile` to `path.Join(outputPath, Filename)`, an error of writing
is logged, and the unit is enabled by `enableServiceFile`. -/
theorem body_conversion_ok {σ : Type} (os : OS σ) (cv : Converters) (isUserFlag : Bool)
    (outputPath name : GoString) (unit : UnitFile) (st : LoopState σ) (service : UnitFile)
    (h : main.converted cv isUserFlag name unit = some (.ok service)) :
    main.body os cv isUserFlag false outputPath name unit st =
      main.emit os false outputPath name (.ok service)
        (LoopState.mk (main.convert os cv isUserFlag name unit st.world).2 st.exitCode) := by
  have hc := (convert_converted os cv isUserFlag name unit st.world).1
  unfold main.body
  simp only [hc, h]

theorem fsWrites_emit_mkdirAll {σ : Type} (w : World σ) (r : Option Error × σ) (p : GoString) :
    fsWrites (w.call r (Event.mkdirAll p)).2.trace = fsWrites w.trace ++ [Event.mkdirAll p r.1] := by
  simp [World.call, fsWrites_append, fsWrites, Event.isWrite]

/-- C20. Outside a dry run with at least one loaded unit, when the output directory cannot
be created `main` logs the failure with one call of `Logf` and exits with code 1. The
failed `os.MkdirAll` is the only file-system call of the run, and no unit is converted,
written or enabled: the result is the same for all converters. -/
theorem main_output_dir_failure {σ : Type} (os : OS σ) (cv : Converters) (order : RangeOrder)
    (cmd : CommandLine) (w : World σ) (err : Error) (hv : cmd.versionFlag = false)
    (hd : cmd.dryRunFlag = false) (hargs : cmd.args ≠ [])
    (hu : (main.loaded os cmd w).1 ≠ [])
    (hm : (os.MkdirAll (main.outputPath cmd) (main.loaded os cmd w).2.sys).1 = some err) :
    (main os cv order cmd w).exitCode = 1 ∧
    (main os cv order cmd w).world =
      Logf os (str "Can't create dir " ++ main.outputPath cmd ++ str ": " ++ err)
        ((main.loaded os cmd w).2.call
          (os.MkdirAll (main.outputPath cmd) (main.loaded os cmd w).2.sys)
          (Event.mkdirAll (main.outputPath cmd))).2 ∧
    fsWrites (main os cv order cmd w).world.trace =
      fsWrites w.trace ++ [Event.mkdirAll (main.outputPath cmd) (some err)] ∧
    (∀ cv2 : Converters, main os cv2 order cmd w = main os cv order cmd w) := by
  have hm2 : ∀ c : Converters, main os c order cmd w =
      LoopState.mk (Logf os (str "Can't create dir " ++ main.outputPath cmd ++ str ": " ++ err)
        ((main.loaded os cmd w).2.call
          (os.MkdirAll (main.outputPath cmd) (main.loaded os cmd w).2.sys)
          (Event.mkdirAll (main.outputPath cmd))).2) 1 := by
    intro c
    have hlen : ¬ (main.loaded os cmd w).1.length = 0 := fun h => hu (List.length_eq_zero.mp h)
    rw [main_eq_generate os c order cmd w hv (Or.inr hargs)]
    unfold main.generate
    simp only [hlen, if_false, hd, Bool.not_false, if_true]
    have h1 : ((main.loaded os cmd w).2.call
        (os.MkdirAll (main.outputPath cmd) (main.loaded os cmd w).2.sys)
        (Event.mkdirAll (main.outputPath cmd))).1 = some err := hm
    simp only [h1]
  refine ⟨by rw [hm2 cv], by rw [hm2 cv], ?_, fun cv2 => by rw [hm2 cv2, hm2 cv]⟩
  rw [hm2 cv]
  have h2 := quietly_observe (quietly_Logf os
    (str "Can't create dir " ++ main.outputPath cmd ++ str ": " ++ err)
    ((main.loaded os cmd w).2.call
      (os.MkdirAll (main.outputPath cmd) (main.loaded os cmd w).2.sys)
      (Event.mkdirAll (main.outputPath cmd))).2)
  rw [h2.1, fsWrites_emit_mkdirAll, (quietly_observe (quietly_loaded os cmd w)).1, hm]

set_option maxRecDepth 100000 in
theorem main_output_dir_failure_witness :
    (main readOnlyStore sampleConverters ⟨id, fun _ => List.Perm.refl _⟩
      ⟨false, false, none, false, false, [str "/run/gen"]⟩ (World.start [])).exitCode = 1 :=
  (main_output_dir_failure readOnlyStore sampleConverters ⟨id, fun _ => List.Perm.refl _⟩
    ⟨false, false, none, false, false, [str "/run/gen"]⟩ (World.start [])
    (str "mkdir /run/gen: read-only file system") rfl rfl (by simp)
    (fun h => absurd (congrArg List.length h) (by decide)) (by rfl)).1

/-! ## Logging -/

theorem kmsgLines_append (a b : List Event) : kmsgLines (a ++ b) = kmsgLines a ++ kmsgLines b := by
  induction a with
  | nil => rfl
  | cons e a ih =>
    cases e with
    | writeKmsg line err => cases err <;> simp [kmsgLines, ih]
    | _ => simp [kmsgLines, ih]

theorem stderrTexts_append (a b : List Event) :
    stderrTexts (a ++ b) = stderrTexts a ++ stderrTexts b := by
  induction a with
  | nil => rfl
  | cons e a ih => cases e <;> simp [stderrTexts, ih]

/-- The result of `logToKmsg`, case by case. -/
theorem logToKmsg_cases {σ : Type} (os : OS σ) (s : GoString) (w : World σ) :
    ((logToKmsg os s w).1 = false ↔ kmsgFails os s w) ∧
    ((logToKmsg os s w).1 = true →
      kmsgLines (logToKmsg os s w).2.trace = kmsgLines w.trace ++ [s]) ∧
    ((logToKmsg os s w).1 = false →
      kmsgLines (logToKmsg os s w).2.trace = kmsgLines w.trace) ∧
    stderrTexts (logToKmsg os s w).2.trace = stderrTexts w.trace := by
  unfold logToKmsg kmsgFails logToKmsg.write
  by_cases h1 : w.noKmsg = true
  · simp [h1]
  · have h1f : w.noKmsg = false := by simpa using h1
    by_cases h2 : w.kmsgFile = false
    · cases h3 : (os.OpenKmsg w.sys).1 with
      | some e =>
        simp [h1f, h2, h3, World.call, kmsgLines_append, stderrTexts_append, kmsgLines,
          stderrTexts]
      | none =>
        cases h4 : (os.WriteKmsg s (os.OpenKmsg w.sys).2).1 with
        | some e =>
          simp [h1f, h2, h3, h4, World.call, kmsgLines_append, stderrTexts_append, kmsgLines,
            stderrTexts]
        | none =>
          simp [h1f, h2, h3, h4, World.call, kmsgLines_append, stderrTexts_append, kmsgLines,
            stderrTexts]
    · have h2t : w.kmsgFile = true := by simpa using h2
      cases h4 : (os.WriteKmsg s w.sys).1 with
      | some e =>
        simp [h1f, h2t, h4, World.call, kmsgLines_append, stderrTexts_append, kmsgLines,
          stderrTexts]
      | none =>
        simp [h1f, h2t, h4, World.call, kmsgLines_append, stderrTexts_append, kmsgLines,
          stderrTexts]

/-- C21. Every call of `Logf` delivers its message to exactly one sink. The line is
`quadlet-generator[<pid>]: <message>`. When `logToKmsg` returns true the line is written to
the kernel log and nothing goes to standard error; when it returns false the line followed
by a newline is written to standard error and the kernel log has not taken it. `logToKmsg`
returns false exactly when logging to the kernel log is disabled, the device cannot be
opened, or the write to it fails. So the line is delivered once whatever happens. -/
theorem Logf_one_sink {σ : Type} (os : OS σ) (s : GoString) (w : World σ) :
    Logf.line os s = str "quadlet-generator[" ++ fmt.d os.Getpid ++ str "]: " ++ s ∧
    ((logToKmsg os (Logf.line os s) w).1 = true →
      kmsgLines (Logf os s w).trace = kmsgLines w.trace ++ [Logf.line os s] ∧
      stderrTexts (Logf os s w).trace = stderrTexts w.trace) ∧
    ((logToKmsg os (Logf.line os s) w).1 = false →
      kmsgLines (Logf os s w).trace = kmsgLines w.trace ∧
      stderrTexts (Logf os s w).trace = stderrTexts w.trace ++ [Logf.line os s ++ str "\n"]) ∧
    ((logToKmsg os (Logf.line os s) w).1 = false ↔ kmsgFails os (Logf.line os s) w) ∧
    (delivered (Logf os s w).trace = delivered w.trace ++ [Logf.line os s] ∨
      delivered (Logf os s w).trace = delivered w.trace ++ [Logf.line os s ++ str "\n"]) := by
  obtain ⟨c1, c2, c3, c4⟩ := logToKmsg_cases os (Logf.line os s) w
  refine ⟨rfl, ?_, ?_, c1, Logf_delivered os s w⟩
  · intro h
    unfold Logf
    simp only [h, Bool.not_true, Bool.false_eq_true, if_false]
    exact ⟨c2 h, c4⟩
  · intro h
    unfold Logf
    simp only [h, Bool.not_false, if_true]
    simp only [World.emit, kmsgLines_append, stderrTexts_append, c3 h, c4]
    simp [kmsgLines, stderrTexts]

/-- C30. The variable `noKmsg` is a latch. No call of `logToKmsg` changes it from true to
false, and when it is true the call returns false and leaves the world as it is: nothing is
opened or written and `kmsgFile` is unchanged. A failed open sets `noKmsg`, so the next call
does nothing. A failed write closes the device, resets `kmsgFile` to nil and leaves
`noKmsg` false, so the next call starts by opening the device again. -/
theorem logToKmsg_latch {σ : Type} (os : OS σ) (s s2 : GoString) (w : World σ) :
    (w.noKmsg = true → logToKmsg os s w = (false, w)) ∧
    (w.noKmsg = true → (logToKmsg os s w).2.noKmsg = true) ∧
    (w.noKmsg = false → w.kmsgFile = false → (os.OpenKmsg w.sys).1 ≠ none →
      (logToKmsg os s w).1 = false ∧ (logToKmsg os s w).2.noKmsg = true ∧
      (logToKmsg os s w).2.kmsgFile = false ∧
      (logToKmsg os s w).2.trace = w.trace ++ [Event.openKmsg (os.OpenKmsg w.sys).1] ∧
      logToKmsg os s2 (logToKmsg os s w).2 = (false, (logToKmsg os s w).2)) ∧
    (w.noKmsg = false → w.kmsgFile = true → (os.WriteKmsg s w.sys).1 ≠ none →
      (logToKmsg os s w).1 = false ∧ (logToKmsg os s w).2.noKmsg = false ∧
      (logToKmsg os s w).2.kmsgFile = false ∧
      (logToKmsg os s w).2.trace =
        w.trace ++ [Event.writeKmsg s (os.WriteKmsg s w.sys).1, Event.closeKmsg] ∧
      ∃ rest, (logToKmsg os s2 (logToKmsg os s w).2).2.trace =
        (logToKmsg os s w).2.trace ++
          Event.openKmsg (os.OpenKmsg (logToKmsg os s w).2.sys).1 :: rest) ∧
    (w.noKmsg = false → w.kmsgFile = false → (os.OpenKmsg w.sys).1 = none →
      (os.WriteKmsg s (os.OpenKmsg w.sys).2).1 ≠ none →
      (logToKmsg os s w).1 = false ∧ (logToKmsg os s w).2.noKmsg = false ∧
      (logToKmsg os s w).2.kmsgFile = false ∧
      ∃ rest, (logToKmsg os s2 (logToKmsg os s w).2).2.trace =
        (logToKmsg os s w).2.trace ++
          Event.openKmsg (os.OpenKmsg (logToKmsg os s w).2.sys).1 :: rest) := by
  have reopen : ∀ v : World σ, v.noKmsg = false → v.kmsgFile = false →
      ∃ rest, (logToKmsg os s2 v).2.trace =
        v.trace ++ Event.openKmsg (os.OpenKmsg v.sys).1 :: rest := by
    intro v hn hk
    unfold logToKmsg logToKmsg.write
    cases h3 : (os.OpenKmsg v.sys).1 with
    | some e => exact ⟨[], by simp [hn, hk, h3, World.call]⟩
    | none =>
      cases h4 : (os.WriteKmsg s2 (os.OpenKmsg v.sys).2).1 with
      | some e => exact ⟨_, by simp [hn, hk, h3, h4, World.call]; rfl⟩
      | none => exact ⟨_, by simp [hn, hk, h3, h4, World.call]; rfl⟩
  refine ⟨?_, ?_, ?_, ?_, ?_⟩
  · intro h
    simp [logToKmsg, h]
  · intro h
    simp [logToKmsg, h]
  · intro hn hk ho
    obtain ⟨e, he⟩ := Option.ne_none_iff_exists'.mp ho
    have hr : logToKmsg os s w =
        (false, { w with sys := (os.OpenKmsg w.sys).2,
                         trace := w.trace ++ [Event.openKmsg (some e)], noKmsg := true }) := by
      simp [logToKmsg, hn, hk, he, World.call]
    rw [hr, he]
    refine ⟨rfl, rfl, hk, rfl, ?_⟩
    simp [logToKmsg]
  · intro hn hk hw
    obtain ⟨e, he⟩ := Option.ne_none_iff_exists'.mp hw
    have hr : logToKmsg os s w =
        (false, { w with sys := os.CloseKmsg (os.WriteKmsg s w.sys).2, kmsgFile := false,
                         trace := w.trace ++ [Event.writeKmsg s (some e)] ++
                           [Event.closeKmsg] }) := by
      simp [logToKmsg, logToKmsg.write, hn, hk, he, World.call]
    refine ⟨by rw [hr], by rw [hr]; exact hn, by rw [hr], by rw [hr, he]; simp, ?_⟩
    exact reopen _ (by rw [hr]; exact hn) (by rw [hr])
  · intro hn hk ho hw
    obtain ⟨e, he⟩ := Option.ne_none_iff_exists'.mp hw
    have hr : logToKmsg os s w =
        (false, { w with sys := os.CloseKmsg (os.WriteKmsg s (os.OpenKmsg w.sys).2).2,
                         kmsgFile := false,
                         trace := w.trace ++ [Event.openKmsg none] ++
                           [Event.writeKmsg s (some e)] ++ [Event.closeKmsg] }) := by
      simp [logToKmsg, logToKmsg.write, hn, hk, ho, he, World.call]
    refine ⟨by rw [hr], by rw [hr]; exact hn, by rw [hr], ?_⟩
    exact reopen _ (by rw [hr]; exact hn) (by rw [hr])

theorem delivered_Logf_ne {σ : Type} (os : OS σ) (s : GoString) (w : World σ) :
    delivered (Logf os s w).trace ≠ delivered w.trace := by
  intro h
  have hlen := congrArg List.length h
  rcases Logf_delivered os s w with h2 | h2 <;>
    · rw [h2, List.length_append, List.length_singleton] at hlen
      omega

/-- C23. `warnIfAmbiguousName` emits a warning exactly when the `Container` group of the
unit has an `Image` key and the value looked up is not an unambiguous name: then it makes
one call of `Logf`, whose message names the `Filename` of the unit and the image value.
When the key is absent or the name is unambiguous it does nothing at all. -/
theorem warnIfAmbiguousName_iff {σ : Type} (os : OS σ) (container : UnitFile) (w : World σ) :
    (delivered (warnIfAmbiguousName os container w).trace ≠ delivered w.trace ↔
      ∃ imageName, container.Lookup quadlet.ContainerGroup quadlet.KeyImage = some imageName ∧
        isUnambiguousName imageName = false) ∧
    (∀ imageName, container.Lookup quadlet.ContainerGroup quadlet.KeyImage = some imageName →
      isUnambiguousName imageName = false →
      warnIfAmbiguousName os container w =
        Logf os (str "Warning: " ++ container.Filename ++ str " specifies the image \"" ++
          imageName ++ str "\" which not a fully qualified image name. This is not ideal for performance and security reasons. See the podman-pull manpage discussion of short-name-aliases.conf for details.") w) ∧
    (container.Lookup quadlet.ContainerGroup quadlet.KeyImage = none →
      warnIfAmbiguousName os container w = w) ∧
    (∀ imageName, container.Lookup quadlet.ContainerGroup quadlet.KeyImage = some imageName →
      isUnambiguousName imageName = true → warnIfAmbiguousName os container w = w) := by
  have hnone : container.Lookup quadlet.ContainerGroup quadlet.KeyImage = none →
      warnIfAmbiguousName os container w = w := by
    intro h
    simp [warnIfAmbiguousName, h]
  have hok : ∀ imageName,
      container.Lookup quadlet.ContainerGroup quadlet.KeyImage = some imageName →
      isUnambiguousName imageName = true → warnIfAmbiguousName os container w = w := by
    intro imageName h hu
    simp [warnIfAmbiguousName, h, hu]
  have hwarn : ∀ imageName,
      container.Lookup quadlet.ContainerGroup quadlet.KeyImage = some imageName →
      isUnambiguousName imageName = false →
      warnIfAmbiguousName os container w =
        Logf os (warnIfAmbiguousName.message container.Filename imageName) w := by
    intro imageName h hu
    simp [warnIfAmbiguousName, h, hu]
  refine ⟨?_, hwarn, hnone, hok⟩
  constructor
  · intro hne
    cases hl : container.Lookup quadlet.ContainerGroup quadlet.KeyImage with
    | none => exact absurd (by rw [hnone hl]) hne
    | some imageName =>
      cases hu : isUnambiguousName imageName with
      | true => exact absurd (by rw [hok imageName hl hu]) hne
      | false => exact ⟨imageName, rfl, hu⟩
  · rintro ⟨imageName, hl, hu⟩
    rw [hwarn imageName hl hu]
    exact delivered_Logf_ne os _ w

/-! ## Writing a generated unit -/

theorem fsWrites_log (evs : List Event) (h : ∀ e ∈ evs, e.isLog = true) : fsWrites evs = [] :=
  fsWrites_quiet evs (fun e he => isQuiet_of_isLog e (h e he))

theorem writeCalls_append (a b : List Event) :
    writeCalls (a ++ b) = writeCalls a ++ writeCalls b := by
  induction a with
  | nil => rfl
  | cons e a ih => cases e <;> simp [writeCalls, ih]

theorem writeCalls_log (evs : List Event) (h : ∀ e ∈ evs, e.isLog = true) :
    writeCalls evs = [] := by
  induction evs with
  | nil => rfl
  | cons e evs ih =>
    have he := h e (List.mem_cons_self _ _)
    have ht := ih (fun e he => h e (List.mem_cons_of_mem _ he))
    cases e <;> simp_all [writeCalls, Event.isLog]

/-- C22, amended. `generateServiceFile` prepends exactly the two comment lines
`Automatically generated by <argv[0]>` and the empty line to the first group of the unit
(the first argument of its call of `PrependComment`, the empty string, names the group),
and leaves the comment lines of every other group as they are. Then it creates the file at
`service.Path` and writes the unit with these lines. It returns the first error among file
creation, write and sync, and nil only when all three succeed. When file creation fails the
failed `os.Create` is its only file-system call: nothing is written. -/
theorem generateServiceFile_first_error {σ : Type} (os : OS σ) (service : UnitFile)
    (w : World σ) :
    (generateServiceFile os service w).2.1 =
      service.PrependComment (str "")
        [str "Automatically generated by " ++ os.Args0, str ""] ∧
    ((generateServiceFile os service w).2.1.comments (str "") =
        [str "Automatically generated by " ++ os.Args0, str ""] ++
          service.comments (str "") ∧
      ∀ groupName : GoString, groupName ≠ str "" →
        (generateServiceFile os service w).2.1.comments groupName =
          service.comments groupName) ∧
    (generateServiceFile os service w).1 =
      (if (generateServiceFile.created os service w).1.isSome then
        (generateServiceFile.created os service w).1
      else if (generateServiceFile.written os service w).1.isSome then
        (generateServiceFile.written os service w).1
      else (generateServiceFile.synced os service w).1) ∧
    ((generateServiceFile os service w).1 = none ↔
      (generateServiceFile.created os service w).1 = none ∧
      (generateServiceFile.written os service w).1 = none ∧
      (generateServiceFile.synced os service w).1 = none) ∧
    ((generateServiceFile.created os service w).1 ≠ none →
      (generateServiceFile os service w).2.2 = (generateServiceFile.created os service w).2 ∧
      fsWrites (generateServiceFile os service w).2.2.trace = fsWrites w.trace ++
        [Event.create service.Path (generateServiceFile.created os service w).1] ∧
      writeCalls (generateServiceFile os service w).2.2.trace = writeCalls w.trace) ∧
    (∀ data : GoString, (generateServiceFile.created os service w).1 = none →
      (service.PrependComment (str "")
        [str "Automatically generated by " ++ os.Args0, str ""]).ToString = .ok data →
      writeCalls (generateServiceFile os service w).2.2.trace =
        writeCalls w.trace ++ [(service.Path, data)]) := by
  have hg : generateServiceFile os service w =
      if (generateServiceFile.created os service w).1.isSome then
        ((generateServiceFile.created os service w).1,
          service.PrependComment (str "") (generateServiceFile.banner os),
          (generateServiceFile.created os service w).2)
      else if (generateServiceFile.written os service w).1.isSome then
        ((generateServiceFile.written os service w).1,
          service.PrependComment (str "") (generateServiceFile.banner os),
          { (generateServiceFile.written os service w).2 with
            sys := os.Close service.Path (generateServiceFile.written os service w).2.sys,
            trace := (generateServiceFile.written os service w).2.trace ++
              [Event.close service.Path] })
      else
        ((generateServiceFile.synced os service w).1,
          service.PrependComment (str "") (generateServiceFile.banner os),
          { (generateServiceFile.synced os service w).2 with
            sys := os.Close service.Path (generateServiceFile.synced os service w).2.sys,
            trace := (generateServiceFile.synced os service w).2.trace ++
              [Event.close service.Path] }) := by
    unfold generateServiceFile generateServiceFile.synced generateServiceFile.written
      generateServiceFile.created generateServiceFile.banner
    simp only [UnitFile.PrependComment]
    split
    · rfl
    · split
      · rfl
      · split
        · rfl
        · rename_i hs
          rw [Option.not_isSome_iff_eq_none.mp hs]
  have hunit : (generateServiceFile os service w).2.1 =
      service.PrependComment (str "")
        [str "Automatically generated by " ++ os.Args0, str ""] := by
    rw [hg]; split
    · rfl
    · split <;> rfl
  refine ⟨hunit, ?_, ?_, ?_, ?_, ?_⟩
  · rw [hunit]
    refine ⟨by simp [UnitFile.PrependComment], ?_⟩
    intro groupName hne
    simp [UnitFile.PrependComment, hne]
  · rw [hg]; split
    · rfl
    · split <;> rfl
  · rw [hg]
    cases hc : (generateServiceFile.created os service w).1 with
    | some e => simp
    | none =>
      cases hw : (generateServiceFile.written os service w).1 with
      | some e => simp
      | none => simp
  · intro hc
    obtain ⟨e, he⟩ := Option.ne_none_iff_exists'.mp hc
    have h2 : generateServiceFile os service w =
        ((generateServiceFile.created os service w).1,
          service.PrependComment (str "") (generateServiceFile.banner os),
          (generateServiceFile.created os service w).2) := by
      rw [hg, he]; rfl
    rw [h2]
    refine ⟨rfl, ?_, ?_⟩
    · obtain ⟨evs, ht, hl, _⟩ := Debugf_trace os (str "writing '" ++ service.Path ++ str "'") w
      simp only [generateServiceFile.created, World.call, ht, fsWrites_append,
        fsWrites_log evs hl]
      simp [fsWrites, Event.isWrite]
    · obtain ⟨evs, ht, hl, _⟩ := Debugf_trace os (str "writing '" ++ service.Path ++ str "'") w
      simp only [generateServiceFile.created, World.call, ht, writeCalls_append,
        writeCalls_log evs hl]
      simp [writeCalls]
  · intro data hc hd
    obtain ⟨evs, ht, hl, _⟩ := Debugf_trace os (str "writing '" ++ service.Path ++ str "'") w
    have hcr : writeCalls (generateServiceFile.created os service w).2.trace =
        writeCalls w.trace := by
      simp only [generateServiceFile.created, World.call, ht, writeCalls_append,
        writeCalls_log evs hl]
      simp [writeCalls]
    have hwr : writeCalls (generateServiceFile.written os service w).2.trace =
        writeCalls w.trace ++ [(service.Path, data)] := by
      have hd2 : (service.PrependComment (str "") (generateServiceFile.banner os)).ToString =
          .ok data := hd
      simp only [generateServiceFile.written, UnitFile.Write, hd2, World.call,
        writeCalls_append, hcr]
      simp [writeCalls]
    have hsy : writeCalls (generateServiceFile.synced os service w).2.trace =
        writeCalls w.trace ++ [(service.Path, data)] := by
      simp only [generateServiceFile.synced, World.call, writeCalls_append, hwr]
      simp [writeCalls]
    rw [hg, hc]
    simp only [Option.isSome_none, Bool.false_eq_true, if_false]
    split
    · simp only [writeCalls_append, hwr]
      simp [writeCalls]
    · simp only [writeCalls_append, hsy]
      simp [writeCalls]

/-! ## `strings.Split` at a single byte -/

theorem split_at_first (c : UInt8) (s : GoString) (h : c ∈ s) :
    s = s.takeWhile (fun b => b != c) ++
      c :: s.drop ((s.takeWhile (fun b => b != c)).length + 1) := by
  induction s with
  | nil => simp at h
  | cons a s ih =>
    by_cases hac : a = c
    · subst hac
      simp [List.takeWhile]
    · have hmem : c ∈ s := by
        rcases List.mem_cons.mp h with h | h
        · exact absurd h.symm hac
        · exact h
      have hne : (a != c) = true := by simpa using hac
      simp only [List.takeWhile, hne, List.cons_append, List.length_cons, List.drop_succ_cons]
      exact congrArg _ (ih hmem)

theorem not_mem_takeWhile_ne (c : UInt8) (s : GoString) :
    c ∉ s.takeWhile (fun b => b != c) := by
  intro h
  have := List.mem_takeWhile_imp h
  simp at this

theorem Join_cons_cons (a e : GoString) (es : List GoString) (sep : GoString) :
    strings.Join (a :: e :: es) sep = a ++ sep ++ strings.Join (e :: es) sep := by
  have key : ∀ (es : List GoString) (p q : GoString),
      es.foldl (fun b x => b ++ sep ++ x) (p ++ q) =
        p ++ es.foldl (fun b x => b ++ sep ++ x) q := by
    intro es
    induction es with
    | nil => intro p q; rfl
    | cons x es ih =>
      intro p q
      simp only [List.foldl_cons]
      rw [List.append_assoc p q sep, List.append_assoc p (q ++ sep) x, ih]
  simp only [strings.Join, List.foldl_cons]
  rw [key es (a ++ sep) e]

/-- The loop of `strings.Split` at a single byte, with enough fuel: the result is not
empty, joining it with the byte gives back the string, no piece contains the byte, and
there is one piece more than there are instances of the byte. -/
theorem Split_loop_single (c : UInt8) (fuel : Nat) (s : GoString) (h : s.length ≤ fuel) :
    strings.Split.loop [c] fuel s ≠ [] ∧
    strings.Join (strings.Split.loop [c] fuel s) [c] = s ∧
    (∀ x ∈ strings.Split.loop [c] fuel s, c ∉ x) ∧
    (strings.Split.loop [c] fuel s).length = s.count c + 1 := by
  induction fuel generalizing s with
  | zero =>
    have hs : s = [] := List.length_eq_zero.mp (Nat.le_zero.mp h)
    subst hs
    simp [strings.Split.loop, strings.Join]
  | succ fuel ih =>
    rw [strings.Split.loop]
    by_cases hc : c ∈ s
    · have hi : strings.Index s [c] = ((s.takeWhile (fun b => b != c)).length : Int) := by
        rw [strings.Index, indexFrom_single, if_pos hc]; simp
      have hdec := split_at_first c s hc
      have hlen : (s.drop ((s.takeWhile (fun b => b != c)).length + 1)).length ≤ fuel := by
        have h2 := congrArg List.length hdec
        rw [List.length_append, List.length_cons] at h2
        omega
      obtain ⟨i1, i2, i3, i4⟩ := ih _ hlen
      have hneg : ¬ ((s.takeWhile (fun b => b != c)).length : Int) < 0 := by omega
      simp only [hi, hneg, if_false, Int.toNat_ofNat, List.length_singleton]
      have htake : s.take (s.takeWhile (fun b => b != c)).length =
          s.takeWhile (fun b => b != c) := by
        have := take_Index_single c s hc
        rw [hi] at this
        simpa using this
      rw [htake]
      refine ⟨by simp, ?_, ?_, ?_⟩
      · cases hr : strings.Split.loop [c] fuel
            (s.drop ((s.takeWhile (fun b => b != c)).length + 1)) with
        | nil => exact absurd hr i1
        | cons e es =>
          rw [Join_cons_cons, ← hr, i2]
          simpa using hdec.symm
      · intro x hx
        rcases List.mem_cons.mp hx with hx | hx
        · rw [hx]; exact not_mem_takeWhile_ne c s
        · exact i3 x hx
      · rw [List.length_cons, i4]
        conv_rhs => rw [hdec]
        rw [List.count_append, List.count_cons_self,
          List.count_eq_zero_of_not_mem (not_mem_takeWhile_ne c s)]
        omega
    · have hi : strings.Index s [c] = -1 := (Index_single_eq_neg_one c s).2 hc
      simp only [hi]
      simp [strings.Join, hc, List.count_eq_zero_of_not_mem hc]

theorem str_colon : str ":" = [byte ':'] := by decide

/-- C24. When `QUADLET_UNIT_DIRS` is not empty, `getUnitDirs` returns, in rootless and in
system mode alike, the result of `strings.Split(value, ":")` and does nothing else; the
user and the configuration directory play no part. The result is the list of the pieces of
the value between its colons, in order, empty pieces kept: it is never empty, joining it
with `:` gives back the value, no piece contains a `:`, and there is one piece more than
there are colons. -/
theorem getUnitDirs_env {σ : Type} (os : OS σ) (rootless : Bool) (w : World σ)
    (henv : os.Getenv (str "QUADLET_UNIT_DIRS") ≠ []) :
    getUnitDirs os rootless w =
      (strings.Split (os.Getenv (str "QUADLET_UNIT_DIRS")) (str ":"), w) ∧
    (getUnitDirs os rootless w).1 ≠ [] ∧
    strings.Join (getUnitDirs os rootless w).1 (str ":") =
      os.Getenv (str "QUADLET_UNIT_DIRS") ∧
    (∀ d ∈ (getUnitDirs os rootless w).1, byte ':' ∉ d) ∧
    (getUnitDirs os rootless w).1.length =
      (os.Getenv (str "QUADLET_UNIT_DIRS")).count (byte ':') + 1 ∧
    (∀ (os2 : OS σ) (rootless2 : Bool),
      os2.Getenv (str "QUADLET_UNIT_DIRS") = os.Getenv (str "QUADLET_UNIT_DIRS") →
      getUnitDirs os2 rootless2 w = getUnitDirs os rootless w) := by
  have hpos : (os.Getenv (str "QUADLET_UNIT_DIRS")).length > 0 :=
    List.length_pos.mpr henv
  have hg : ∀ (o : OS σ) (r : Bool),
      o.Getenv (str "QUADLET_UNIT_DIRS") = os.Getenv (str "QUADLET_UNIT_DIRS") →
      getUnitDirs o r w = (strings.Split (os.Getenv (str "QUADLET_UNIT_DIRS")) (str ":"), w) := by
    intro o r ho
    unfold getUnitDirs
    simp only [ho, hpos, if_true]
  obtain ⟨s1, s2, s3, s4⟩ := Split_loop_single (byte ':')
    (os.Getenv (str "QUADLET_UNIT_DIRS")).length (os.Getenv (str "QUADLET_UNIT_DIRS"))
    (le_refl _)
  rw [hg os rootless rfl]
  simp only [strings.Split, str_colon]
  exact ⟨trivial, s1, s2, s3, s4, fun os2 r2 h => by
    rw [hg os2 r2 h]; simp only [strings.Split, str_colon]⟩

set_option maxRecDepth 100000 in
theorem getUnitDirs_env_witness :
    getUnitDirs (envStore (str "/tmp/a::/tmp/b")) true (World.start []) =
      ([str "/tmp/a", str "", str "/tmp/b"], World.start []) := by
  rw [(getUnitDirs_env (envStore (str "/tmp/a::/tmp/b")) true (World.start [])
    (by decide)).1]
  decide

/-- C25. When `QUADLET_UNIT_DIRS` is unset or empty and the generator is rootless,
`getUnitDirs` returns, in this order, `path.Join(configDir, "containers/systemd")`,
`filepath.Join(UnitDirAdmin, "users", uid)` and `filepath.Join(UnitDirAdmin, "users")`.
When the current user cannot be determined the entry of the uid is left out and the other
two are returned in the same order; when the configuration directory of the user cannot be
determined no directory is returned. -/
theorem getUnitDirs_rootless {σ : Type} (os : OS σ) (w : World σ)
    (henv : os.Getenv (str "QUADLET_UNIT_DIRS") = []) :
    (∀ configDir uid, os.UserConfigDir = .ok configDir → os.CurrentUid = .ok uid →
      getUnitDirs os true w =
        ([path.Join [configDir, str "containers/systemd"],
          filepath.Join [quadlet.UnitDirAdmin, str "users", uid],
          filepath.Join [quadlet.UnitDirAdmin, str "users"]], w)) ∧
    (∀ configDir err, os.UserConfigDir = .ok configDir → os.CurrentUid = .error err →
      (getUnitDirs os true w).1 =
        [path.Join [configDir, str "containers/systemd"],
          filepath.Join [quadlet.UnitDirAdmin, str "users"]]) ∧
    (∀ err, os.UserConfigDir = .error err → (getUnitDirs os true w).1 = []) := by
  refine ⟨?_, ?_, ?_⟩
  · intro configDir uid hc hu
    unfold getUnitDirs
    simp [henv, hc, hu]
  · intro configDir err hc hu
    unfold getUnitDirs
    simp [henv, hc, hu]
  · intro err hc
    unfold getUnitDirs
    simp [henv, hc]

set_option maxRecDepth 100000 in
theorem getUnitDirs_rootless_witness :
    getUnitDirs (envStore []) true (World.start []) =
      ([str "/home/u/.config/containers/systemd", str "/etc/containers/systemd/users/1000",
        str "/etc/containers/systemd/users"], World.start []) := by
  rw [(getUnitDirs_rootless (envStore []) (World.start []) rfl).1
    (str "/home/u/.config") (str "1000") rfl rfl]
  decide

/-! ## The helpers of the end-to-end tests -/

/-- The number that `rng.Intn(total/nProcs)*nProcs + myProc` computes: for a positive
number of processes not above `total` it is defined, lies in `[0, total)` and is congruent
to `myProc` modulo `nProcs`. -/
theorem spread (total n p : Int) (pick : Nat) (hn1 : 1 ≤ n) (hn2 : n ≤ total)
    (hp0 : 0 ≤ p) (hp1 : p < n) :
    ∃ r, rand.Intn pick (total.tdiv n) = some r ∧ 0 ≤ r ∧ r < total.tdiv n ∧
      0 ≤ r * n + p ∧ r * n + p < total ∧ (r * n + p) % n = p := by
  have ht : total.tdiv n = total / n := Int.tdiv_eq_ediv (by omega) (by omega)
  have hk : 1 ≤ total / n := by
    have := Int.lt_ediv_add_one_mul_self total (show 0 < n by omega)
    by_contra hlt
    have h0 : total / n ≤ 0 := by omega
    have : (total / n + 1) * n ≤ 1 * n :=
      Int.mul_le_mul_of_nonneg_right (by omega) (by omega)
    omega
  have hmod0 : 0 ≤ (pick : Int) % (total / n) := Int.emod_nonneg _ (by omega)
  have hmod1 : (pick : Int) % (total / n) < total / n := Int.emod_lt_of_pos _ (by omega)
  have hmul : (total / n) * n ≤ total := Int.ediv_mul_le total (by omega)
  refine ⟨(pick : Int) % (total / n), ?_, hmod0, by rw [ht]; exact hmod1, ?_, ?_, ?_⟩
  · unfold rand.Intn
    rw [ht, if_neg (by omega)]
  · have : 0 ≤ (pick : Int) % (total / n) * n := Int.mul_nonneg hmod0 (by omega)
    omega
  · have : ((pick : Int) % (total / n) + 1) * n ≤ (total / n) * n :=
      Int.mul_le_mul_of_nonneg_right (by omega) (by omega)
    have h2 : ((pick : Int) % (total / n) + 1) * n = (pick : Int) % (total / n) * n + n := by
      ring
    omega
  · rw [Int.add_comm, Int.add_mul_emod_self]
    exact Int.emod_eq_of_lt hp0 hp1

set_option maxRecDepth 100000 in
theorem digitsValue_Itoa_small :
    ∀ k : Nat, k < 255 → strconv.digitsValue (strconv.Itoa (k : Int)) = k := by
  decide

theorem Itoa_inj_small (a b : Int) (ha0 : 0 ≤ a) (ha : a ≤ 254) (hb0 : 0 ≤ b) (hb : b ≤ 254)
    (h : strconv.Itoa a = strconv.Itoa b) : a = b := by
  have h1 := digitsValue_Itoa_small a.toNat (by omega)
  have h2 := digitsValue_Itoa_small b.toNat (by omega)
  rw [Int.toNat_of_nonneg ha0] at h1
  rw [Int.toNat_of_nonneg hb0] at h2
  rw [h, h2] at h1
  omega

/-- C26. `GetRandomIPAddress` returns an address whose last octet is in `.0 - .254` and is
unique to the ginkgo process. For every number of parallel processes `n` with
`1 <= n <= 127`, every process index `p` with `0 <= p < n` and every choice of the random
generator, the function returns `10.88.255.` followed by the octet `r*n + p`, where `r` is
the value of `rng.Intn((255-n)/n)`, with `0 <= r < (255-n)/n`; the octet lies between 0 and
254 and is congruent to `p` modulo `n`, and so it is for every `r` in that range. Another
process index of the same run never gives the same address. -/
theorem GetRandomIPAddress_octet (n p : Int) (pick : Nat) (hn1 : 1 ≤ n) (hn2 : n ≤ 127)
    (hp0 : 0 ≤ p) (hp1 : p < n) :
    (∃ r octet, rand.Intn pick ((255 - n).tdiv n) = some r ∧
      0 ≤ r ∧ r < (255 - n).tdiv n ∧ octet = r * n + p ∧
      GetRandomIPAddress.octet n (p + 1) pick = some octet ∧
      GetRandomIPAddress n (p + 1) pick = some (str "10.88.255." ++ strconv.Itoa octet) ∧
      0 ≤ octet ∧ octet ≤ 254 ∧ octet % n = p) ∧
    (∀ r : Int, 0 ≤ r → r < (255 - n).tdiv n →
      0 ≤ r * n + p ∧ r * n + p ≤ 254 ∧ (r * n + p) % n = p ∧
      rand.Intn r.toNat ((255 - n).tdiv n) = some r) ∧
    (∀ (q : Int) (pick2 : Nat), 0 ≤ q → q < n → q ≠ p →
      GetRandomIPAddress.octet n (q + 1) pick2 ≠ GetRandomIPAddress.octet n (p + 1) pick ∧
      GetRandomIPAddress n (q + 1) pick2 ≠ GetRandomIPAddress n (p + 1) pick) := by
  have hoct : ∀ (p : Int) (pick : Nat), 0 ≤ p → p < n →
      ∃ octet, GetRandomIPAddress.octet n (p + 1) pick = some octet ∧
        GetRandomIPAddress n (p + 1) pick = some (str "10.88.255." ++ strconv.Itoa octet) ∧
        0 ≤ octet ∧ octet ≤ 254 ∧ octet % n = p ∧
        ∃ r, rand.Intn pick ((255 - n).tdiv n) = some r ∧ 0 ≤ r ∧
          r < (255 - n).tdiv n ∧ octet = r * n + p := by
    intro p pick hp0 hp1
    obtain ⟨r, h1, h2, h3, h4, h5, h6⟩ := spread (255 - n) n p pick hn1 (by omega) hp0 hp1
    have ho : GetRandomIPAddress.octet n (p + 1) pick = some (r * n + p) := by
      simp only [GetRandomIPAddress.octet, h1]
      congr 1
      ring
    exact ⟨r * n + p, ho, by simp only [GetRandomIPAddress, ho], h4, by omega, h6,
      r, h1, h2, h3, rfl⟩
  refine ⟨?_, ?_, ?_⟩
  · obtain ⟨octet, h1, h2, h3, h4, h5, r, h6, h7, h8, h9⟩ := hoct p pick hp0 hp1
    exact ⟨r, octet, h6, h7, h8, h9, h1, h2, h3, h4, h5⟩
  · intro r hr0 hr1
    obtain ⟨r2, h1, h2, h3, h4, h5, h6⟩ := spread (255 - n) n p r.toNat hn1 (by omega) hp0 hp1
    have hr : ((r.toNat : Nat) : Int) = r := Int.toNat_of_nonneg hr0
    have hpick : rand.Intn r.toNat ((255 - n).tdiv n) = some r := by
      unfold rand.Intn
      rw [if_neg (by omega), hr, Int.emod_eq_of_lt hr0 hr1]
    rw [hpick] at h1
    cases h1
    exact ⟨h4, by omega, h6, hpick⟩
  · intro q pick2 hq0 hq1 hqp
    obtain ⟨o1, a1, a2, a3, a4, a5, _⟩ := hoct p pick hp0 hp1
    obtain ⟨o2, b1, b2, b3, b4, b5, _⟩ := hoct q pick2 hq0 hq1
    have hne : o2 ≠ o1 := by
      intro h
      rw [h, a5] at b5
      exact hqp b5.symm
    refine ⟨by rw [a1, b1]; exact fun h => hne (Option.some.inj h), ?_⟩
    rw [a2, b2]
    intro h
    exact hne (Itoa_inj_small o2 o1 b3 b4 a3 a4 (List.append_cancel_left (Option.some.inj h)))

set_option maxRecDepth 100000 in
theorem GetRandomIPAddress_octet_witness :
    ∃ r octet, rand.Intn 7 ((255 - 3 : Int).tdiv 3) = some r ∧
      0 ≤ r ∧ r < (255 - 3 : Int).tdiv 3 ∧ octet = r * 3 + 2 ∧
      GetRandomIPAddress.octet 3 (2 + 1) 7 = some octet ∧
      GetRandomIPAddress 3 (2 + 1) 7 = some (str "10.88.255." ++ strconv.Itoa octet) ∧
      0 ≤ octet ∧ octet ≤ 254 ∧ octet % 3 = 2 :=
  (GetRandomIPAddress_octet 3 2 7 (by decide) (by decide) (by decide) (by decide)).1

/-- What `GetPort` returns, when it returns a port, is the port tried in some iteration;
the loop ends without a panic when every iteration computes a port. -/
theorem GetPort_loop_spec (n pp : Int) (picks : Nat → Nat) (free : Nat → Int → Bool)
    (hport : ∀ pick, GetPort.port n pp pick ≠ none) (fuel i : Nat) :
    GetPort.loop n pp picks free fuel i ≠ none ∧
    ∀ port, GetPort.loop n pp picks free fuel i = some (some port) →
      ∃ j, GetPort.port n pp (picks j) = some port := by
  induction fuel generalizing i with
  | zero =>
    refine ⟨by simp [GetPort.loop], ?_⟩
    intro port h
    simp [GetPort.loop] at h
  | succ fuel ih =>
    rw [GetPort.loop]
    cases hp : GetPort.port n pp (picks i) with
    | none => exact absurd hp (hport _)
    | some port0 =>
      simp only []
      by_cases hf : free i port0 = true
      · simp only [hf, if_true]
        refine ⟨by simp, ?_⟩
        intro port h
        cases h
        exact ⟨i, hp⟩
      · simp only [hf, if_false]
        exact ih (i + 1)

/-- C27. `GetPort` only proposes ports in the range 5000-5999 and avoids duplicate
allocation between parallel processes. For every number of parallel processes `n` with
`1 <= n <= 999`, every process index `p` with `0 <= p < n` and every choice of the random
generator, the port tried is `5000 + r*n + p`, where `r` is the value of
`rng.Intn(999/n)`, with `0 <= r < 999/n`; it satisfies `5000 <= port <= 5999` and
`port - 5000` is congruent to `p` modulo `n`. `GetPort` ends without a panic, and a port it
returns is one it tried. Another process index never tries the same port. -/
theorem GetPort_range (n p : Int) (hn1 : 1 ≤ n) (hn2 : n ≤ 999) (hp0 : 0 ≤ p) (hp1 : p < n) :
    (∀ pick : Nat, ∃ r port, rand.Intn pick ((5999 - 5000 : Int).tdiv n) = some r ∧
      0 ≤ r ∧ r < (999 : Int).tdiv n ∧ port = 5000 + r * n + p ∧
      GetPort.port n (p + 1) pick = some port ∧
      5000 ≤ port ∧ port ≤ 5999 ∧ (port - 5000) % n = p) ∧
    (∀ r : Int, 0 ≤ r → r < (999 : Int).tdiv n →
      5000 ≤ 5000 + r * n + p ∧ 5000 + r * n + p ≤ 5999 ∧
      (5000 + r * n + p - 5000) % n = p ∧ rand.Intn r.toNat ((999 : Int).tdiv n) = some r) ∧
    (∀ (picks : Nat → Nat) (free : Nat → Int → Bool),
      GetPort n (p + 1) picks free ≠ none ∧
      ∀ port, GetPort n (p + 1) picks free = some (some port) →
        5000 ≤ port ∧ port ≤ 5999 ∧ (port - 5000) % n = p) ∧
    (∀ (q : Int) (pick pick2 : Nat), 0 ≤ q → q < n → q ≠ p →
      GetPort.port n (q + 1) pick2 ≠ GetPort.port n (p + 1) pick) := by
  have hport : ∀ (p : Int) (pick : Nat), 0 ≤ p → p < n →
      ∃ r, rand.Intn pick ((999 : Int).tdiv n) = some r ∧ 0 ≤ r ∧ r < (999 : Int).tdiv n ∧
        GetPort.port n (p + 1) pick = some (5000 + r * n + p) ∧
        5000 ≤ 5000 + r * n + p ∧ 5000 + r * n + p ≤ 5999 ∧
        (5000 + r * n + p - 5000) % n = p := by
    intro p pick hp0 hp1
    obtain ⟨r, h1, h2, h3, h4, h5, h6⟩ := spread 999 n p pick hn1 hn2 hp0 hp1
    have h999 : (5999 - 5000 : Int) = 999 := by norm_num
    have ho : GetPort.port n (p + 1) pick = some (5000 + r * n + p) := by
      simp only [GetPort.port, h999, h1]
      congr 1
      ring
    have hsub : 5000 + r * n + p - 5000 = r * n + p := by ring
    exact ⟨r, h1, h2, h3, ho, by omega, by omega, by rw [hsub]; exact h6⟩
  have h999 : (5999 - 5000 : Int) = 999 := by norm_num
  refine ⟨?_, ?_, ?_, ?_⟩
  · intro pick
    obtain ⟨r, h1, h2, h3, h4, h5, h6, h7⟩ := hport p pick hp0 hp1
    exact ⟨r, _, by rw [h999]; exact h1, h2, h3, rfl, h4, h5, h6, h7⟩
  · intro r hr0 hr1
    obtain ⟨r2, h1, h2, h3, h4, h5, h6, h7⟩ := hport p r.toNat hp0 hp1
    have hr : ((r.toNat : Nat) : Int) = r := Int.toNat_of_nonneg hr0
    have hpick : rand.Intn r.toNat ((999 : Int).tdiv n) = some r := by
      unfold rand.Intn
      rw [if_neg (by omega), hr, Int.emod_eq_of_lt hr0 hr1]
    rw [hpick] at h1
    cases h1
    exact ⟨h5, h6, h7, hpick⟩
  · intro picks free
    have hne : ∀ pick, GetPort.port n (p + 1) pick ≠ none := by
      intro pick
      obtain ⟨r, _, _, _, h4, _⟩ := hport p pick hp0 hp1
      rw [h4]; simp
    obtain ⟨g1, g2⟩ := GetPort_loop_spec n (p + 1) picks free hne 50 0
    refine ⟨g1, ?_⟩
    intro port h
    obtain ⟨j, hj⟩ := g2 port h
    obtain ⟨r, _, _, _, h4, h5, h6, h7⟩ := hport p (picks j) hp0 hp1
    rw [h4] at hj
    cases hj
    exact ⟨h5, h6, h7⟩
  · intro q pick pick2 hq0 hq1 hqp
    obtain ⟨r1, _, _, _, a4, _, _, a7⟩ := hport p pick hp0 hp1
    obtain ⟨r2, _, _, _, b4, _, _, b7⟩ := hport q pick2 hq0 hq1
    rw [a4, b4]
    intro h
    have h2 := Option.some.inj h
    rw [h2, a7] at b7
    exact hqp b7.symm

theorem GetPort_range_witness :
    ∃ r port, rand.Intn 12345 ((5999 - 5000 : Int).tdiv 4) = some r ∧
      0 ≤ r ∧ r < (999 : Int).tdiv 4 ∧ port = 5000 + r * 4 + 1 ∧
      GetPort.port 4 (1 + 1) 12345 = some port ∧
      5000 ≤ port ∧ port ≤ 5999 ∧ (port - 5000) % 4 = 1 :=
  (GetPort_range 4 1 (by decide) (by decide) (by decide) (by decide)).1 12345

/-! ## Image names with a `/` -/

theorem ite_pred {α : Type} {P : α → Prop} {b : Prop} [Decidable b] {p q : α}
    (hp : b → P p) (hq : ¬ b → P q) : P (if b then p else q) := by
  split
  · exact hp ‹_›
  · exact hq ‹_›

theorem ge_of_not_lt_lo (b0 b1 : Nat)
    (h : ¬ (b1 < (if b0 = 0xE0 then 0xA0 else if b0 = 0xF0 then 0x90 else 0x80) ∨
      (if b0 = 0xED then 0x9F else if b0 = 0xF4 then 0x8F else 0xBF) < b1)) :
    0x80 ≤ b1 := by
  have h1 := (not_or.mp h).1
  split at h1
  · omega
  · split at h1 <;> omega

theorem slash_of_mem_cons (a : UInt8) (t : GoString) (h : byte '/' ∈ a :: t)
    (ha : 0x80 ≤ a.toNat) : byte '/' ∈ t := by
  rcases List.mem_cons.mp h with h | h
  · rw [← h] at ha
    exact absurd ha (by decide)
  · exact h

/-- Decoding a rune that does not start at a `/` does not consume a `/`. -/
theorem Decode_drop_slash (c : UInt8) (cs : GoString) (h : byte '/' ∈ cs) :
    byte '/' ∈ (c :: cs).drop (utf8.DecodeRuneInString (c :: cs)).2 := by
  have w1 : byte '/' ∈ (c :: cs).drop 1 := by simpa using h
  unfold utf8.DecodeRuneInString
  apply ite_pred (P := fun r : Rune × Nat => byte '/' ∈ (c :: cs).drop r.2) (fun _ => w1)
  intro _
  apply ite_pred (P := fun r : Rune × Nat => byte '/' ∈ (c :: cs).drop r.2) (fun _ => w1)
  intro _
  apply ite_pred (P := fun r : Rune × Nat => byte '/' ∈ (c :: cs).drop r.2) (fun _ => w1)
  intro _
  cases cs with
  | nil => exact w1
  | cons s1 t1 =>
    apply ite_pred (P := fun r : Rune × Nat => byte '/' ∈ (c :: s1 :: t1).drop r.2)
      (fun _ => w1)
    intro hb1
    have h1 : byte '/' ∈ t1 := slash_of_mem_cons s1 t1 h (ge_of_not_lt_lo _ _ hb1)
    apply ite_pred (P := fun r : Rune × Nat => byte '/' ∈ (c :: s1 :: t1).drop r.2)
      (fun _ => by simpa using h1)
    intro _
    cases t1 with
    | nil => exact w1
    | cons s2 t2 =>
      apply ite_pred (P := fun r : Rune × Nat => byte '/' ∈ (c :: s1 :: s2 :: t2).drop r.2)
        (fun _ => w1)
      intro hb2
      have h2 : byte '/' ∈ t2 := slash_of_mem_cons s2 t2 h1 (by omega)
      apply ite_pred (P := fun r : Rune × Nat => byte '/' ∈ (c :: s1 :: s2 :: t2).drop r.2)
        (fun _ => by simpa using h2)
      intro _
      cases t2 with
      | nil => exact w1
      | cons s3 t3 =>
        apply ite_pred
          (P := fun r : Rune × Nat => byte '/' ∈ (c :: s1 :: s2 :: s3 :: t3).drop r.2)
          (fun _ => w1)
        intro hb3
        have h3 : byte '/' ∈ t3 := slash_of_mem_cons s3 t3 h2 (by omega)
        simpa using h3

/-- The loop `for _, c := range s` visits the rune `/` when `s` contains the byte `/`. -/
theorem slash_mem_rangeAux (fuel : Nat) (s : GoString) (hf : s.length ≤ fuel)
    (h : byte '/' ∈ s) : (0x2F : Rune) ∈ utf8.rangeAux fuel s := by
  induction fuel generalizing s with
  | zero =>
    have : s = [] := List.length_eq_zero.mp (Nat.le_zero.mp hf)
    subst this
    simp at h
  | succ fuel ih =>
    cases s with
    | nil => simp at h
    | cons c cs =>
      rw [utf8.rangeAux]
      by_cases hc : c = byte '/'
      · subst hc
        have hd : utf8.DecodeRuneInString (byte '/' :: cs) = ((byte '/').toNat, 1) :=
          DecodeRuneInString_ascii (byte '/') cs (by decide)
        simp only [hd]
        exact List.mem_cons_self _ _
      · have hcs : byte '/' ∈ cs := by
          rcases List.mem_cons.mp h with h | h
          · exact absurd h.symm hc
          · exact h
        have hw := DecodeRuneInString_width c cs
        have hlen : ((c :: cs).drop (utf8.DecodeRuneInString (c :: cs)).2).length ≤ fuel := by
          rw [List.length_drop, List.length_cons]
          simp only [List.length_cons] at hf
          omega
        exact List.mem_cons_of_mem _ (ih _ hlen (Decode_drop_slash c cs hcs))

/-- An image ID that contains a `/` starts with `sha256:`, so its first component
contains a `:`. -/
theorem isImageID_slash (s : GoString) (hs : byte '/' ∈ s) (hid : isImageID s = true) :
    byte ':' ∈ firstComponent s := by
  unfold isImageID at hid
  by_cases hp : strings.HasPrefix s (str "sha256:") = true
  · have h7 : (str "sha256:").length = 7 := by decide
    simp only [strings.HasPrefix, h7, Bool.and_eq_true, decide_eq_true_eq, beq_iff_eq] at hp
    have hsplit : s = str "sha256:" ++ s.drop 7 := by
      conv_lhs => rw [← List.take_append_drop 7 s, hp.2]
    rw [hsplit]
    have : firstComponent (str "sha256:" ++ s.drop 7) =
        str "sha256:" ++ firstComponent (s.drop 7) := by
      unfold firstComponent
      have hstr : str "sha256:" = [115, 104, 97, 50, 53, 54, 58] := by decide
      have hb : byte '/' = 47 := by decide
      rw [hstr, hb]
      simp [List.takeWhile]
    rw [this]
    exact List.mem_append_left _ (by decide)
  · simp only [hp, if_false, Bool.false_eq_true] at hid
    split at hid
    · cases hid
    · rw [isImageID_loop_eq_all] at hid
      have hm := slash_mem_rangeAux s.length s (le_refl _) hs
      have := List.all_eq_true.mp hid _ hm
      exact absurd this (by decide)

/-- C28. For every image name that contains a `/` the image-ID test is redundant:
`isUnambiguousName` equals the domain test alone, which asks whether the part before the
first `/` contains `.` or `:` or is exactly `localhost`. So two names that contain a `/` and
have the same first component get the same classification. -/
theorem isUnambiguousName_slash (s : GoString) (hs : byte '/' ∈ s) :
    isUnambiguousName s =
      (decide (byte '.' ∈ firstComponent s) || decide (byte ':' ∈ firstComponent s) ||
        decide (firstComponent s = str "localhost")) ∧
    (isImageID s = true → byte ':' ∈ firstComponent s) ∧
    (∀ t : GoString, byte '/' ∈ t → firstComponent t = firstComponent s →
      isUnambiguousName t = isUnambiguousName s) := by
  have key : ∀ s : GoString, byte '/' ∈ s → isUnambiguousName s =
      (decide (byte '.' ∈ firstComponent s) || decide (byte ':' ∈ firstComponent s) ||
        decide (firstComponent s = str "localhost")) := by
    intro s hs
    by_cases hid : isImageID s = true
    · have hc := isImageID_slash s hs hid
      simp [isUnambiguousName, hid, hc]
    · have hb : byte '/' = 47 := by decide
      have hs47 : (47 : UInt8) ∈ s := hb ▸ hs
      have h1 : ¬ strings.Index s [47] = -1 := by
        rw [Index_single_eq_neg_one]; exact fun h => h hs47
      have hfc : firstComponent s = s.takeWhile (fun b => b != 47) := by
        rw [firstComponent, hb]
      unfold isUnambiguousName
      simp only [hid, if_false, Bool.false_eq_true]
      rw [str_slash]
      simp only [beq_iff_eq, h1, if_false]
      rw [take_Index_single 47 s hs47, ← hfc]
      have hca := ContainsAny_dot_colon (firstComponent s)
      by_cases hd : byte '.' ∈ firstComponent s ∨ byte ':' ∈ firstComponent s
      · have h2 := hca.mpr hd
        rcases hd with hd | hd <;> simp [h2, hd]
      · have h2 : strings.ContainsAny (firstComponent s) (str ".:") = false := by
          cases hx : strings.ContainsAny (firstComponent s) (str ".:") with
          | true => exact absurd (hca.mp hx) hd
          | false => rfl
        have hd1 := (not_or.mp hd).1
        have hd2 := (not_or.mp hd).2
        by_cases hl : firstComponent s = str "localhost"
        · simp [h2, hl]
        · simp [h2, hd1, hd2, hl]
  refine ⟨key s hs, isImageID_slash s hs, ?_⟩
  intro t ht hfc
  rw [key t ht, key s hs, hfc]

set_option maxRecDepth 100000 in
theorem isUnambiguousName_slash_witness :
    isUnambiguousName (str "quay.io/fedora") =
      (decide (byte '.' ∈ firstComponent (str "quay.io/fedora")) ||
        decide (byte ':' ∈ firstComponent (str "quay.io/fedora")) ||
        decide (firstComponent (str "quay.io/fedora") = str "localhost")) :=
  (isUnambiguousName_slash (str "quay.io/fedora") (by decide)).1

/-! ## The choice of the converter -/

theorem HasSuffix_iff (s suf : GoString) :
    strings.HasSuffix s suf = true ↔ ∃ pre, s = pre ++ suf := by
  unfold strings.HasSuffix
  simp only [Bool.and_eq_true, decide_eq_true_eq, beq_iff_eq]
  constructor
  · rintro ⟨_, h2⟩
    refine ⟨s.take (s.length - suf.length), ?_⟩
    conv_lhs => rw [← List.take_append_drop (s.length - suf.length) s, h2]
  · rintro ⟨pre, rfl⟩
    refine ⟨by simp, ?_⟩
    simp

theorem Ext_loop_body (b rest suf : GoString) (h1 : byte '.' ∉ b) (h2 : byte '/' ∉ b) :
    filepath.Ext.loop (b ++ byte '.' :: rest) suf = byte '.' :: (b.reverse ++ suf) := by
  induction b generalizing suf with
  | nil =>
    have hne : ¬ byte '.' = filepath.Separator := by decide
    simp [filepath.Ext.loop, hne]
  | cons c b ih =>
    have hc1 : ¬ c = byte '.' := fun e => h1 (e ▸ List.mem_cons_self _ _)
    have hc2 : ¬ c = filepath.Separator := fun e => h2 (by
      rw [e]; exact List.mem_cons_self _ _)
    rw [List.cons_append, filepath.Ext.loop, if_neg hc2, if_neg hc1,
      ih _ (fun h => h1 (List.mem_cons_of_mem _ h)) (fun h => h2 (List.mem_cons_of_mem _ h))]
    simp

/-- The extension of a name that ends in a `.` followed by bytes other than `.` and `/` is
that ending. -/
theorem Ext_append (pre body : GoString) (h1 : byte '.' ∉ body) (h2 : byte '/' ∉ body) :
    filepath.Ext (pre ++ byte '.' :: body) = byte '.' :: body := by
  unfold filepath.Ext
  rw [List.reverse_append, List.reverse_cons, List.append_assoc, List.singleton_append,
    Ext_loop_body body.reverse pre.reverse [] (by simpa using h1) (by simpa using h2)]
  simp

theorem Ext_loop_suffix (r suf : GoString) :
    ∃ pre, r.reverse ++ suf = pre ++ filepath.Ext.loop r suf := by
  induction r generalizing suf with
  | nil => exact ⟨suf, by simp [filepath.Ext.loop]⟩
  | cons c r ih =>
    rw [filepath.Ext.loop]
    split
    · exact ⟨_, (List.append_nil _).symm⟩
    · split
      · exact ⟨r.reverse, by simp⟩
      · obtain ⟨pre, h⟩ := ih (c :: suf)
        exact ⟨pre, by rw [← h]; simp⟩

/-- The extension of a name is an ending of the name. -/
theorem Ext_suffix (name : GoString) : ∃ pre, name = pre ++ filepath.Ext name := by
  obtain ⟨pre, h⟩ := Ext_loop_suffix name.reverse []
  exact ⟨pre, by rw [filepath.Ext, ← h]; simp⟩

/-- A suffix test of the `switch` of `main` holds exactly when the extension of the name is
the suffix tested. -/
theorem HasSuffix_iff_Ext (name ext : GoString) (h : ext ∈ supportedExtensions) :
    strings.HasSuffix name ext = true ↔ filepath.Ext name = ext := by
  have hshape : ∃ body, ext = byte '.' :: body ∧ byte '.' ∉ body ∧ byte '/' ∉ body := by
    simp only [supportedExtensions, List.mem_cons, List.mem_singleton, List.not_mem_nil,
      or_false] at h
    rcases h with rfl | rfl | rfl | rfl
    · exact ⟨str "container", by decide, by decide, by decide⟩
    · exact ⟨str "volume", by decide, by decide, by decide⟩
    · exact ⟨str "kube", by decide, by decide, by decide⟩
    · exact ⟨str "network", by decide, by decide, by decide⟩
  obtain ⟨body, rfl, hb1, hb2⟩ := hshape
  rw [HasSuffix_iff]
  constructor
  · rintro ⟨pre, rfl⟩
    exact Ext_append pre body hb1 hb2
  · intro he
    obtain ⟨pre, hp⟩ := Ext_suffix name
    exact ⟨pre, by rw [← he]; exact hp⟩

theorem load_from_supported {σ : Type} (os : OS σ) (dirs : List GoString)
    (st : Units × World σ) (h : ∀ e ∈ st.1, isExtSupported e.1 = true) :
    ∀ e ∈ (dirs.foldl (fun st d => loadUnitsFromDir os d st) st).1,
      isExtSupported e.1 = true := by
  induction dirs generalizing st with
  | nil => exact h
  | cons d rest ih =>
    rw [List.foldl_cons]
    apply ih
    obtain ⟨added, names, h1, _, h3, _⟩ := loadUnitsFromDir_step os d st
    rw [h1]
    intro e he
    rcases List.mem_append.mp he with he | he
    · exact h e he
    · exact (h3 e he).2.1

/-- C29. Converter dispatch is total and unambiguous on loaded units. Every key of the map
that `main` loads satisfies `isExtSupported`. For every name, each of the four suffix
tests of the `switch` holds exactly when the extension of the name is the suffix tested, so
at most one of them holds, and for a name that satisfies `isExtSupported` exactly one does,
the one equal to the extension of the name. Hence the `switch` finds a converter for every
loaded unit, the default branch is not reached, and the converter chosen is the one of the
extension, whatever the order of the cases. -/
theorem convert_dispatch_total {σ : Type} (os : OS σ) (cv : Converters) (isUserFlag : Bool)
    (dirs : List GoString) (w : World σ) :
    (∀ e ∈ (main.load os dirs w).1, isExtSupported e.1 = true) ∧
    (∀ name ext : GoString, ext ∈ [str ".container", str ".volume", str ".kube",
        str ".network"] →
      (strings.HasSuffix name ext = true ↔ extension name = ext)) ∧
    (∀ name : GoString, isExtSupported name = true →
      ∃ ext, ext ∈ [str ".container", str ".volume", str ".kube", str ".network"] ∧
        strings.HasSuffix name ext = true ∧ ext = extension name ∧
        ∀ ext2, ext2 ∈ [str ".container", str ".volume", str ".kube", str ".network"] →
          strings.HasSuffix name ext2 = true → ext2 = ext) ∧
    (∀ (name : GoString) (unit : UnitFile),
      main.converted cv isUserFlag name unit =
        if extension name = str ".container" then some (cv.ConvertContainer unit isUserFlag)
        else if extension name = str ".volume" then some (cv.ConvertVolume unit name)
        else if extension name = str ".kube" then some (cv.ConvertKube unit isUserFlag)
        else if extension name = str ".network" then some (cv.ConvertNetwork unit name)
        else none) ∧
    (∀ e ∈ (main.load os dirs w).1, ∀ w2 : World σ,
      (main.convert os cv isUserFlag e.1 e.2 w2).1 ≠ none ∧
      ((main.convert os cv isUserFlag e.1 e.2 w2).2 = w2 ∨
        (main.convert os cv isUserFlag e.1 e.2 w2).2 = warnIfAmbiguousName os e.2 w2)) := by
  have hsfx : ∀ name ext : GoString, ext ∈ [str ".container", str ".volume", str ".kube",
      str ".network"] → (strings.HasSuffix name ext = true ↔ extension name = ext) := by
    intro name ext h
    rw [← Ext_eq_extension]
    exact HasSuffix_iff_Ext name ext h
  have hsup : ∀ e ∈ (main.load os dirs w).1, isExtSupported e.1 = true :=
    load_from_supported os dirs ([], w) (by simp)
  have hmem : ∀ name : GoString, isExtSupported name = true →
      extension name ∈ [str ".container", str ".volume", str ".kube", str ".network"] := by
    intro name h
    unfold isExtSupported at h
    rw [Ext_eq_extension] at h
    simpa [supportedExtensions] using h
  have hconv : ∀ (name : GoString) (unit : UnitFile),
      main.converted cv isUserFlag name unit =
        if extension name = str ".container" then some (cv.ConvertContainer unit isUserFlag)
        else if extension name = str ".volume" then some (cv.ConvertVolume unit name)
        else if extension name = str ".kube" then some (cv.ConvertKube unit isUserFlag)
        else if extension name = str ".network" then some (cv.ConvertNetwork unit name)
        else none := by
    intro name unit
    unfold main.converted
    have e1 := hsfx name (str ".container") (by simp)
    have e2 := hsfx name (str ".volume") (by simp)
    have e3 := hsfx name (str ".kube") (by simp)
    have e4 := hsfx name (str ".network") (by simp)
    simp only [e1, e2, e3, e4]
  refine ⟨hsup, hsfx, ?_, hconv, ?_⟩
  · intro name h
    have hm := hmem name h
    refine ⟨extension name, hm, (hsfx name _ hm).mpr rfl, rfl, ?_⟩
    intro ext2 h2 hs2
    exact ((hsfx name ext2 h2).mp hs2).symm
  · intro e he w2
    have hm := hmem e.1 (hsup e he)
    have hc := (convert_converted os cv isUserFlag e.1 e.2 w2).1
    have e1 := hsfx e.1 (str ".container") (by simp)
    have e2 := hsfx e.1 (str ".volume") (by simp)
    have e3 := hsfx e.1 (str ".kube") (by simp)
    have e4 := hsfx e.1 (str ".network") (by simp)
    simp only [List.mem_cons, List.mem_singleton, List.not_mem_nil, or_false] at hm
    rw [hc]
    unfold main.convert main.converted
    by_cases c1 : strings.HasSuffix e.1 (str ".container") = true
    · simp only [c1, if_true]
      simp
    · by_cases c2 : strings.HasSuffix e.1 (str ".volume") = true
      · simp only [c1, c2, if_true, if_false]
        simp
      · by_cases c3 : strings.HasSuffix e.1 (str ".kube") = true
        · simp only [c1, c2, c3, if_true, if_false]
          simp
        · by_cases c4 : strings.HasSuffix e.1 (str ".network") = true
          · simp only [c1, c2, c3, c4, if_true, if_false]
            simp
          · exfalso
            rcases hm with h | h | h | h
            · exact c1 (e1.mpr h)
            · exact c2 (e2.mpr h)
            · exact c3 (e3.mpr h)
            · exact c4 (e4.mpr h)

/-! ## Two runs of the loop of `main` that differ by a unit that fails to convert -/

theorem logsOnly_refl {σ : Type} (w : World σ) : logsOnly w w :=
  ⟨rfl, [], by simp, by simp⟩

theorem logsOnly_trans {σ : Type} {a b c : World σ} (h1 : logsOnly a b) (h2 : logsOnly b c) :
    logsOnly a c := by
  obtain ⟨s1, e1, t1, q1⟩ := h1
  obtain ⟨s2, e2, t2, q2⟩ := h2
  refine ⟨by rw [s2, s1], e1 ++ e2, by rw [t2, t1, List.append_assoc], ?_⟩
  intro e he
  rcases List.mem_append.mp he with h | h
  · exact q1 e h
  · exact q2 e h

theorem logToKmsg_sys {σ : Type} (os : OS σ) (hq : QuietKmsg os) (s : GoString) (w : World σ) :
    (logToKmsg os s w).2.sys = w.sys := by
  unfold logToKmsg logToKmsg.write
  split
  · rfl
  · split
    · simp only [World.call]
      split
      · exact hq.openKmsg _
      · split
        · simp only [hq.closeKmsg, hq.writeKmsg, hq.openKmsg]
        · simp only [hq.writeKmsg, hq.openKmsg]
    · simp only [World.call]
      split
      · simp only [hq.closeKmsg, hq.writeKmsg]
      · simp only [hq.writeKmsg]

theorem logsOnly_Logf {σ : Type} (os : OS σ) (hq : QuietKmsg os) (s : GoString) (w : World σ) :
    logsOnly w (Logf os s w) := by
  obtain ⟨evs, he, hl, _⟩ := Logf_trace os s w
  refine ⟨?_, evs, he, hl⟩
  unfold Logf
  simp only []
  split
  · exact logToKmsg_sys os hq _ w
  · exact logToKmsg_sys os hq _ w

theorem logsOnly_Debugf {σ : Type} (os : OS σ) (hq : QuietKmsg os) (s : GoString)
    (w : World σ) : logsOnly w (Debugf os s w) := by
  unfold Debugf
  split
  · exact logsOnly_Logf os hq s w
  · exact logsOnly_refl w

theorem logsOnly_convert {σ : Type} (os : OS σ) (hq : QuietKmsg os) (cv : Converters)
    (isUserFlag : Bool) (name : GoString) (unit : UnitFile) (w : World σ) :
    logsOnly w (main.convert os cv isUserFlag name unit w).2 := by
  unfold main.convert
  split
  · unfold warnIfAmbiguousName
    split
    · exact logsOnly_refl _
    · split
      · exact logsOnly_Logf os hq _ _
      · exact logsOnly_refl _
  · split
    · exact logsOnly_refl _
    · split
      · exact logsOnly_refl _
      · split
        · exact logsOnly_refl _
        · exact logsOnly_Logf os hq _ _

theorem sameWrites_refl {σ : Type} (w : World σ) : sameWrites w.trace w.trace w w :=
  ⟨rfl, [], [], by simp, by simp, rfl⟩

/-- Both worlds go on to worlds with the same system state, by the same file-system
writes. -/
theorem sameWrites_step {σ : Type} {b1 b2 : List Event} {w1 w2 v1 v2 : World σ}
    (h : sameWrites b1 b2 w1 w2) (x1 x2 : List Event) (hs : v1.sys = v2.sys)
    (h1 : v1.trace = w1.trace ++ x1) (h2 : v2.trace = w2.trace ++ x2)
    (hx : fsWrites x1 = fsWrites x2) : sameWrites b1 b2 v1 v2 := by
  obtain ⟨_, e1, e2, t1, t2, he⟩ := h
  exact ⟨hs, e1 ++ x1, e2 ++ x2, by rw [h1, t1, List.append_assoc],
    by rw [h2, t2, List.append_assoc], by rw [fsWrites_append, fsWrites_append, he, hx]⟩

theorem sameWrites_left {σ : Type} {b1 b2 : List Event} {w1 w2 v1 : World σ}
    (h : sameWrites b1 b2 w1 w2) (hl : logsOnly w1 v1) : sameWrites b1 b2 v1 w2 := by
  obtain ⟨hs, evs, ht, hlog⟩ := hl
  exact sameWrites_step h evs [] (by rw [hs, h.1]) ht (by simp)
    (by rw [fsWrites_log evs hlog]; rfl)

theorem sameWrites_right {σ : Type} {b1 b2 : List Event} {w1 w2 v2 : World σ}
    (h : sameWrites b1 b2 w1 w2) (hl : logsOnly w2 v2) : sameWrites b1 b2 w1 v2 := by
  obtain ⟨hs, evs, ht, hlog⟩ := hl
  exact sameWrites_step h [] evs (by rw [hs, h.1]) (by simp) ht
    (by rw [fsWrites_log evs hlog]; rfl)

theorem sameWrites_both {σ : Type} {b1 b2 : List Event} {w1 w2 v1 v2 : World σ}
    (h : sameWrites b1 b2 w1 w2) (h1 : logsOnly w1 v1) (h2 : logsOnly w2 v2) :
    sameWrites b1 b2 v1 v2 :=
  sameWrites_right (sameWrites_left h h1) h2

/-- The same system call made from two worlds with the same system state has the same
result and leaves worlds with the same system state. -/
theorem sameWrites_call {σ : Type} {b1 b2 : List Event} {w1 w2 : World σ}
    (h : sameWrites b1 b2 w1 w2) (f : σ → Option Error × σ) (ev : Option Error → Event) :
    (w1.call (f w1.sys) ev).1 = (w2.call (f w2.sys) ev).1 ∧
    sameWrites b1 b2 (w1.call (f w1.sys) ev).2 (w2.call (f w2.sys) ev).2 := by
  have hs := h.1
  refine ⟨by simp only [World.call, hs], ?_⟩
  exact sameWrites_step h [ev (f w1.sys).1] [ev (f w2.sys).1] (by simp only [World.call, hs])
    rfl rfl (by rw [hs])

theorem sameWrites_Write {σ : Type} (os : OS σ) {b1 b2 : List Event} {w1 w2 : World σ}
    (h : sameWrites b1 b2 w1 w2) (f : UnitFile) (p : GoString) :
    (f.Write os p w1).1 = (f.Write os p w2).1 ∧
    sameWrites b1 b2 (f.Write os p w1).2 (f.Write os p w2).2 := by
  unfold UnitFile.Write
  cases f.ToString with
  | error e => exact ⟨rfl, h⟩
  | ok data => exact sameWrites_call h (os.Write p data) (Event.write p data)

theorem sameWrites_close {σ : Type} (os : OS σ) {b1 b2 : List Event} {w1 w2 : World σ}
    (h : sameWrites b1 b2 w1 w2) (p : GoString) :
    sameWrites b1 b2
      { w1 with sys := os.Close p w1.sys, trace := w1.trace ++ [Event.close p] }
      { w2 with sys := os.Close p w2.sys, trace := w2.trace ++ [Event.close p] } :=
  sameWrites_step h [Event.close p] [Event.close p] (by simp only [h.1]) rfl rfl rfl

/-- Writing a unit from two worlds with the same system state gives the same error and the
same unit, by the same file-system writes. -/
theorem sameWrites_generateServiceFile {σ : Type} (os : OS σ) (hq : QuietKmsg os)
    {b1 b2 : List Event} {w1 w2 : World σ} (h : sameWrites b1 b2 w1 w2) (service : UnitFile) :
    (generateServiceFile os service w1).1 = (generateServiceFile os service w2).1 ∧
    (generateServiceFile os service w1).2.1 = (generateServiceFile os service w2).2.1 ∧
    sameWrites b1 b2 (generateServiceFile os service w1).2.2
      (generateServiceFile os service w2).2.2 := by
  have hd := sameWrites_both h
    (logsOnly_Debugf os hq (str "writing '" ++ service.Path ++ str "'") w1)
    (logsOnly_Debugf os hq (str "writing '" ++ service.Path ++ str "'") w2)
  obtain ⟨c1, c2⟩ := sameWrites_call hd (os.Create service.Path) (Event.create service.Path)
  obtain ⟨r1, r2⟩ := sameWrites_Write os c2
    (service.PrependComment (str "")
      [str "Automatically generated by " ++ os.Args0, str ""])
    service.Path
  obtain ⟨y1, y2⟩ := sameWrites_call r2 (os.Sync service.Path) (Event.sync service.Path)
  unfold generateServiceFile
  simp only [UnitFile.PrependComment] at r1 r2 y1 y2 ⊢
  simp only [← c1]
  split
  · exact ⟨rfl, rfl, c2⟩
  · simp only [← r1]
    split
    · exact ⟨rfl, rfl, sameWrites_close os r2 service.Path⟩
    · simp only [← y1]
      split
      · exact ⟨rfl, rfl, sameWrites_close os y2 service.Path⟩
      · exact ⟨rfl, rfl, sameWrites_close os y2 service.Path⟩

theorem sameWrites_create {σ : Type} (os : OS σ) (hq : QuietKmsg os)
    {b1 b2 : List Event} {w1 w2 : World σ} (h : sameWrites b1 b2 w1 w2)
    (outputPath symlinkRel target : GoString) :
    sameWrites b1 b2 (enableServiceFile.create os outputPath symlinkRel target w1)
      (enableServiceFile.create os outputPath symlinkRel target w2) := by
  obtain ⟨m1, m2⟩ := sameWrites_call h
    (os.MkdirAll (path.Dir (path.Join [outputPath, symlinkRel])))
    (Event.mkdirAll (path.Dir (path.Join [outputPath, symlinkRel])))
  unfold enableServiceFile.create
  simp only [← m1]
  split
  · exact sameWrites_both m2 (logsOnly_Logf os hq _ _) (logsOnly_Logf os hq _ _)
  · have hd := sameWrites_both m2
      (logsOnly_Debugf os hq (str "Creating symlink " ++ path.Join [outputPath, symlinkRel] ++
        str " -> " ++ target) _)
      (logsOnly_Debugf os hq (str "Creating symlink " ++ path.Join [outputPath, symlinkRel] ++
        str " -> " ++ target) _)
    obtain ⟨_, r2⟩ := sameWrites_call hd (os.Remove (path.Join [outputPath, symlinkRel]))
      (Event.remove (path.Join [outputPath, symlinkRel]))
    obtain ⟨s1, s2⟩ := sameWrites_call r2
      (os.Symlink target (path.Join [outputPath, symlinkRel]))
      (Event.symlink target (path.Join [outputPath, symlinkRel]))
    simp only [← s1]
    split
    · exact sameWrites_both s2 (logsOnly_Logf os hq _ _) (logsOnly_Logf os hq _ _)
    · exact s2

theorem sameWrites_enableServiceFile {σ : Type} (os : OS σ) (hq : QuietKmsg os)
    {b1 b2 : List Event} {w1 w2 : World σ} (h : sameWrites b1 b2 w1 w2)
    (outputPath : GoString) (service : UnitFile) :
    sameWrites b1 b2 (enableServiceFile os outputPath service w1)
      (enableServiceFile os outputPath service w2) := by
  unfold enableServiceFile enableServiceFile.links
  generalize enableServiceFile.symlinks service = ls
  induction ls generalizing w1 w2 with
  | nil => exact h
  | cons l rest ih =>
    simp only [List.foldl_cons]
    apply ih
    unfold enableServiceFile.link
    cases filepath.Rel (path.Dir l) service.Filename with
    | error err => exact sameWrites_both h (logsOnly_Logf os hq _ _) (logsOnly_Logf os hq _ _)
    | ok target => exact sameWrites_create os hq h outputPath l target

theorem sameWrites_emit {σ : Type} (os : OS σ) (hq : QuietKmsg os)
    {b1 b2 : List Event} {s1 s2 : LoopState σ} (h : sameWrites b1 b2 s1.world s2.world)
    (outputPath name : GoString) (res : Except Error UnitFile) :
    sameWrites b1 b2 (main.emit os false outputPath name res s1).world
      (main.emit os false outputPath name res s2).world := by
  unfold main.emit
  cases res with
  | error err => exact sameWrites_both h (logsOnly_Logf os hq _ _) (logsOnly_Logf os hq _ _)
  | ok service =>
    obtain ⟨g1, g2, g3⟩ := sameWrites_generateServiceFile os hq h
      { service with Path := path.Join [outputPath, service.Filename] }
    simp only [Bool.false_eq_true, if_false]
    rw [← g1, ← g2]
    apply sameWrites_enableServiceFile os hq
    split
    · exact sameWrites_both g3 (logsOnly_Logf os hq _ _) (logsOnly_Logf os hq _ _)
    · exact g3

theorem sameWrites_body {σ : Type} (os : OS σ) (hq : QuietKmsg os) (cv : Converters)
    (isUserFlag : Bool) {b1 b2 : List Event} {s1 s2 : LoopState σ}
    (h : sameWrites b1 b2 s1.world s2.world) (outputPath name : GoString) (unit : UnitFile) :
    sameWrites b1 b2 (main.body os cv isUserFlag false outputPath name unit s1).world
      (main.body os cv isUserFlag false outputPath name unit s2).world := by
  have c1 := (convert_converted os cv isUserFlag name unit s1.world).1
  have c2 := (convert_converted os cv isUserFlag name unit s2.world).1
  have hc := sameWrites_both h (logsOnly_convert os hq cv isUserFlag name unit s1.world)
    (logsOnly_convert os hq cv isUserFlag name unit s2.world)
  unfold main.body
  simp only [c1, c2]
  cases main.converted cv isUserFlag name unit with
  | none => exact hc
  | some res =>
    exact @sameWrites_emit σ os hq b1 b2
      (LoopState.mk (main.convert os cv isUserFlag name unit s1.world).2 s1.exitCode)
      (LoopState.mk (main.convert os cv isUserFlag name unit s2.world).2 s2.exitCode)
      hc outputPath name res

theorem sameWrites_loop {σ : Type} (os : OS σ) (hq : QuietKmsg os) (cv : Converters)
    (isUserFlag : Bool) (outputPath : GoString) (entries : Units) {b1 b2 : List Event}
    {s1 s2 : LoopState σ} (h : sameWrites b1 b2 s1.world s2.world) :
    sameWrites b1 b2 (main.loop os cv isUserFlag false outputPath entries s1).world
      (main.loop os cv isUserFlag false outputPath entries s2).world := by
  induction entries generalizing s1 s2 with
  | nil => exact h
  | cons e rest ih =>
    unfold main.loop at ih ⊢
    simp only [List.foldl_cons]
    exact ih (sameWrites_body os hq cv isUserFlag h outputPath e.1 e.2)

/-- A unit that fails to convert leaves the other units as they are: the loop over entries
with such a unit in their midst ends in the same system state, reached by the same
file-system writes, as the loop over the entries without it. -/
theorem loop_skip_failed {σ : Type} (os : OS σ) (hq : QuietKmsg os) (cv : Converters)
    (isUserFlag : Bool) (outputPath name : GoString) (unit : UnitFile) (err : Error)
    (pre post : Units) (st : LoopState σ)
    (h : main.converted cv isUserFlag name unit = some (.error err)) :
    (main.loop os cv isUserFlag false outputPath (pre ++ (name, unit) :: post) st).world.sys =
      (main.loop os cv isUserFlag false outputPath (pre ++ post) st).world.sys ∧
    fsWrites
        (main.loop os cv isUserFlag false outputPath (pre ++ (name, unit) :: post) st).world.trace =
      fsWrites (main.loop os cv isUserFlag false outputPath (pre ++ post) st).world.trace := by
  have hb := body_conversion_error os cv isUserFlag false outputPath name unit
    (main.loop os cv isUserFlag false outputPath pre st) err h
  have h1 : sameWrites st.world.trace st.world.trace
      (main.loop os cv isUserFlag false outputPath pre st).world
      (main.loop os cv isUserFlag false outputPath pre st).world :=
    sameWrites_loop os hq cv isUserFlag outputPath pre (sameWrites_refl st.world)
  have h2 : sameWrites st.world.trace st.world.trace
      (main.body os cv isUserFlag false outputPath name unit
        (main.loop os cv isUserFlag false outputPath pre st)).world
      (main.loop os cv isUserFlag false outputPath pre st).world := by
    rw [hb]
    exact sameWrites_left h1
      (logsOnly_trans (logsOnly_convert os hq cv isUserFlag name unit _)
        (logsOnly_Logf os hq _ _))
  have h3 := sameWrites_loop os hq cv isUserFlag outputPath post h2
  have e1 : main.loop os cv isUserFlag false outputPath (pre ++ (name, unit) :: post) st =
      main.loop os cv isUserFlag false outputPath post
        (main.body os cv isUserFlag false outputPath name unit
          (main.loop os cv isUserFlag false outputPath pre st)) := by
    rw [loop_append]
    rfl
  rw [e1, loop_append]
  obtain ⟨hs, x1, x2, t1, t2, hx⟩ := h3
  exact ⟨hs, by rw [t1, t2, fsWrites_append, fsWrites_append, hx]⟩

theorem fsWrites_logsOnly {σ : Type} {w w2 : World σ} (h : logsOnly w w2) :
    fsWrites w2.trace = fsWrites w.trace := by
  obtain ⟨_, evs, ht, hl⟩ := h
  rw [ht, fsWrites_append, fsWrites_log evs hl, List.append_nil]

/-- C17. Partial-failure isolation outside a dry run, once the output directory has been
created. The exit code of `main` is 0 whatever happens in the loop. A unit whose conversion
returns an error gets, after the `switch`, one call of `Logf` with the message `Error
converting '<name>', ignoring: <error>` and nothing else: one log line, and no file-system
write, so no service file and no symlink. A unit whose conversion succeeds is written by
`generateServiceFile` to `path.Join(outputPath, Filename)` and enabled by
`enableServiceFile`, also when writing fails. When logging to the kernel log leaves the
rest of the system as it is, the loop over entries with a failing unit among them ends in
the same system state, by the same file-system writes, as the loop without that unit. -/
theorem main_conversion_error_isolated {σ : Type} (os : OS σ) (cv : Converters)
    (order : RangeOrder) (cmd : CommandLine) (w : World σ) (hv : cmd.versionFlag = false)
    (hd : cmd.dryRunFlag = false) (hargs : cmd.args ≠ [])
    (hm : (os.MkdirAll (main.outputPath cmd) (main.loaded os cmd w).2.sys).1 = none) :
    (main os cv order cmd w).exitCode = 0 ∧
    ((main.loaded os cmd w).1 ≠ [] →
      main os cv order cmd w =
        main.loop os cv (main.isUserFlag os cmd) false (main.outputPath cmd)
          (order.visit (main.loaded os cmd w).1)
          (LoopState.mk ((main.loaded os cmd w).2.call
            (os.MkdirAll (main.outputPath cmd) (main.loaded os cmd w).2.sys)
            (Event.mkdirAll (main.outputPath cmd))).2 0)) ∧
    (∀ (isUserFlag : Bool) (outputPath name : GoString) (unit : UnitFile) (st : LoopState σ)
        (err : Error),
      main.converted cv isUserFlag name unit = some (.error err) →
      main.body os cv isUserFlag false outputPath name unit st =
        LoopState.mk (Logf os (str "Error converting '" ++ name ++ str "', ignoring: " ++ err)
          (main.convert os cv isUserFlag name unit st.world).2) st.exitCode ∧
      fsWrites (main.body os cv isUserFlag false outputPath name unit st).world.trace =
        fsWrites st.world.trace ∧
      ∃ line,
        (line = Logf.line os (str "Error converting '" ++ name ++ str "', ignoring: " ++ err) ∨
          line = Logf.line os (str "Error converting '" ++ name ++ str "', ignoring: " ++ err)
            ++ str "\n") ∧
        delivered (main.body os cv isUserFlag false outputPath name unit st).world.trace =
          delivered (main.convert os cv isUserFlag name unit st.world).2.trace ++ [line]) ∧
    (∀ (isUserFlag : Bool) (outputPath name : GoString) (unit service : UnitFile)
        (st : LoopState σ) (g : Option Error × UnitFile × World σ),
      main.converted cv isUserFlag name unit = some (.ok service) →
      g = generateServiceFile os
        { service with Path := path.Join [outputPath, service.Filename] }
        (main.convert os cv isUserFlag name unit st.world).2 →
      (g.1 = none →
        (main.body os cv isUserFlag false outputPath name unit st).world =
          enableServiceFile os outputPath g.2.1 g.2.2) ∧
      (∀ e, g.1 = some e →
        (main.body os cv isUserFlag false outputPath name unit st).world =
          enableServiceFile os outputPath g.2.1
            (Logf os (str "Error writing '" ++ path.Join [outputPath, service.Filename] ++
              str "'o: " ++ e) g.2.2))) ∧
    (QuietKmsg os →
      ∀ (isUserFlag : Bool) (outputPath name : GoString) (unit : UnitFile) (err : Error)
        (pre post : Units) (st : LoopState σ),
      main.converted cv isUserFlag name unit = some (.error err) →
      (main.loop os cv isUserFlag false outputPath (pre ++ (name, unit) :: post) st).world.sys =
        (main.loop os cv isUserFlag false outputPath (pre ++ post) st).world.sys ∧
      fsWrites (main.loop os cv isUserFlag false outputPath
          (pre ++ (name, unit) :: post) st).world.trace =
        fsWrites (main.loop os cv isUserFlag false outputPath (pre ++ post) st).world.trace) := by
  have hgen := main_eq_generate os cv order cmd w hv (Or.inr hargs)
  have hcall : ((main.loaded os cmd w).2.call
      (os.MkdirAll (main.outputPath cmd) (main.loaded os cmd w).2.sys)
      (Event.mkdirAll (main.outputPath cmd))).1 = none := hm
  have hloop : (main.loaded os cmd w).1 ≠ [] →
      main os cv order cmd w =
        main.loop os cv (main.isUserFlag os cmd) false (main.outputPath cmd)
          (order.visit (main.loaded os cmd w).1)
          (LoopState.mk ((main.loaded os cmd w).2.call
            (os.MkdirAll (main.outputPath cmd) (main.loaded os cmd w).2.sys)
            (Event.mkdirAll (main.outputPath cmd))).2 0) := by
    intro hu
    have hlen : ¬ (main.loaded os cmd w).1.length = 0 := fun h => hu (List.length_eq_zero.mp h)
    rw [hgen]
    unfold main.generate
    simp only [hlen, if_false, hd, Bool.not_false, if_true, hcall]
  refine ⟨?_, hloop, ?_, ?_, ?_⟩
  · by_cases hu : (main.loaded os cmd w).1 = []
    · rw [hgen]
      unfold main.generate
      simp [hu]
    · rw [hloop hu, loop_exitCode]
  · intro isUserFlag outputPath name unit st err h
    have hb := body_conversion_error os cv isUserFlag false outputPath name unit st err h
    have hq := (convert_converted os cv isUserFlag name unit st.world).2
    rw [hb]
    refine ⟨rfl, ?_, ?_⟩
    · rw [(quietly_observe (quietly_Logf os _ _)).1, (quietly_observe hq).1]
    · rcases Logf_delivered os (str "Error converting '" ++ name ++ str "', ignoring: " ++ err)
        (main.convert os cv isUserFlag name unit st.world).2 with h1 | h1
      · exact ⟨_, Or.inl rfl, h1⟩
      · exact ⟨_, Or.inr rfl, h1⟩
  · intro isUserFlag outputPath name unit service st g h hg
    have hb := body_conversion_ok os cv isUserFlag outputPath name unit st service h
    rw [hb]
    unfold main.emit
    simp only [Bool.false_eq_true, if_false, ← hg]
    constructor
    · intro h0
      simp only [h0]
    · intro e he
      simp only [he]
  · intro hq isUserFlag outputPath name unit err pre post st h
    exact loop_skip_failed os hq cv isUserFlag outputPath name unit err pre post st h

set_option maxRecDepth 100000 in
theorem main_conversion_error_isolated_witness :
    (main (sourceStore []) sampleConverters ⟨id, fun _ => List.Perm.refl _⟩
      ⟨false, false, none, false, false, [str "/run/gen"]⟩ (World.start [])).exitCode = 0 :=
  (main_conversion_error_isolated (sourceStore []) sampleConverters
    ⟨id, fun _ => List.Perm.refl _⟩ ⟨false, false, none, false, false, [str "/run/gen"]⟩
    (World.start []) rfl rfl (by simp) (by rfl)).1

/-- The operating systems `linkStore` and `sourceStore` satisfy `QuietKmsg`: their kernel
log accepts every call and keeps no state. -/
theorem sourceStore_quiet (broken : List GoString) : QuietKmsg (sourceStore broken) :=
  ⟨fun _ => rfl, fun _ _ => rfl, fun _ => rfl⟩

/-! ## The properties at concrete inputs -/

set_option maxRecDepth 100000 in
theorem isExtSupported_iff_extension_witness :
    Units.get (loadUnitsFromDir (sourceStore []) quadlet.UnitDirAdmin ([], World.start [])).1
      (str "notes.txt") =
      Units.get ([] : Units) (str "notes.txt") :=
  (isExtSupported_iff_extension (sourceStore []) quadlet.UnitDirAdmin ([], World.start [])
    (str "notes.txt")).2.1 (by decide)

set_option maxRecDepth 100000 in
theorem loadUnitsFromDir_keeps_entries_witness :
    Units.get (loadUnitsFromDir (sourceStore []) quadlet.UnitDirDistro
      ([(str "web.container", shortNameContainer)], World.start [])).1 (str "web.container") =
      some shortNameContainer :=
  (loadUnitsFromDir_keeps_entries (sourceStore []) quadlet.UnitDirDistro
    ([(str "web.container", shortNameContainer)], World.start [])).1
    (str "web.container") shortNameContainer (by rfl)

set_option maxRecDepth 100000 in
theorem main_load_first_parsed_witness :
    Units.get (main.load (sourceStore [str "/etc/containers/systemd/web.container"])
      [quadlet.UnitDirAdmin, quadlet.UnitDirDistro] (World.start [])).1
      (str "web.container") =
      some (UnitFile.parsed (str "/usr/share/containers/systemd/web.container")) :=
  (main_load_first_parsed (sourceStore [str "/etc/containers/systemd/web.container"])
    [quadlet.UnitDirAdmin, quadlet.UnitDirDistro] (World.start [])
    (str "web.container")).2 [quadlet.UnitDirAdmin] [] quadlet.UnitDirDistro
    (UnitFile.parsed (str "/usr/share/containers/systemd/web.container"))
    (by intro p hp; rw [List.mem_singleton.mp hp]; rfl) (by rfl)

set_option maxRecDepth 100000 in
theorem Logf_one_sink_witness :
    kmsgLines (Logf faultyStore (str "hello") (World.start [])).trace =
      kmsgLines (World.start ([] : Links)).trace ∧
    stderrTexts (Logf faultyStore (str "hello") (World.start [])).trace =
      stderrTexts (World.start ([] : Links)).trace ++
        [Logf.line faultyStore (str "hello") ++ str "\n"] :=
  (Logf_one_sink faultyStore (str "hello") (World.start [])).2.2.1 (by rfl)

set_option maxRecDepth 100000 in
/-- C22, counterexample. For the unit `web.service` without comment lines, written by the
program `quadlet` to `/run/gen/web.service`, the comment lines of the first group are not
the three lines ``, `Automatically generated by quadlet`, ``: they are the two lines
`Automatically generated by quadlet` and ``, and the text written to the file has two
comment lines. -/
theorem generateServiceFile_three_lines_counterexample :
    ¬ ((generateServiceFile (linkStore 42 (str "quadlet"))
        { sampleService with Path := str "/run/gen/web.service" }
        (World.start [])).2.1.comments (str "") =
      [str "", str "Automatically generated by quadlet", str ""] ++
        sampleService.comments (str "")) ∧
    (generateServiceFile (linkStore 42 (str "quadlet"))
        { sampleService with Path := str "/run/gen/web.service" }
        (World.start [])).2.1.comments (str "") =
      [str "Automatically generated by quadlet", str ""] ∧
    writeCalls (generateServiceFile (linkStore 42 (str "quadlet"))
      { sampleService with Path := str "/run/gen/web.service" } (World.start [])).2.2.trace =
      [(str "/run/gen/web.service",
        str "# Automatically generated by quadlet\n# \n[Service]\n")] := by
  decide

set_option maxRecDepth 100000 in
theorem generateServiceFile_first_error_witness :
    writeCalls (generateServiceFile (linkStore 42 (str "quadlet"))
      { sampleService with Path := str "/run/gen/web.service" } (World.start [])).2.2.trace =
      writeCalls (World.start ([] : Links)).trace ++
        [(str "/run/gen/web.service",
          str "# Automatically generated by quadlet\n# \n[Service]\n")] :=
  (generateServiceFile_first_error (linkStore 42 (str "quadlet"))
    { sampleService with Path := str "/run/gen/web.service" } (World.start [])).2.2.2.2.2
    (str "# Automatically generated by quadlet\n# \n[Service]\n") (by rfl) (by decide)

set_option maxRecDepth 100000 in
theorem warnIfAmbiguousName_iff_witness :
    warnIfAmbiguousName (linkStore 42 (str "quadlet")) shortNameContainer (World.start []) =
      Logf (linkStore 42 (str "quadlet"))
        (str "Warning: " ++ shortNameContainer.Filename ++ str " specifies the image \"" ++
          str "fedora" ++ str "\" which not a fully qualified image name. This is not ideal for performance and security reasons. See the podman-pull manpage discussion of short-name-aliases.conf for details.")
        (World.start []) :=
  (warnIfAmbiguousName_iff (linkStore 42 (str "quadlet")) shortNameContainer
    (World.start [])).2.1 (str "fedora") (by rfl) (by decide)

set_option maxRecDepth 100000 in
theorem convert_dispatch_total_witness :
    ∀ e ∈ (main.load (sourceStore []) [quadlet.UnitDirAdmin, quadlet.UnitDirDistro]
      (World.start [])).1, isExtSupported e.1 = true :=
  (convert_dispatch_total (sourceStore []) sampleConverters false
    [quadlet.UnitDirAdmin, quadlet.UnitDirDistro] (World.start [])).1

set_option maxRecDepth 100000 in
theorem logToKmsg_latch_witness :
    (logToKmsg faultyStore (str "one") (World.start [])).1 = false ∧
    (logToKmsg faultyStore (str "one") (World.start [])).2.noKmsg = true ∧
    (logToKmsg faultyStore (str "one") (World.start [])).2.kmsgFile = false ∧
    (logToKmsg faultyStore (str "one") (World.start [])).2.trace =
      (World.start ([] : Links)).trace ++
        [Event.openKmsg (faultyStore.OpenKmsg (World.start ([] : Links)).sys).1] ∧
    logToKmsg faultyStore (str "two") (logToKmsg faultyStore (str "one") (World.start [])).2 =
      (false, (logToKmsg faultyStore (str "one") (World.start [])).2) :=
  (logToKmsg_latch faultyStore (str "one") (str "two") (World.start [])).2.2.1
    (by rfl) (by rfl) (by decide)

end Quadlet
